import Mathlib

/-!
Analog multiplexer sequencer (amux.c): shallow embedding and checked properties.

The C handle `amux_t` becomes a record, the memory-mapped registers become a
function from addresses to 32-bit words, and every public function of `amux.c`
becomes a state-passing function.  A handle pointer is an `Option amux_t`
(`none` is the NULL pointer); other pointers are addresses (`0` is NULL).
Functions that index an array with an unchecked index, or compute a remainder
by a divisor that may be zero, return an `Option`: `none` stands for undefined
behaviour of the C program (out-of-bounds access, division by zero).
-/

set_option linter.unusedVariables false

/-! ## Constants -/

/-- Capacity of the connection list (amux.h, line 76). -/
def AMUX_MAX_NUM_CONNECTIONS : Nat := 32

/-- Sentinel cursor value (amux.h, line 79). -/
def AMUX_CONN_UNKNOWN : Nat := 0xFF

/-- Modelled from the spec: the PDL macro CY_GPIO_PINS_MAX (cy_gpio.h is not part
of the sources); the pin width of a group, 8, as the parameter comment
"mask: 8-bit mask" of AMux_AddPort and the type uint8_t of the mask give it. -/
def CY_GPIO_PINS_MAX : Nat := 8

/-- Modelled from the spec: the PDL macro CY_GPIO_PRT_HALF (cy_gpio.h is not part
of the sources); half of the pin width of a group, 4, matching the literal
`pinNum-4` in the upper-half branch of AMux_AddPort. -/
def CY_GPIO_PRT_HALF : Nat := 4

/-- Device constants of the PDL headers that the sources use but do not define;
they are parameters of the development. -/
structure Pdl where
  CY_GPIO_BASE : Nat
  GPIO_PRT_SECTION_SIZE : Nat
  CY_HSIOM_BASE : Nat
  HSIOM_PRT_SECTION_SIZE : Nat
  /-- byte offset of the field PORT_SEL0 inside HSIOM_PRT_Type -/
  PORT_SEL0 : Nat
  /-- byte offset of the field PORT_SEL1 inside HSIOM_PRT_Type -/
  PORT_SEL1 : Nat
  HSIOM_SEL_AMUXA : Nat
  HSIOM_SEL_AMUXB : Nat

/-- Sample values of the device constants (those of a PSoC 6 family member), used
for concrete evaluations only. -/
def psoc6 : Pdl :=
  { CY_GPIO_BASE := 0x40320000, GPIO_PRT_SECTION_SIZE := 0x80,
    CY_HSIOM_BASE := 0x40310000, HSIOM_PRT_SECTION_SIZE := 0x10,
    PORT_SEL0 := 0, PORT_SEL1 := 4,
    HSIOM_SEL_AMUXA := 6, HSIOM_SEL_AMUXB := 7 }

/-- Enumerator AMUX_A of en_amux_select_t. -/
def AMUX_A (pdl : Pdl) : Nat := pdl.HSIOM_SEL_AMUXA

/-- Enumerator AMUX_B of en_amux_select_t. -/
def AMUX_B (pdl : Pdl) : Nat := pdl.HSIOM_SEL_AMUXB

/-! ## Data model -/

/-- Status codes of the multiplexer API (amux.h). -/
inductive en_amux_status_t where
  | AMUX_SUCCESS
  | AMUX_ERROR
  deriving DecidableEq, Repr

open en_amux_status_t

/-- The handle structure amux_t (amux.h).  The two arrays are lists, of
AMUX_MAX_NUM_CONNECTIONS entries in a well-formed handle. -/
structure amux_t where
  amux_sel : Nat
  connect_port : List Nat
  connect_pin : List Nat
  curr_conn : Nat
  num_conn : Nat
  dma_en : Bool
  dma_base : Nat
  dma_chan : Nat
  deriving DecidableEq, Repr

/-- Address a transfer descriptor reads its word from. -/
inductive DmaSrc where
  /-- the NULL of amux_dma_descriptor_config -/
  | null
  /-- address of the constant amux_all_zero -/
  | amux_all_zero
  /-- address of entry i of the connect_pin array of the handle -/
  | connect_pin (i : Nat)
  deriving DecidableEq, Repr

/-- Trigger kinds of a descriptor that the sources use. -/
inductive cy_en_dma_trigger_type_t where
  | CY_DMA_1ELEMENT
  | CY_DMA_DESCR
  | CY_DMA_DESCR_CHAIN
  deriving DecidableEq, Repr

open cy_en_dma_trigger_type_t

/-- The fields of a transfer descriptor that amux.c programs.  The successor is
the index of a slot of the global array amux_dma_descriptor (none is NULL). -/
structure cy_stc_dma_descriptor_t where
  srcAddress : DmaSrc
  dstAddress : Nat
  nextDescriptor : Option Nat
  triggerInType : cy_en_dma_trigger_type_t
  triggerOutType : cy_en_dma_trigger_type_t
  interruptType : cy_en_dma_trigger_type_t
  xCount : Nat
  yCount : Nat
  deriving DecidableEq, Repr

/-- The constant amux_dma_descriptor_config (amux.c, lines 56-76). -/
def amux_dma_descriptor_config : cy_stc_dma_descriptor_t :=
  { srcAddress := DmaSrc.null, dstAddress := 0, nextDescriptor := none,
    triggerInType := CY_DMA_DESCR_CHAIN, triggerOutType := CY_DMA_DESCR,
    interruptType := CY_DMA_1ELEMENT, xCount := 1, yCount := 1 }

/-- Calls into the channel interface of the transfer engine, as a trace. -/
inductive DmaCall where
  | Channel_Init (base chan desc : Nat)
  | Channel_SetDescriptor (base chan desc : Nat)
  | Channel_Enable (base chan : Nat)
  | Channel_Disable (base chan : Nat)
  | Channel_DeInit (base chan : Nat)
  | Enable (base : Nat)
  deriving DecidableEq, Repr

/-- Everything outside the handle: the memory-mapped registers, the trace of
register writes made by the CPU (oldest first), the global descriptor array
amux_dma_descriptor (2 * AMUX_MAX_NUM_CONNECTIONS slots when well formed) and
the trace of calls into the transfer engine. -/
structure Hw where
  regs : Nat → Nat
  log : List (Nat × Nat)
  amux_dma_descriptor : List cy_stc_dma_descriptor_t
  dma_calls : List DmaCall

/-- Register contents after storing `val` at `addr`. -/
def storeWord (regs : Nat → Nat) (addr val : Nat) : Nat → Nat :=
  fun x => if x = addr then val else regs x

/-- The register write CY_SET_REG32(addr, val), also used for the two direct
stores to PORT_SEL0 and PORT_SEL1: the register changes and the write is
recorded. -/
def CY_SET_REG32 (addr val : Nat) (hw : Hw) : Hw :=
  { hw with regs := storeWord hw.regs addr val, log := hw.log ++ [(addr, val)] }

/-- The ordered connection list of a handle: the pairs (register, value) at
positions 0 .. num_conn - 1. -/
def connList (a : amux_t) : List (Nat × Nat) :=
  (List.range a.num_conn).map (fun i => (a.connect_port.getD i 0, a.connect_pin.getD i 0))

/-- Array lengths of a handle as the C type fixes them. -/
def amux_t.wf (a : amux_t) : Prop :=
  a.connect_port.length = AMUX_MAX_NUM_CONNECTIONS ∧
  a.connect_pin.length = AMUX_MAX_NUM_CONNECTIONS

instance (a : amux_t) : Decidable a.wf := by
  unfold amux_t.wf; infer_instance

/-- Register address of the connection at position `i`. -/
def amux_t.port (a : amux_t) (i : Nat) : Nat := a.connect_port.getD i 0

/-- Value of the connection at position `i`. -/
def amux_t.pin (a : amux_t) (i : Nat) : Nat := a.connect_pin.getD i 0

/-- All registers of the connection set hold 0. -/
def allClear (a : amux_t) (regs : Nat → Nat) : Prop :=
  ∀ j, j < a.num_conn → regs (a.port j) = 0

/-- The cursor is a position of the list, the register of the cursor's connection
holds that connection's value, and every other register address occurring in
the connection list holds 0. -/
def oneAsserted (a : amux_t) (regs : Nat → Nat) : Prop :=
  a.curr_conn < a.num_conn ∧ regs (a.port a.curr_conn) = a.pin a.curr_conn ∧
  ∀ j, j < a.num_conn → a.port j ≠ a.port a.curr_conn → regs (a.port j) = 0

/-! ## AMux_Init -/

/-- AMux_Init (amux.c, lines 101-122). -/
def AMux_Init (pdl : Pdl) (amux : Option amux_t) (amux_sel : Nat) :
    en_amux_status_t × Option amux_t :=
  match amux with
  | none => (AMUX_ERROR, none)
  | some a =>
    let a1 := { a with num_conn := 0, curr_conn := AMUX_CONN_UNKNOWN,
                       dma_base := 0, dma_en := false }
    if amux_sel ≠ AMUX_A pdl ∧ amux_sel ≠ AMUX_B pdl then
      (AMUX_ERROR, some a1)
    else
      (AMUX_SUCCESS, some { a1 with amux_sel := amux_sel })

/-! ## AMux_AddPort -/

/-- The test `(mask & (1 << pinNum)) != 0` of AMux_AddPort. -/
def maskBit (mask pinNum : Nat) : Bool :=
  (mask &&& (1 <<< pinNum)) != 0

/-- The connection AMux_AddPort stores for pin `pinNum` (amux.c, lines 200-213):
the register address and the 32-bit value to write to it. -/
def pinConnection (pdl : Pdl) (portAddrHSIOM amux_sel pinNum : Nat) : Nat × Nat :=
  if pinNum < CY_GPIO_PRT_HALF then
    (portAddrHSIOM + pdl.PORT_SEL0, (amux_sel <<< (8 * pinNum)) % 2 ^ 32)
  else
    (portAddrHSIOM + pdl.PORT_SEL1, (amux_sel <<< (8 * (pinNum - 4))) % 2 ^ 32)

/-- The for loop of AMux_AddPort (amux.c, lines 191-224) with `todo` iterations
left, the next one for pin `pinNum`.  The Boolean is false when the loop was
left through `return AMUX_ERROR`; the handle is returned as the loop left it. -/
def AMux_AddPort_loop (pdl : Pdl) (portAddrHSIOM mask : Nat) :
    Nat → Nat → amux_t → Bool × amux_t
  | 0, _, a => (true, a)
  | todo + 1, pinNum, a =>
    if a.num_conn < AMUX_MAX_NUM_CONNECTIONS then
      if maskBit mask pinNum then
        let c := pinConnection pdl portAddrHSIOM a.amux_sel pinNum
        AMux_AddPort_loop pdl portAddrHSIOM mask todo (pinNum + 1)
          { a with connect_port := a.connect_port.set a.num_conn c.1,
                   connect_pin := a.connect_pin.set a.num_conn c.2,
                   num_conn := (a.num_conn + 1) % 256 }
      else
        AMux_AddPort_loop pdl portAddrHSIOM mask todo (pinNum + 1) a
    else
      (false, a)

/-- The address of the HSIOM block of a port (amux.c, lines 187-188), in 32-bit
unsigned arithmetic. -/
def portAddrHSIOM (pdl : Pdl) (port : Nat) : Nat :=
  let portNum := ((port + 2 ^ 32 - pdl.CY_GPIO_BASE) % 2 ^ 32) / pdl.GPIO_PRT_SECTION_SIZE
  (pdl.CY_HSIOM_BASE + pdl.HSIOM_PRT_SECTION_SIZE * portNum) % 2 ^ 32

/-- AMux_AddPort (amux.c, lines 176-231). -/
def AMux_AddPort (pdl : Pdl) (amux : Option amux_t) (port mask : Nat) (hw : Hw) :
    en_amux_status_t × Option amux_t × Hw :=
  match amux with
  | none => (AMUX_ERROR, none, hw)
  | some a =>
    if port = 0 ∨ a.dma_en = true then
      (AMUX_ERROR, some a, hw)
    else
      let base := portAddrHSIOM pdl port
      match AMux_AddPort_loop pdl base mask CY_GPIO_PINS_MAX 0 a with
      | (false, a1) => (AMUX_ERROR, some a1, hw)
      | (true, a1) =>
        (AMUX_SUCCESS, some a1,
          CY_SET_REG32 (base + pdl.PORT_SEL1) 0 (CY_SET_REG32 (base + pdl.PORT_SEL0) 0 hw))

/-- A sequence of AMux_AddPort calls on one handle, each call given as
(port, mask); the statuses are returned in call order. -/
def addPorts (pdl : Pdl) :
    List (Nat × Nat) → Option amux_t → Hw → List en_amux_status_t × Option amux_t × Hw
  | [], amux, hw => ([], amux, hw)
  | (port, mask) :: calls, amux, hw =>
    let r := AMux_AddPort pdl amux port mask hw
    let rs := addPorts pdl calls r.2.1 r.2.2
    (r.1 :: rs.1, rs.2.1, rs.2.2)

/-- Number of set bits among the 8 bits of a mask. -/
def popcount8 (mask : Nat) : Nat :=
  ((List.range CY_GPIO_PINS_MAX).filter (fun p => maskBit mask p)).length

/-- The connections of the set bits of a mask, in ascending bit position. -/
def portConnections (pdl : Pdl) (amux_sel port mask : Nat) : List (Nat × Nat) :=
  ((List.range CY_GPIO_PINS_MAX).filter (fun p => maskBit mask p)).map
    (fun p => pinConnection pdl (portAddrHSIOM pdl port) amux_sel p)

/-! ## AMux_DisconnectAll, AMux_Connect, AMux_ConnectNext -/

/-- The for loop of AMux_DisconnectAll (amux.c, lines 338-346) with `todo`
iterations left, the next one for position `i`; `previous_port` is the local
variable of that name.  Reading the array outside its bounds gives none. -/
def AMux_DisconnectAll_loop (a : amux_t) : Nat → Nat → Nat → Hw → Option Hw
  | 0, _, _, hw => some hw
  | todo + 1, i, previous_port, hw =>
    match a.connect_port[i]? with
    | none => none
    | some p =>
      if previous_port ≠ p then
        AMux_DisconnectAll_loop a todo (i + 1) p (CY_SET_REG32 p 0 hw)
      else
        AMux_DisconnectAll_loop a todo (i + 1) previous_port hw

/-- AMux_DisconnectAll (amux.c, lines 328-352).  The cursor is the 8-bit value of
num_conn - 1. -/
def AMux_DisconnectAll (amux : Option amux_t) (hw : Hw) :
    Option (en_amux_status_t × Option amux_t × Hw) :=
  match amux with
  | none => some (AMUX_ERROR, none, hw)
  | some a =>
    match AMux_DisconnectAll_loop a a.num_conn 0 0 hw with
    | none => none
    | some hw1 =>
      some (AMUX_SUCCESS, some { a with curr_conn := (a.num_conn + 255) % 256 }, hw1)

/-- AMux_Connect (amux.c, lines 248-273). -/
def AMux_Connect (amux : Option amux_t) (index : Nat) (hw : Hw) :
    Option (en_amux_status_t × Option amux_t × Hw) :=
  match amux with
  | none => some (AMUX_ERROR, none, hw)
  | some a =>
    if a.dma_en = true then
      some (AMUX_ERROR, some a, hw)
    else do
      let (a1, hw1) ←
        if a.curr_conn ≠ AMUX_CONN_UNKNOWN then do
          let p ← a.connect_port[a.curr_conn]?
          pure (a, CY_SET_REG32 p 0 hw)
        else do
          let r ← AMux_DisconnectAll (some a) hw
          let a1 ← r.2.1
          pure (a1, r.2.2)
      let p ← a1.connect_port[index]?
      let v ← a1.connect_pin[index]?
      pure (AMUX_SUCCESS, some { a1 with curr_conn := index }, CY_SET_REG32 p v hw1)

/-- AMux_ConnectNext (amux.c, lines 288-313).  A remainder by zero gives none. -/
def AMux_ConnectNext (amux : Option amux_t) (hw : Hw) :
    Option (en_amux_status_t × Option amux_t × Hw) :=
  match amux with
  | none => some (AMUX_ERROR, none, hw)
  | some a =>
    if a.dma_en = true then
      some (AMUX_ERROR, some a, hw)
    else do
      let (a1, hw1) ←
        if a.curr_conn = AMUX_CONN_UNKNOWN then do
          let r ← AMux_DisconnectAll (some a) hw
          let a1 ← r.2.1
          pure (a1, r.2.2)
        else do
          let p ← a.connect_port[a.curr_conn]?
          pure (a, CY_SET_REG32 p 0 hw)
      if a1.num_conn = 0 then none
      else do
        let c := ((a1.curr_conn + 1) % a1.num_conn) % 256
        let p ← a1.connect_port[c]?
        let v ← a1.connect_pin[c]?
        pure (AMUX_SUCCESS, some { a1 with curr_conn := c }, CY_SET_REG32 p v hw1)

/-- A CPU-side stepping call. -/
inductive CpuCall where
  | Connect (index : Nat)
  | ConnectNext
  deriving DecidableEq, Repr

/-- A Connect call is in range when its index is a position of a list of `n`
connections; ConnectNext carries no index. -/
def CpuCall.inRange (n : Nat) : CpuCall → Bool
  | CpuCall.Connect index => decide (index < n)
  | CpuCall.ConnectNext => true

/-- Run one stepping call. -/
def cpuCall (c : CpuCall) (amux : Option amux_t) (hw : Hw) :
    Option (en_amux_status_t × Option amux_t × Hw) :=
  match c with
  | CpuCall.Connect index => AMux_Connect amux index hw
  | CpuCall.ConnectNext => AMux_ConnectNext amux hw

/-- Run a sequence of stepping calls; the result lists, in call order, the
status, handle and hardware immediately after each call. -/
def cpuRun : List CpuCall → Option amux_t → Hw →
    Option (List (en_amux_status_t × Option amux_t × Hw))
  | [], _, _ => some []
  | c :: cs, amux, hw =>
    match cpuCall c amux hw with
    | none => none
    | some r =>
      match cpuRun cs r.2.1 r.2.2 with
      | none => none
      | some rs => some (r :: rs)

/-- The handle and hardware after `n` consecutive AMux_ConnectNext calls. -/
def connectNextN : Nat → Option amux_t → Hw → Option (Option amux_t × Hw)
  | 0, amux, hw => some (amux, hw)
  | n + 1, amux, hw =>
    match AMux_ConnectNext amux hw with
    | none => none
    | some r => connectNextN n r.2.1 r.2.2

/-! ## AMux_SetupDMA, AMux_StartDMA and the transfer engine -/

/-- Modelled from the spec: the PDL function Cy_DMA_Descriptor_Init (cy_dma.c is
not part of the sources); the descriptor takes the fields of the configuration. -/
def Cy_DMA_Descriptor_Init (config : cy_stc_dma_descriptor_t) : cy_stc_dma_descriptor_t :=
  config

/-- Modelled from the spec: the PDL function Cy_DMA_Descriptor_SetDstAddress
(cy_dma.h is not part of the sources); programs the destination. -/
def Cy_DMA_Descriptor_SetDstAddress (d : cy_stc_dma_descriptor_t) (dst : Nat) :
    cy_stc_dma_descriptor_t :=
  { d with dstAddress := dst }

/-- Modelled from the spec: the PDL function Cy_DMA_Descriptor_SetSrcAddress
(cy_dma.h is not part of the sources); programs the source. -/
def Cy_DMA_Descriptor_SetSrcAddress (d : cy_stc_dma_descriptor_t) (src : DmaSrc) :
    cy_stc_dma_descriptor_t :=
  { d with srcAddress := src }

/-- Modelled from the spec: the PDL function Cy_DMA_Descriptor_SetNextDescriptor
(cy_dma.h is not part of the sources); programs the successor, given as the
index of a slot of amux_dma_descriptor. -/
def Cy_DMA_Descriptor_SetNextDescriptor (d : cy_stc_dma_descriptor_t) (next : Nat) :
    cy_stc_dma_descriptor_t :=
  { d with nextDescriptor := some next }

/-- Modelled from the spec: the PDL function Cy_DMA_Descriptor_SetTriggerInType
(cy_dma.h is not part of the sources); programs the trigger kind. -/
def Cy_DMA_Descriptor_SetTriggerInType (d : cy_stc_dma_descriptor_t)
    (t : cy_en_dma_trigger_type_t) : cy_stc_dma_descriptor_t :=
  { d with triggerInType := t }

/-- The descriptor AMux_SetupDMA leaves in slot 2*i (amux.c, lines 386-396). -/
def clearDescriptor (dst i : Nat) : cy_stc_dma_descriptor_t :=
  Cy_DMA_Descriptor_SetNextDescriptor
    (Cy_DMA_Descriptor_SetSrcAddress
      (Cy_DMA_Descriptor_SetDstAddress (Cy_DMA_Descriptor_Init amux_dma_descriptor_config) dst)
      DmaSrc.amux_all_zero)
    (2 * i + 1)

/-- The descriptor AMux_SetupDMA leaves in slot 2*i+1 (amux.c, lines 399-410). -/
def setDescriptor (dst i num_conn : Nat) : cy_stc_dma_descriptor_t :=
  Cy_DMA_Descriptor_SetNextDescriptor
    (Cy_DMA_Descriptor_SetTriggerInType
      (Cy_DMA_Descriptor_SetSrcAddress
        (Cy_DMA_Descriptor_SetDstAddress (Cy_DMA_Descriptor_Init amux_dma_descriptor_config) dst)
        (DmaSrc.connect_pin i))
      CY_DMA_1ELEMENT)
    (if i = num_conn - 1 then 0 else 2 * (i + 1))

/-- The for loop of AMux_SetupDMA (amux.c, lines 383-411) with `todo` iterations
left, the next one for position `i`, acting on the descriptor array.  An access
outside the connection arrays or the descriptor array gives none. -/
def AMux_SetupDMA_loop (a : amux_t) :
    Nat → Nat → List cy_stc_dma_descriptor_t → Option (List cy_stc_dma_descriptor_t)
  | 0, _, descs => some descs
  | todo + 1, i, descs =>
    match (if i = 0 then a.connect_port[a.num_conn - 1]? else a.connect_port[i - 1]?),
          a.connect_port[i]? with
    | some dstClear, some dstSet =>
      if 2 * i + 1 < descs.length then
        AMux_SetupDMA_loop a todo (i + 1)
          ((descs.set (2 * i) (clearDescriptor dstClear i)).set (2 * i + 1)
            (setDescriptor dstSet i a.num_conn))
      else none
    | _, _ => none

/-- AMux_SetupDMA (amux.c, lines 371-422). -/
def AMux_SetupDMA (amux : Option amux_t) (dma_base dma_chan : Nat) (hw : Hw) :
    Option (en_amux_status_t × Option amux_t × Hw) :=
  match amux with
  | none => some (AMUX_ERROR, none, hw)
  | some a =>
    if dma_base = 0 ∨ a.dma_en = true then
      some (AMUX_ERROR, some a, hw)
    else do
      let a1 := { a with dma_base := dma_base, dma_chan := dma_chan }
      let descs ← AMux_SetupDMA_loop a1 a1.num_conn 0 hw.amux_dma_descriptor
      let r ← AMux_DisconnectAll (some a1) { hw with amux_dma_descriptor := descs }
      let a2 ← r.2.1
      pure (AMUX_SUCCESS, some { a2 with curr_conn := AMUX_CONN_UNKNOWN },
        { r.2.2 with dma_calls := r.2.2.dma_calls ++ [DmaCall.Channel_Init dma_base dma_chan 0] })

/-- AMux_StartDMA (amux.c, lines 438-453). -/
def AMux_StartDMA (amux : Option amux_t) (hw : Hw) :
    en_amux_status_t × Option amux_t × Hw :=
  match amux with
  | none => (AMUX_ERROR, none, hw)
  | some a =>
    if a.dma_base = 0 then
      (AMUX_ERROR, some a, hw)
    else
      (AMUX_SUCCESS, some { a with dma_en := true },
        { hw with dma_calls := hw.dma_calls ++
            [DmaCall.Channel_SetDescriptor a.dma_base a.dma_chan 0,
             DmaCall.Channel_Enable a.dma_base a.dma_chan,
             DmaCall.Enable a.dma_base] })

/-- AMux_StopDMA (amux.c, lines 468-480). -/
def AMux_StopDMA (amux : Option amux_t) (hw : Hw) :
    en_amux_status_t × Option amux_t × Hw :=
  match amux with
  | none => (AMUX_ERROR, none, hw)
  | some a =>
    if a.dma_base = 0 then
      (AMUX_ERROR, some a, hw)
    else
      (AMUX_SUCCESS, some { a with dma_en := false },
        { hw with dma_calls := hw.dma_calls ++ [DmaCall.Channel_Disable a.dma_base a.dma_chan] })

/-- The successor of descriptor slot `s` (none when the slot does not exist or
its successor pointer is NULL). -/
def successor (descs : List cy_stc_dma_descriptor_t) (s : Nat) : Option Nat :=
  match descs[s]? with
  | none => none
  | some d => d.nextDescriptor

/-- Follow the successor pointer `m` times from slot `s`. -/
def hops (descs : List cy_stc_dma_descriptor_t) : Nat → Nat → Option Nat
  | 0, s => some s
  | m + 1, s =>
    match successor descs s with
    | none => none
    | some t => hops descs m t

/-- Modelled from the spec: the read access of the autonomous transfer engine
(hardware, not part of the sources).  The word a descriptor source addresses:
zero for the constant amux_all_zero (amux.c, line 52), the entry of the
connect_pin array of the handle for its address. -/
def readSrc (a : amux_t) : DmaSrc → Option Nat
  | DmaSrc.null => none
  | DmaSrc.amux_all_zero => some 0
  | DmaSrc.connect_pin i => a.connect_pin[i]?

/-- Modelled from the spec: one transfer of the autonomous transfer engine
(hardware, not part of the sources): the descriptor in slot `cur` copies its
source word to its destination register; the result is the new register
contents and the successor slot. -/
def dmaTransfer (a : amux_t) (descs : List cy_stc_dma_descriptor_t) (cur : Nat)
    (regs : Nat → Nat) : Option ((Nat → Nat) × Nat) :=
  match descs[cur]? with
  | none => none
  | some d =>
    match readSrc a d.srcAddress, d.nextDescriptor with
    | some w, some next => some (storeWord regs d.dstAddress w, next)
    | _, _ => none

/-- Modelled from the spec: the autonomous transfer engine executing `n`
transfers along successor pointers, starting with slot `cur`. -/
def dmaRun (a : amux_t) (descs : List cy_stc_dma_descriptor_t) :
    Nat → Nat → (Nat → Nat) → Option ((Nat → Nat) × Nat)
  | 0, cur, regs => some (regs, cur)
  | n + 1, cur, regs =>
    match dmaTransfer a descs cur regs with
    | none => none
    | some r => dmaRun a descs n r.2 r.1

/-! ## Concrete states for evaluations -/

/-- Port addresses of GPIO ports 9 and 10 on a PSoC 6 device. -/
def GPIO_PRT9 : Nat := 0x40320480

/-- See GPIO_PRT9. -/
def GPIO_PRT10 : Nat := 0x40320500

/-- A handle memory with all array entries zero. -/
def blankHandle : amux_t :=
  { amux_sel := 0, connect_port := List.replicate 32 0, connect_pin := List.replicate 32 0,
    curr_conn := 0, num_conn := 0, dma_en := false, dma_base := 0, dma_chan := 0 }

/-- Hardware with all registers zero, no write recorded and a descriptor array
of 64 slots holding the default configuration. -/
def blankHw : Hw :=
  { regs := fun _ => 0, log := [],
    amux_dma_descriptor := List.replicate 64 amux_dma_descriptor_config, dma_calls := [] }

/-- A handle with `n` connections: position i has register 100 + i / 4 and
value 7 * 256 ^ (i % 4); cursor unknown, not armed. -/
def sampleHandle (n : Nat) : amux_t :=
  { amux_sel := 7,
    connect_port := (List.range 32).map (fun i => if i < n then 100 + i / 4 else 0),
    connect_pin := (List.range 32).map (fun i => if i < n then 7 * 256 ^ (i % 4) else 0),
    curr_conn := AMUX_CONN_UNKNOWN, num_conn := n, dma_en := false, dma_base := 0, dma_chan := 0 }

/-! ## AMux_Deinit and the naive clearing procedure -/

/-- AMux_Deinit (amux.c, lines 134-156).  The function returns nothing; the
result is the handle and the hardware it leaves. -/
def AMux_Deinit (amux : Option amux_t) (hw : Hw) : Option (Option amux_t × Hw) :=
  match amux with
  | none => some (none, hw)
  | some a => do
    let r ← AMux_DisconnectAll (some a) hw
    let a1 ← r.2.1
    let hw1 :=
      if a1.dma_base ≠ 0 then
        { r.2.2 with dma_calls := r.2.2.dma_calls ++
            [DmaCall.Channel_Disable a1.dma_base a1.dma_chan,
             DmaCall.Channel_DeInit a1.dma_base a1.dma_chan] }
      else r.2.2
    pure (some { a1 with num_conn := 0, curr_conn := AMUX_CONN_UNKNOWN,
                         dma_base := 0, dma_en := false }, hw1)

/-- The naive clearing procedure the optimised loop of AMux_DisconnectAll is
compared with: write 0 to the register of every connection, `todo` positions
left, the next one position `i`, without skipping any. -/
def naiveClear_loop (a : amux_t) : Nat → Nat → Hw → Option Hw
  | 0, _, hw => some hw
  | todo + 1, i, hw =>
    match a.connect_port[i]? with
    | none => none
    | some p => naiveClear_loop a todo (i + 1) (CY_SET_REG32 p 0 hw)

/-- The naive procedure over the whole connection list 0 .. num_conn - 1. -/
def naiveClear (a : amux_t) (hw : Hw) : Option Hw :=
  naiveClear_loop a a.num_conn 0 hw

/-- A register address belongs to the connection set of a handle. -/
def inSet (a : amux_t) (x : Nat) : Prop :=
  ∃ j, j < a.num_conn ∧ a.port j = x

/-- The value `v` occupies only byte `b` of a 32-bit word: it fits in 32 bits and
each of the four bytes other than byte `b` is 0. -/
def onlyInByte (v b : Nat) : Prop :=
  v < 2 ^ 32 ∧ ∀ q, q < 4 → q ≠ b → (v / 2 ^ (8 * q)) % 256 = 0

/-! ## The sampler (sampler.h, sampler.c) -/

/-- Status codes of the sampler API (sampler.h). -/
inductive en_sampler_status_t where
  | SAMPLER_SUCCESS
  | SAMPLER_ERROR
  deriving DecidableEq, Repr

open en_sampler_status_t

/-- Largest channel count Sampler_Configure accepts (sampler.h, line 66). -/
def SAMPLER_MAX_NUM_CHANNELS : Nat := 32

/-- The handle structure sampler_t (sampler.h); pointers are addresses, 0 is NULL. -/
structure sampler_t where
  timer_base : Nat
  timer_chan : Nat
  sar_base : Nat
  num_channels : Nat
  samples_ptr : Nat
  dma_base : Nat
  dma_chan : Nat
  deriving DecidableEq, Repr

/-- Data sizes of a transfer descriptor. -/
inductive cy_en_dma_data_size_t where
  | CY_DMA_BYTE
  | CY_DMA_HALFWORD
  | CY_DMA_WORD
  deriving DecidableEq, Repr

/-- Transfer sizes of a transfer descriptor. -/
inductive cy_en_dma_transfer_size_t where
  | CY_DMA_TRANSFER_SIZE_DATA
  | CY_DMA_TRANSFER_SIZE_WORD
  deriving DecidableEq, Repr

/-- Descriptor kinds. -/
inductive cy_en_dma_descriptor_type_t where
  | CY_DMA_SINGLE_TRANSFER
  | CY_DMA_1D_TRANSFER
  | CY_DMA_2D_TRANSFER
  deriving DecidableEq, Repr

open cy_en_dma_data_size_t cy_en_dma_transfer_size_t cy_en_dma_descriptor_type_t

/-- Source address of the streaming descriptor. -/
inductive SamplerSrc where
  /-- the NULL of sampler_dma_descriptor_config -/
  | null
  /-- address of CHAN_RESULT[slot] of the converter at `sar_base` -/
  | CHAN_RESULT (sar_base slot : Nat)
  deriving DecidableEq, Repr

/-- Successor pointer of the streaming descriptor. -/
inductive SamplerNext where
  | null
  /-- address of the global sampler_dma_descriptor itself -/
  | sampler_dma_descriptor
  deriving DecidableEq, Repr

/-- The fields of the transfer descriptor that sampler.c configures
(sampler_dma_descriptor is one cy_stc_dma_descriptor_t). -/
structure sampler_descriptor_t where
  interruptType : cy_en_dma_trigger_type_t
  triggerOutType : cy_en_dma_trigger_type_t
  triggerInType : cy_en_dma_trigger_type_t
  dataSize : cy_en_dma_data_size_t
  srcTransferSize : cy_en_dma_transfer_size_t
  dstTransferSize : cy_en_dma_transfer_size_t
  descriptorType : cy_en_dma_descriptor_type_t
  srcAddress : SamplerSrc
  dstAddress : Nat
  srcXincrement : Nat
  dstXincrement : Nat
  xCount : Nat
  srcYincrement : Nat
  dstYincrement : Nat
  yCount : Nat
  nextDescriptor : SamplerNext
  deriving DecidableEq, Repr

/-- The constant sampler_dma_descriptor_config (sampler.c, lines 78-98). -/
def sampler_dma_descriptor_config : sampler_descriptor_t :=
  { interruptType := CY_DMA_1ELEMENT, triggerOutType := CY_DMA_1ELEMENT,
    triggerInType := CY_DMA_1ELEMENT, dataSize := CY_DMA_HALFWORD,
    srcTransferSize := CY_DMA_TRANSFER_SIZE_WORD,
    dstTransferSize := CY_DMA_TRANSFER_SIZE_DATA,
    descriptorType := CY_DMA_1D_TRANSFER,
    srcAddress := SamplerSrc.null, dstAddress := 0,
    srcXincrement := 0, dstXincrement := 1, xCount := 2,
    srcYincrement := 0, dstYincrement := 0, yCount := 1,
    nextDescriptor := SamplerNext.sampler_dma_descriptor }

/-- Calls the sampler makes into the timer, converter and transfer-engine
drivers, as one ordered trace. -/
inductive SamplerCall where
  | TCPWM_Counter_Init (base chan : Nat)
  | TCPWM_Counter_DeInit (base chan : Nat)
  | TCPWM_Counter_Enable (base chan : Nat)
  | TCPWM_Counter_Disable (base chan : Nat)
  | TCPWM_Counter_SetPeriod (base chan period : Nat)
  | TCPWM_Counter_SetCompare0 (base chan compare0 : Nat)
  | TCPWM_Counter_SetCounter (base chan count : Nat)
  | TCPWM_TriggerStart_Single (base chan : Nat)
  | SAR_Enable (base : Nat)
  | SAR_Disable (base : Nat)
  | DMA (call : DmaCall)
  deriving DecidableEq, Repr

/-- Everything outside the sampler handle: the ordered trace of driver calls and
the global descriptor sampler_dma_descriptor. -/
structure SamplerHw where
  calls : List SamplerCall
  sampler_dma_descriptor : sampler_descriptor_t
  deriving DecidableEq, Repr

/-- Sampler_Init (sampler.c, lines 130-155).  `init_ok` is the outcome of the
driver call Cy_TCPWM_Counter_Init (true for CY_TCPWM_SUCCESS). -/
def Sampler_Init (init_ok : Bool) (sampler : Option sampler_t) (sar timer timer_chan : Nat)
    (hw : SamplerHw) : en_sampler_status_t × Option sampler_t × SamplerHw :=
  match sampler with
  | none => (SAMPLER_ERROR, none, hw)
  | some s =>
    if sar = 0 ∨ timer = 0 then
      (SAMPLER_ERROR, some s, hw)
    else
      let hw1 := { hw with calls := hw.calls ++ [SamplerCall.TCPWM_Counter_Init timer timer_chan] }
      if init_ok = false then
        (SAMPLER_ERROR, some s, hw1)
      else
        (SAMPLER_SUCCESS,
          some { s with num_channels := 0, dma_base := 0, samples_ptr := 0,
                        sar_base := sar, timer_base := timer, timer_chan := timer_chan },
          hw1)

/-- Sampler_Deinit (sampler.c, lines 167-191). -/
def Sampler_Deinit (sampler : Option sampler_t) (hw : SamplerHw) :
    Option sampler_t × SamplerHw :=
  match sampler with
  | none => (none, hw)
  | some s =>
    if s.timer_base = 0 then
      (some s, hw)
    else
      let calls1 := hw.calls ++
        [SamplerCall.TCPWM_Counter_Disable s.timer_base s.timer_chan,
         SamplerCall.TCPWM_Counter_DeInit s.timer_base s.timer_chan]
      let calls2 :=
        if s.dma_base ≠ 0 then
          calls1 ++ [SamplerCall.DMA (DmaCall.Channel_Disable s.dma_base s.dma_chan),
                     SamplerCall.DMA (DmaCall.Channel_DeInit s.dma_base s.dma_chan)]
        else calls1
      (some { s with num_channels := 0, dma_base := 0, samples_ptr := 0, timer_base := 0 },
        { hw with calls := calls2 })

/-- Sampler_SetScanRate (sampler.c, lines 213-240), in 32-bit unsigned
arithmetic.  `timer_clk_hz` is the value cyhal_clock_get_frequency returns for
the peripheral clock. -/
def Sampler_SetScanRate (timer_clk_hz : Nat) (sampler : Option sampler_t)
    (scan_rate_hz acq_time_ns : Nat) (hw : SamplerHw) :
    en_sampler_status_t × Option sampler_t × SamplerHw :=
  match sampler with
  | none => (SAMPLER_ERROR, none, hw)
  | some s =>
    if s.sar_base = 0 ∨ s.timer_base = 0 then
      (SAMPLER_ERROR, some s, hw)
    else if timer_clk_hz = 0 ∨ scan_rate_hz = 0 then
      (SAMPLER_ERROR, some s, hw)
    else
      let timer_period := timer_clk_hz / scan_rate_hz
      let timer_compare :=
        ((((timer_clk_hz + 500000) % 2 ^ 32) / 1000000 * acq_time_ns) % 2 ^ 32) / 1000
      (SAMPLER_SUCCESS, some s,
        { hw with calls := hw.calls ++
            [SamplerCall.TCPWM_Counter_SetPeriod s.timer_base s.timer_chan timer_period,
             SamplerCall.TCPWM_Counter_SetCompare0 s.timer_base s.timer_chan timer_compare] })

/-- Sampler_Configure (sampler.c, lines 260-277). -/
def Sampler_Configure (sampler : Option sampler_t) (num_channels samples : Nat) :
    en_sampler_status_t × Option sampler_t :=
  match sampler with
  | none => (SAMPLER_ERROR, none)
  | some s =>
    if num_channels > SAMPLER_MAX_NUM_CHANNELS then
      (SAMPLER_ERROR, some s)
    else
      (SAMPLER_SUCCESS, some { s with samples_ptr := samples, num_channels := num_channels })

/-- Sampler_Start (sampler.c, lines 292-307). -/
def Sampler_Start (sampler : Option sampler_t) (hw : SamplerHw) :
    en_sampler_status_t × Option sampler_t × SamplerHw :=
  match sampler with
  | none => (SAMPLER_ERROR, none, hw)
  | some s =>
    if s.sar_base = 0 ∨ s.timer_base = 0 then
      (SAMPLER_ERROR, some s, hw)
    else
      (SAMPLER_SUCCESS, some s,
        { hw with calls := hw.calls ++
            [SamplerCall.SAR_Enable s.sar_base,
             SamplerCall.DMA (DmaCall.Channel_Enable s.dma_base s.dma_chan),
             SamplerCall.DMA (DmaCall.Enable s.dma_base),
             SamplerCall.TCPWM_Counter_SetCounter s.timer_base s.timer_chan 0,
             SamplerCall.TCPWM_Counter_Enable s.timer_base s.timer_chan,
             SamplerCall.TCPWM_TriggerStart_Single s.timer_base s.timer_chan] })

/-- Sampler_Stop (sampler.c, lines 322-334). -/
def Sampler_Stop (sampler : Option sampler_t) (hw : SamplerHw) :
    en_sampler_status_t × Option sampler_t × SamplerHw :=
  match sampler with
  | none => (SAMPLER_ERROR, none, hw)
  | some s =>
    if s.sar_base = 0 ∨ s.timer_base = 0 then
      (SAMPLER_ERROR, some s, hw)
    else
      (SAMPLER_SUCCESS, some s,
        { hw with calls := hw.calls ++
            [SamplerCall.DMA (DmaCall.Channel_Disable s.dma_base s.dma_chan),
             SamplerCall.SAR_Disable s.sar_base,
             SamplerCall.TCPWM_Counter_Disable s.timer_base s.timer_chan] })

/-- Modelled from the spec: the PDL function Cy_DMA_Descriptor_SetXloopDataCount
(cy_dma.h is not part of the sources); programs the number of data elements
of the X loop. -/
def Cy_DMA_Descriptor_SetXloopDataCount (d : sampler_descriptor_t) (count : Nat) :
    sampler_descriptor_t :=
  { d with xCount := count }

/-- Sampler_SetupDMA (sampler.c, lines 353-373).  The handle field dma_chan is 8
bits wide. -/
def Sampler_SetupDMA (sampler : Option sampler_t) (dma_base dma_chan : Nat) (hw : SamplerHw) :
    en_sampler_status_t × Option sampler_t × SamplerHw :=
  match sampler with
  | none => (SAMPLER_ERROR, none, hw)
  | some s =>
    if s.sar_base = 0 ∨ s.timer_base = 0 then
      (SAMPLER_ERROR, some s, hw)
    else
      let s1 := { s with dma_base := dma_base, dma_chan := dma_chan % 256 }
      let d := Cy_DMA_Descriptor_SetXloopDataCount
        { sampler_dma_descriptor_config with
            dstAddress := s1.samples_ptr,
            srcAddress := SamplerSrc.CHAN_RESULT s1.sar_base 0 }
        s1.num_channels
      (SAMPLER_SUCCESS, some s1,
        { calls := hw.calls ++ [SamplerCall.DMA (DmaCall.Channel_Init dma_base dma_chan 0)],
          sampler_dma_descriptor := d })

/-- State of the engine on the streaming descriptor: the position in the X loop
and the sample buffer, indexed by 16-bit slot from the destination address. -/
structure StreamState where
  xIndex : Nat
  buffer : Nat → Nat

/-- Modelled from the spec: the datum the autonomous transfer engine (hardware,
not part of the sources) moves for one data element: the word read from the
source, cut to the data size of the descriptor. -/
def elementDatum (d : sampler_descriptor_t) (word : Nat) : Nat :=
  match d.dataSize with
  | CY_DMA_BYTE => word % 2 ^ 8
  | CY_DMA_HALFWORD => word % 2 ^ 16
  | CY_DMA_WORD => word % 2 ^ 32

/-- Modelled from the spec: the slot of the converter result region the engine
reads for the data element at X position `k`: the slot of the source address
advanced by `k` times the source X increment. -/
def sourceSlot (d : sampler_descriptor_t) (k : Nat) : Option Nat :=
  match d.srcAddress with
  | SamplerSrc.null => none
  | SamplerSrc.CHAN_RESULT _ slot => some (slot + k * d.srcXincrement)

/-- Modelled from the spec: one data element transfer of the autonomous transfer
engine (hardware, not part of the sources) on a 1D descriptor: the element at
the current X position is read from its source slot of the converter result
region `result` and written to the buffer slot at X position times the
destination X increment; after the last element of the X loop the engine loads
the successor descriptor, here the descriptor itself, and starts over. -/
def streamElement (d : sampler_descriptor_t) (result : Nat → Nat) (st : StreamState) :
    Option StreamState :=
  match sourceSlot d st.xIndex with
  | none => none
  | some slot =>
    let buffer := storeWord st.buffer (st.xIndex * d.dstXincrement)
      (elementDatum d (result slot))
    if st.xIndex + 1 < d.xCount then
      some { xIndex := st.xIndex + 1, buffer := buffer }
    else
      match d.nextDescriptor with
      | SamplerNext.null => none
      | SamplerNext.sampler_dma_descriptor => some { xIndex := 0, buffer := buffer }

/-- Modelled from the spec: the number of data elements one trigger moves: one
for the trigger kind CY_DMA_1ELEMENT, the rest of the X loop otherwise. -/
def elementsPerTrigger (d : sampler_descriptor_t) (st : StreamState) : Nat :=
  match d.triggerInType with
  | CY_DMA_1ELEMENT => 1
  | _ => d.xCount - st.xIndex

/-- Move `n` data elements one after the other on the same result region. -/
def streamElements (d : sampler_descriptor_t) (result : Nat → Nat) :
    Nat → StreamState → Option StreamState
  | 0, st => some st
  | n + 1, st =>
    match streamElement d result st with
    | none => none
    | some st1 => streamElements d result n st1

/-- Modelled from the spec: one trigger of the streaming descriptor. -/
def streamTrigger (d : sampler_descriptor_t) (result : Nat → Nat) (st : StreamState) :
    Option StreamState :=
  streamElements d result (elementsPerTrigger d st) st

/-- Consecutive triggers, each with the contents the converter result region
has at that trigger. -/
def streamTriggers (d : sampler_descriptor_t) :
    List (Nat → Nat) → StreamState → Option StreamState
  | [], st => some st
  | result :: rest, st =>
    match streamTrigger d result st with
    | none => none
    | some st1 => streamTriggers d rest st1

/-- The scenario Sampler_Configure(n, buf), Sampler_SetupDMA, Sampler_Start on one
handle: the three statuses in call order, the handle and the hardware left. -/
def streamingSetup (s : sampler_t) (n buf dma_base dma_chan : Nat) (hw : SamplerHw) :
    List en_sampler_status_t × Option sampler_t × SamplerHw :=
  let r1 := Sampler_Configure (some s) n buf
  let r2 := Sampler_SetupDMA r1.2 dma_base dma_chan hw
  let r3 := Sampler_Start r2.2.1 r2.2.2
  ([r1.1, r2.1, r3.1], r3.2.1, r3.2.2)

/-- A sampler handle with converter at 0x409D0000, timer at 0x40380000 channel 0,
nothing configured. -/
def sampleSampler : sampler_t :=
  { timer_base := 0x40380000, timer_chan := 0, sar_base := 0x409D0000,
    num_channels := 0, samples_ptr := 0, dma_base := 0, dma_chan := 0 }

/-- Sampler hardware with an empty call trace and the default descriptor. -/
def blankSamplerHw : SamplerHw :=
  { calls := [], sampler_dma_descriptor := sampler_dma_descriptor_config }

/-- A handle with one connection whose register address is 0. -/
def zeroAddrHandle : amux_t :=
  { amux_sel := 7, connect_port := List.replicate 32 0,
    connect_pin := 7 :: List.replicate 31 0,
    curr_conn := AMUX_CONN_UNKNOWN, num_conn := 1, dma_en := false,
    dma_base := 0, dma_chan := 0 }

/-- Hardware like blankHw but with the word 5 stored at address 0. -/
def wordAtZeroHw : Hw :=
  { regs := fun x => if x = 0 then 5 else 0, log := [],
    amux_dma_descriptor := List.replicate 64 amux_dma_descriptor_config, dma_calls := [] }

/-- Converter result region with the word 10 * (slot + 1) in each slot. -/
def rampResult : Nat → Nat := fun slot => 10 * (slot + 1)

/-! ## Sequences of public multiplexer calls -/

/-- A call of the public multiplexer API on one handle, with its arguments. -/
inductive AmuxOp where
  | Init (amux_sel : Nat)
  | AddPort (port mask : Nat)
  | Connect (index : Nat)
  | ConnectNext
  | DisconnectAll
  | SetupDMA (dma_base dma_chan : Nat)
  | StartDMA
  | StopDMA
  | Deinit
  deriving DecidableEq, Repr

/-- The handle and hardware a call leaves, for a handle pointer that is not NULL. -/
def keepHandle : Option amux_t × Hw → Option (amux_t × Hw)
  | (some a, hw) => some (a, hw)
  | (none, _) => none

/-- Run one public call on a non-null handle, whatever status it returns; none
when the call has undefined behaviour. -/
def applyOp (pdl : Pdl) (op : AmuxOp) (a : amux_t) (hw : Hw) : Option (amux_t × Hw) :=
  match op with
  | AmuxOp.Init amux_sel => keepHandle ((AMux_Init pdl (some a) amux_sel).2, hw)
  | AmuxOp.AddPort port mask => keepHandle (AMux_AddPort pdl (some a) port mask hw).2
  | AmuxOp.Connect index =>
    match AMux_Connect (some a) index hw with
    | none => none
    | some r => keepHandle r.2
  | AmuxOp.ConnectNext =>
    match AMux_ConnectNext (some a) hw with
    | none => none
    | some r => keepHandle r.2
  | AmuxOp.DisconnectAll =>
    match AMux_DisconnectAll (some a) hw with
    | none => none
    | some r => keepHandle r.2
  | AmuxOp.SetupDMA dma_base dma_chan =>
    match AMux_SetupDMA (some a) dma_base dma_chan hw with
    | none => none
    | some r => keepHandle r.2
  | AmuxOp.StartDMA => keepHandle (AMux_StartDMA (some a) hw).2
  | AmuxOp.StopDMA => keepHandle (AMux_StopDMA (some a) hw).2
  | AmuxOp.Deinit =>
    match AMux_Deinit (some a) hw with
    | none => none
    | some r => keepHandle r

/-- Run a sequence of public calls; `allowed` says which call may be issued in
which handle state (a sequence with a call that is not allowed, or with a call
of undefined behaviour, reaches no state). -/
def runOps (pdl : Pdl) (allowed : amux_t → AmuxOp → Bool) :
    List AmuxOp → amux_t → Hw → Option (amux_t × Hw)
  | [], a, hw => some (a, hw)
  | op :: ops, a, hw =>
    if allowed a op then
      match applyOp pdl op a hw with
      | none => none
      | some r => runOps pdl allowed ops r.1 r.2
    else none

/-- Every call is allowed in every state. -/
def anyOp : amux_t → AmuxOp → Bool := fun _ _ => true

/-- AMux_Connect only with an index below num_conn, AMux_ConnectNext only on a
non-empty set; every other call in every state. -/
def inRangeOp (a : amux_t) : AmuxOp → Bool
  | AmuxOp.Connect index => decide (index < a.num_conn)
  | AmuxOp.ConnectNext => decide (0 < a.num_conn)
  | _ => true

/-- The value of every connection of the list is the current selection of the
handle shifted to one of the four byte positions (the C expression
`amux_sel << (8*k)` as a 32-bit word). -/
def sameBank (a : amux_t) : Prop :=
  ∀ c ∈ connList a, ∃ k, k < 4 ∧ c.2 = (a.amux_sel <<< (8 * k)) % 2 ^ 32

/-- The cursor is the sentinel or a position of the list. -/
def cursorOk (a : amux_t) : Prop :=
  a.curr_conn = AMUX_CONN_UNKNOWN ∨ a.curr_conn < a.num_conn

/-- The fields of cy_stc_dma_channel_config_t other than the descriptor pointer. -/
structure cy_stc_dma_channel_config_t where
  preemptable : Bool
  priority : Nat
  enable : Bool
  bufferable : Bool
  deriving DecidableEq, Repr

/-- The constant sampler_dma_channel_config (sampler.c, lines 100-107), which
Sampler_SetupDMA passes to Cy_DMA_Channel_Init; its descriptor pointer is the
address of sampler_dma_descriptor. -/
def sampler_dma_channel_config : cy_stc_dma_channel_config_t :=
  { preemptable := false, priority := 3, enable := false, bufferable := false }

/-- The compare value Sampler_SetScanRate computes (sampler.c, line 234), in
32-bit unsigned arithmetic. -/
def timerCompare (timer_clk_hz acq_time_ns : Nat) : Nat :=
  ((((timer_clk_hz + 500000) % 2 ^ 32) / 1000000 * acq_time_ns) % 2 ^ 32) / 1000

/-- The handle AMux_Init leaves on blankHandle with selection 7. -/
def initHandle : amux_t :=
  { blankHandle with curr_conn := AMUX_CONN_UNKNOWN, amux_sel := 7 }

/-- A sequence of eight calls, among them an AMux_AddPort on the armed handle. -/
def sampleOps : List AmuxOp :=
  [AmuxOp.AddPort GPIO_PRT9 0x81, AmuxOp.Connect 1, AmuxOp.ConnectNext,
    AmuxOp.SetupDMA 5 1, AmuxOp.StartDMA, AmuxOp.AddPort GPIO_PRT10 0xFF,
    AmuxOp.StopDMA, AmuxOp.DisconnectAll]

/-- The handle sampleOps reaches from initHandle: pins 0 and 7 of port 9. -/
def sampleReached : amux_t :=
  { amux_sel := 7,
    connect_port := 0x40310090 :: 0x40310094 :: List.replicate 30 0,
    connect_pin := 7 :: 0x07000000 :: List.replicate 30 0,
    curr_conn := 1, num_conn := 2, dma_en := false, dma_base := 5, dma_chan := 1 }

/-- A sequence with a second AMux_Init, with the other selection. -/
def reselectOps : List AmuxOp :=
  [AmuxOp.AddPort GPIO_PRT9 0x81, AmuxOp.Init 6, AmuxOp.AddPort GPIO_PRT10 0x22]

/-- The handle reselectOps reaches from initHandle: pins 1 and 5 of port 10 on
selection 6. -/
def reselectReached : amux_t :=
  { amux_sel := 6,
    connect_port := 0x403100A0 :: 0x403100A4 :: List.replicate 30 0,
    connect_pin := 0x600 :: 0x600 :: List.replicate 30 0,
    curr_conn := AMUX_CONN_UNKNOWN, num_conn := 2, dma_en := false, dma_base := 0,
    dma_chan := 0 }

/-- A sequence of calls within their index range that wraps the cursor. -/
def cursorOps : List AmuxOp :=
  [AmuxOp.AddPort GPIO_PRT9 0x07, AmuxOp.Connect 2, AmuxOp.ConnectNext,
    AmuxOp.DisconnectAll, AmuxOp.ConnectNext]

/-- The handle cursorOps reaches from initHandle: pins 0, 1 and 2 of port 9,
cursor at 0. -/
def cursorReached : amux_t :=
  { amux_sel := 7,
    connect_port := 0x40310090 :: 0x40310090 :: 0x40310090 :: List.replicate 29 0,
    connect_pin := 7 :: 0x700 :: 0x70000 :: List.replicate 29 0,
    curr_conn := 0, num_conn := 3, dma_en := false, dma_base := 0, dma_chan := 0 }

/-- The handle sampleSampler after Sampler_Configure with 4 channels and the
buffer at 0x08000000. -/
def configuredSampler : sampler_t :=
  { sampleSampler with num_channels := 4, samples_ptr := 0x08000000 }

/-- The handle Sampler_Deinit leaves of sampleSampler: the timer reference is
absent. -/
def detachedSampler : sampler_t :=
  { sampleSampler with timer_base := 0 }

/-! ## The handoff from the CPU to the transfer engine -/

/-- The handle with pins 0 and 4 of port 9 and pin 0 of port 10 on selection 7:
three connections on three registers. -/
def threePinHandle : amux_t :=
  { amux_sel := 7,
    connect_port := 0x40310090 :: 0x40310094 :: 0x403100A0 :: List.replicate 29 0,
    connect_pin := 7 :: 7 :: 7 :: List.replicate 29 0,
    curr_conn := AMUX_CONN_UNKNOWN, num_conn := 3, dma_en := false, dma_base := 0,
    dma_chan := 0 }

/-- The scenario AMux_SetupDMA, AMux_Connect(index), AMux_StartDMA on one handle,
followed by the first clear/assert descriptor pair of the engine: the three
statuses in call order, the registers when AMux_StartDMA returns and the
registers after the pair. -/
def handoffAfterConnect (a : amux_t) (dma_base dma_chan index : Nat) (hw : Hw) :
    Option (List en_amux_status_t × (Nat → Nat) × Option (Nat → Nat)) := do
  let r1 ← AMux_SetupDMA (some a) dma_base dma_chan hw
  let r2 ← AMux_Connect r1.2.1 index r1.2.2
  let r3 := AMux_StartDMA r2.2.1 r2.2.2
  let a3 ← r3.2.1
  pure ([r1.1, r2.1, r3.1], r3.2.2.regs,
    (dmaRun a3 r3.2.2.amux_dma_descriptor 2 0 r3.2.2.regs).map Prod.fst)

/-! ## Register addresses of the connections -/

/-- The HSIOM block of every port lies above address 0 inside the 32-bit address
space: the base address is not 0 and the block of the largest port number the
port address computation of AMux_AddPort can yield does not wrap. -/
def hsiomInRange (pdl : Pdl) : Prop :=
  0 < pdl.CY_HSIOM_BASE ∧
  pdl.CY_HSIOM_BASE + pdl.HSIOM_PRT_SECTION_SIZE * ((2 ^ 32 - 1) / pdl.GPIO_PRT_SECTION_SIZE)
    < 2 ^ 32

/-- No connection of the list has the register address 0 (NULL). -/
def portsNonzero (a : amux_t) : Prop :=
  ∀ c ∈ connList a, c.1 ≠ 0

/-! ## Properties of AMux_AddPort -/

theorem connList_push (a : amux_t) (x y : Nat)
    (hp : a.num_conn < a.connect_port.length) (hq : a.num_conn < a.connect_pin.length) :
    connList { a with connect_port := a.connect_port.set a.num_conn x,
                      connect_pin := a.connect_pin.set a.num_conn y,
                      num_conn := a.num_conn + 1 } = connList a ++ [(x, y)] := by
  unfold connList
  simp only [List.range_succ, List.map_append, List.map_cons, List.map_nil]
  congr 1
  · apply List.map_congr_left
    intro i hi
    have hne : a.num_conn ≠ i := by
      have := List.mem_range.mp hi
      omega
    simp [List.getElem?_set_ne hne]
  · simp [List.getElem?_set_self hp, List.getElem?_set_self hq]

theorem AMux_AddPort_loop_ok (pdl : Pdl) (base mask : Nat) :
    ∀ (todo pinNum : Nat) (a a' : amux_t), a.wf → a.num_conn ≤ AMUX_MAX_NUM_CONNECTIONS →
      AMux_AddPort_loop pdl base mask todo pinNum a = (true, a') →
      a'.wf ∧ a'.num_conn ≤ AMUX_MAX_NUM_CONNECTIONS ∧ a'.amux_sel = a.amux_sel ∧
      a'.dma_en = a.dma_en ∧ a'.curr_conn = a.curr_conn ∧ a'.dma_base = a.dma_base ∧
      a'.dma_chan = a.dma_chan ∧
      connList a' = connList a ++
        ((List.range' pinNum todo).filter (fun p => maskBit mask p)).map
          (pinConnection pdl base a.amux_sel) ∧
      a'.num_conn = a.num_conn +
        ((List.range' pinNum todo).filter (fun p => maskBit mask p)).length := by
  intro todo
  induction todo with
  | zero =>
    intro pinNum a a' hwf hn h
    simp [AMux_AddPort_loop] at h
    subst h
    simp [hwf, hn]
  | succ todo ih =>
    intro pinNum a a' hwf hn h
    rw [AMux_AddPort_loop] at h
    by_cases hcap : a.num_conn < AMUX_MAX_NUM_CONNECTIONS
    · rw [if_pos hcap] at h
      have hlt : a.num_conn < 32 := hcap
      have hmod : (a.num_conn + 1) % 256 = a.num_conn + 1 := by omega
      by_cases hbit : maskBit mask pinNum = true
      · rw [if_pos hbit] at h
        simp only [hmod] at h
        have hwf' : amux_t.wf
            { a with connect_port := a.connect_port.set a.num_conn
                       (pinConnection pdl base a.amux_sel pinNum).1,
                     connect_pin := a.connect_pin.set a.num_conn
                       (pinConnection pdl base a.amux_sel pinNum).2,
                     num_conn := a.num_conn + 1 } := by
          simpa [amux_t.wf] using hwf
        have hn' : a.num_conn + 1 ≤ AMUX_MAX_NUM_CONNECTIONS := hcap
        obtain ⟨h1, h2, h3, h4, h5, h6, h7, h8, h9⟩ := ih (pinNum + 1) _ a' hwf' hn' h
        have hp : a.num_conn < a.connect_port.length := by rw [hwf.1]; exact hcap
        have hq : a.num_conn < a.connect_pin.length := by rw [hwf.2]; exact hcap
        refine ⟨h1, h2, h3, h4, h5, h6, h7, ?_, ?_⟩
        · rw [h8, connList_push a _ _ hp hq, List.range'_succ]
          simp [hbit]
        · rw [h9, List.range'_succ]
          simp [hbit]
          omega
      · rw [if_neg hbit] at h
        obtain ⟨h1, h2, h3, h4, h5, h6, h7, h8, h9⟩ := ih (pinNum + 1) a a' hwf hn h
        refine ⟨h1, h2, h3, h4, h5, h6, h7, ?_, ?_⟩
        · rw [h8, List.range'_succ]
          simp [hbit]
        · rw [h9, List.range'_succ]
          simp [hbit]
    · rw [if_neg hcap] at h
      simp at h

/-- A successful AMux_AddPort call appends the connections of the set bits of
the mask, in ascending bit position, and changes nothing else of the list. -/
theorem AMux_AddPort_success (pdl : Pdl) (a : amux_t) (port mask : Nat) (hw : Hw)
    (hwf : a.wf) (hn : a.num_conn ≤ AMUX_MAX_NUM_CONNECTIONS)
    (hs : (AMux_AddPort pdl (some a) port mask hw).1 = AMUX_SUCCESS) :
    ∃ a', (AMux_AddPort pdl (some a) port mask hw).2.1 = some a' ∧
      a'.wf ∧ a'.num_conn ≤ AMUX_MAX_NUM_CONNECTIONS ∧ a'.amux_sel = a.amux_sel ∧
      connList a' = connList a ++ portConnections pdl a.amux_sel port mask ∧
      a'.num_conn = a.num_conn + popcount8 mask := by
  unfold AMux_AddPort at hs ⊢
  by_cases hg : port = 0 ∨ a.dma_en = true
  · simp [hg] at hs
  · simp only [if_neg hg] at hs ⊢
    rcases hl : AMux_AddPort_loop pdl (portAddrHSIOM pdl port) mask CY_GPIO_PINS_MAX 0 a
      with ⟨b, a1⟩
    rw [hl] at hs
    cases b with
    | false => simp at hs
    | true =>
      obtain ⟨h1, h2, h3, _, _, _, _, h8, h9⟩ :=
        AMux_AddPort_loop_ok pdl _ mask _ 0 a a1 hwf hn hl
      refine ⟨a1, rfl, h1, h2, h3, ?_, ?_⟩
      · rw [h8]; simp [portConnections, List.range_eq_range']
      · rw [h9]; simp [popcount8, List.range_eq_range']

theorem addPorts_append (pdl : Pdl) (l1 l2 : List (Nat × Nat)) :
    ∀ (amux : Option amux_t) (hw : Hw),
      addPorts pdl (l1 ++ l2) amux hw =
        ((addPorts pdl l1 amux hw).1 ++
            (addPorts pdl l2 (addPorts pdl l1 amux hw).2.1 (addPorts pdl l1 amux hw).2.2).1,
          (addPorts pdl l2 (addPorts pdl l1 amux hw).2.1 (addPorts pdl l1 amux hw).2.2).2.1,
          (addPorts pdl l2 (addPorts pdl l1 amux hw).2.1 (addPorts pdl l1 amux hw).2.2).2.2) := by
  induction l1 with
  | nil => intro amux hw; simp [addPorts]
  | cons c l1 ih =>
    intro amux hw
    obtain ⟨port, mask⟩ := c
    simp [addPorts, ih]

theorem addPorts_success (pdl : Pdl) (calls : List (Nat × Nat)) :
    ∀ (a : amux_t) (hw : Hw), a.wf → a.num_conn ≤ AMUX_MAX_NUM_CONNECTIONS →
      (∀ st ∈ (addPorts pdl calls (some a) hw).1, st = AMUX_SUCCESS) →
      ∃ a', (addPorts pdl calls (some a) hw).2.1 = some a' ∧
        a'.wf ∧ a'.num_conn ≤ AMUX_MAX_NUM_CONNECTIONS ∧ a'.amux_sel = a.amux_sel ∧
        connList a' = connList a ++
          (calls.map (fun c => portConnections pdl a.amux_sel c.1 c.2)).flatten ∧
        a'.num_conn = a.num_conn + (calls.map (fun c => popcount8 c.2)).sum := by
  induction calls with
  | nil =>
    intro a hw hwf hn _
    exact ⟨a, rfl, hwf, hn, rfl, by simp, by simp⟩
  | cons c calls ih =>
    intro a hw hwf hn hok
    obtain ⟨port, mask⟩ := c
    simp only [addPorts] at hok ⊢
    have hs : (AMux_AddPort pdl (some a) port mask hw).1 = AMUX_SUCCESS :=
      hok _ (List.mem_cons_self _ _)
    obtain ⟨a1, e1, w1, n1, s1, c1, p1⟩ := AMux_AddPort_success pdl a port mask hw hwf hn hs
    rw [e1] at hok ⊢
    have hok' : ∀ st ∈ (addPorts pdl calls (some a1)
        (AMux_AddPort pdl (some a) port mask hw).2.2).1, st = AMUX_SUCCESS :=
      fun st hst => hok st (List.mem_cons_of_mem _ hst)
    obtain ⟨a2, e2, w2, n2, s2, c2, p2⟩ := ih a1 _ w1 n1 hok'
    refine ⟨a2, e2, w2, n2, by rw [s2, s1], ?_, ?_⟩
    · rw [c2, c1, s1]; simp
    · rw [p2, p1]; simp; omega

/-- C1: on a handle freshly initialised by AMux_Init, after a sequence of
AMux_AddPort calls that all return AMUX_SUCCESS the connection list
(connect_port[i], connect_pin[i]), i < num_conn, is the concatenation in call
order of the connections of the set bits of each mask in ascending bit
position, num_conn is the sum of the popcounts of the masks, and the list
reached after the first k calls (itself the concatenation for those k calls) is
an initial segment of the final list: later calls neither reorder nor overwrite
earlier entries. -/
theorem C1_addPorts_concatenation (pdl : Pdl) (h0 : amux_t) (sel : Nat)
    (calls : List (Nat × Nat)) (hw : Hw) (hwf : h0.wf)
    (hinit : (AMux_Init pdl (some h0) sel).1 = AMUX_SUCCESS)
    (hok : ∀ st ∈ (addPorts pdl calls (AMux_Init pdl (some h0) sel).2 hw).1,
      st = AMUX_SUCCESS) :
    ∃ a, (addPorts pdl calls (AMux_Init pdl (some h0) sel).2 hw).2.1 = some a ∧
      connList a = (calls.map (fun c => portConnections pdl sel c.1 c.2)).flatten ∧
      a.num_conn = (calls.map (fun c => popcount8 c.2)).sum ∧
      ∀ k, k ≤ calls.length →
        ∃ ak, (addPorts pdl (calls.take k) (AMux_Init pdl (some h0) sel).2 hw).2.1 = some ak ∧
          connList ak =
            ((calls.take k).map (fun c => portConnections pdl sel c.1 c.2)).flatten ∧
          connList ak <+: connList a := by
  have hsel : ¬ (sel ≠ AMUX_A pdl ∧ sel ≠ AMUX_B pdl) := by
    intro hc
    simp [AMux_Init, hc] at hinit
  have hex : ∃ a0, (AMux_Init pdl (some h0) sel).2 = some a0 ∧ a0.wf ∧ a0.num_conn = 0 ∧
      a0.amux_sel = sel := by
    simp only [AMux_Init, if_neg hsel]
    exact ⟨_, rfl, hwf, rfl, rfl⟩
  obtain ⟨a0, e0, hwf0, hn0, hs0⟩ := hex
  rw [e0] at hok ⊢
  have hle0 : a0.num_conn ≤ AMUX_MAX_NUM_CONNECTIONS := by rw [hn0]; exact Nat.zero_le _
  have hnil : connList a0 = [] := by simp [connList, hn0]
  obtain ⟨a, ea, _, _, _, ca, pa⟩ := addPorts_success pdl calls a0 hw hwf0 hle0 hok
  have ca' : connList a = (calls.map (fun c => portConnections pdl sel c.1 c.2)).flatten := by
    rw [ca, hnil, hs0]; simp
  refine ⟨a, ea, ca', by rw [pa, hn0]; simp, ?_⟩
  intro k _
  have hsplit := addPorts_append pdl (calls.take k) (calls.drop k) (some a0) hw
  rw [List.take_append_drop] at hsplit
  have hokk : ∀ st ∈ (addPorts pdl (calls.take k) (some a0) hw).1, st = AMUX_SUCCESS := by
    intro st hst
    apply hok
    rw [hsplit]
    exact List.mem_append_left _ hst
  obtain ⟨ak, eak, _, _, _, cak, _⟩ :=
    addPorts_success pdl (calls.take k) a0 hw hwf0 hle0 hokk
  have cak' : connList ak =
      ((calls.take k).map (fun c => portConnections pdl sel c.1 c.2)).flatten := by
    rw [cak, hnil, hs0]; simp
  refine ⟨ak, eak, cak', ?_⟩
  rw [cak', ca']
  conv => rhs; rw [← List.take_append_drop k calls]
  rw [List.map_append, List.flatten_append]
  exact ⟨_, rfl⟩

/-- C1 at a concrete input: ports 9 and 10 of a PSoC 6 device with masks 0xFF and
0x05 on a handle initialised for AMUX_B. -/
theorem C1_addPorts_concatenation_witness :
    blankHandle.wf ∧
    (AMux_Init psoc6 (some blankHandle) 7).1 = AMUX_SUCCESS ∧
    (∀ st ∈ (addPorts psoc6 [(GPIO_PRT9, 0xFF), (GPIO_PRT10, 0x05)]
        (AMux_Init psoc6 (some blankHandle) 7).2 blankHw).1, st = AMUX_SUCCESS) ∧
    ∃ a, (addPorts psoc6 [(GPIO_PRT9, 0xFF), (GPIO_PRT10, 0x05)]
        (AMux_Init psoc6 (some blankHandle) 7).2 blankHw).2.1 = some a ∧
      connList a = ([(GPIO_PRT9, 0xFF), (GPIO_PRT10, 0x05)].map
        (fun c => portConnections psoc6 7 c.1 c.2)).flatten ∧
      a.num_conn = ([(GPIO_PRT9, 0xFF), (GPIO_PRT10, 0x05)].map
        (fun c => popcount8 c.2)).sum ∧
      ∀ k, k ≤ [(GPIO_PRT9, 0xFF), (GPIO_PRT10, 0x05)].length →
        ∃ ak, (addPorts psoc6 ([(GPIO_PRT9, 0xFF), (GPIO_PRT10, 0x05)].take k)
            (AMux_Init psoc6 (some blankHandle) 7).2 blankHw).2.1 = some ak ∧
          connList ak = (([(GPIO_PRT9, 0xFF), (GPIO_PRT10, 0x05)].take k).map
            (fun c => portConnections psoc6 7 c.1 c.2)).flatten ∧
          connList ak <+: connList a :=
  ⟨by decide, by decide, by decide,
    C1_addPorts_concatenation psoc6 blankHandle 7 [(GPIO_PRT9, 0xFF), (GPIO_PRT10, 0x05)]
      blankHw (by decide) (by decide) (by decide)⟩

theorem connList_length (a : amux_t) : (connList a).length = a.num_conn := by
  simp [connList]

theorem AMux_AddPort_loop_full (pdl : Pdl) (base mask : Nat) :
    ∀ (todo pinNum : Nat) (a a' : amux_t), a.wf → a.num_conn ≤ AMUX_MAX_NUM_CONNECTIONS →
      AMux_AddPort_loop pdl base mask todo pinNum a = (false, a') →
      a'.wf ∧ a'.num_conn = AMUX_MAX_NUM_CONNECTIONS ∧ a'.amux_sel = a.amux_sel ∧
      a'.dma_en = a.dma_en ∧ a'.curr_conn = a.curr_conn ∧ a'.dma_base = a.dma_base ∧
      a'.dma_chan = a.dma_chan ∧
      connList a' = (connList a ++
        ((List.range' pinNum todo).filter (fun p => maskBit mask p)).map
          (pinConnection pdl base a.amux_sel)).take AMUX_MAX_NUM_CONNECTIONS := by
  intro todo
  induction todo with
  | zero =>
    intro pinNum a a' hwf hn h
    simp [AMux_AddPort_loop] at h
  | succ todo ih =>
    intro pinNum a a' hwf hn h
    rw [AMux_AddPort_loop] at h
    by_cases hcap : a.num_conn < AMUX_MAX_NUM_CONNECTIONS
    · rw [if_pos hcap] at h
      have hlt : a.num_conn < 32 := hcap
      have hmod : (a.num_conn + 1) % 256 = a.num_conn + 1 := by omega
      by_cases hbit : maskBit mask pinNum = true
      · rw [if_pos hbit] at h
        simp only [hmod] at h
        have hwf' : amux_t.wf
            { a with connect_port := a.connect_port.set a.num_conn
                       (pinConnection pdl base a.amux_sel pinNum).1,
                     connect_pin := a.connect_pin.set a.num_conn
                       (pinConnection pdl base a.amux_sel pinNum).2,
                     num_conn := a.num_conn + 1 } := by
          simpa [amux_t.wf] using hwf
        have hn' : a.num_conn + 1 ≤ AMUX_MAX_NUM_CONNECTIONS := hcap
        obtain ⟨h1, h2, h3, h4, h5, h6, h7, h8⟩ := ih (pinNum + 1) _ a' hwf' hn' h
        have hp : a.num_conn < a.connect_port.length := by rw [hwf.1]; exact hcap
        have hq : a.num_conn < a.connect_pin.length := by rw [hwf.2]; exact hcap
        refine ⟨h1, h2, h3, h4, h5, h6, h7, ?_⟩
        rw [h8, connList_push a _ _ hp hq, List.range'_succ]
        simp [hbit]
      · rw [if_neg hbit] at h
        obtain ⟨h1, h2, h3, h4, h5, h6, h7, h8⟩ := ih (pinNum + 1) a a' hwf hn h
        refine ⟨h1, h2, h3, h4, h5, h6, h7, ?_⟩
        rw [h8, List.range'_succ]
        simp [hbit]
    · rw [if_neg hcap] at h
      have ha : a = a' := by simpa using h
      subst ha
      have hfull : a.num_conn = AMUX_MAX_NUM_CONNECTIONS := by omega
      refine ⟨hwf, hfull, rfl, rfl, rfl, rfl, rfl, ?_⟩
      rw [List.take_append_of_le_length (by rw [connList_length, hfull])]
      rw [List.take_of_length_le (by rw [connList_length, hfull])]

/-- C2, the claim as stated fails: with 31 connections present and mask 0b11 on
a non-armed handle the call returns AMUX_ERROR (31 + 2 exceeds the capacity),
yet the connection of pin 0 has been appended: num_conn is 32 and the list
has changed. -/
theorem C2_counterexample :
    (sampleHandle 31).dma_en = false ∧ GPIO_PRT9 ≠ 0 ∧
    (sampleHandle 31).num_conn + popcount8 3 > AMUX_MAX_NUM_CONNECTIONS ∧
    (AMux_AddPort psoc6 (some (sampleHandle 31)) GPIO_PRT9 3 blankHw).1 = AMUX_ERROR ∧
    (AMux_AddPort psoc6 (some (sampleHandle 31)) GPIO_PRT9 3 blankHw).2.1.map
      (fun a => a.num_conn) = some 32 ∧
    (AMux_AddPort psoc6 (some (sampleHandle 31)) GPIO_PRT9 3 blankHw).2.1.map connList
      ≠ some (connList (sampleHandle 31)) := by
  decide

/-- C2 as amended: when AMux_AddPort on a non-armed handle with a non-null port
returns AMUX_ERROR, the capacity has been reached: no register is written, the
connection list is left full (num_conn = 32) and consists of the first 32
entries of the previous list followed by the connections of the set bits of the
mask in ascending bit position; in particular the previous list is an initial
segment of the new one, so no earlier entry is changed, while connections of
the failing call that still fitted have been appended. -/
theorem C2_error_keeps_earlier_entries (pdl : Pdl) (a : amux_t) (port mask : Nat) (hw : Hw)
    (hwf : a.wf) (hn : a.num_conn ≤ AMUX_MAX_NUM_CONNECTIONS)
    (hport : port ≠ 0) (hen : a.dma_en = false)
    (herr : (AMux_AddPort pdl (some a) port mask hw).1 = AMUX_ERROR) :
    ∃ a', (AMux_AddPort pdl (some a) port mask hw).2.1 = some a' ∧
      (AMux_AddPort pdl (some a) port mask hw).2.2.regs = hw.regs ∧
      (AMux_AddPort pdl (some a) port mask hw).2.2.log = hw.log ∧
      a'.num_conn = AMUX_MAX_NUM_CONNECTIONS ∧
      connList a' = (connList a ++ portConnections pdl a.amux_sel port mask).take
        AMUX_MAX_NUM_CONNECTIONS ∧
      connList a <+: connList a' := by
  unfold AMux_AddPort at herr ⊢
  have hg : ¬ (port = 0 ∨ a.dma_en = true) := by simp [hport, hen]
  simp only [if_neg hg] at herr ⊢
  rcases hl : AMux_AddPort_loop pdl (portAddrHSIOM pdl port) mask CY_GPIO_PINS_MAX 0 a
    with ⟨b, a1⟩
  rw [hl] at herr
  cases b with
  | true => simp at herr
  | false =>
    obtain ⟨_, h2, _, _, _, _, _, h8⟩ :=
      AMux_AddPort_loop_full pdl _ mask _ 0 a a1 hwf hn hl
    have hc : connList a1 = (connList a ++ portConnections pdl a.amux_sel port mask).take
        AMUX_MAX_NUM_CONNECTIONS := by
      rw [h8]; simp [portConnections, List.range_eq_range']
    refine ⟨a1, rfl, rfl, rfl, h2, hc, ?_⟩
    rw [hc, List.take_append_eq_append_take]
    rw [List.take_of_length_le (by rw [connList_length]; exact hn)]
    exact ⟨_, rfl⟩

/-- C2 as amended, at the input of the counterexample. -/
theorem C2_error_keeps_earlier_entries_witness :
    (sampleHandle 31).wf ∧ (sampleHandle 31).num_conn ≤ AMUX_MAX_NUM_CONNECTIONS ∧
    GPIO_PRT9 ≠ 0 ∧ (sampleHandle 31).dma_en = false ∧
    (AMux_AddPort psoc6 (some (sampleHandle 31)) GPIO_PRT9 3 blankHw).1 = AMUX_ERROR ∧
    ∃ a', (AMux_AddPort psoc6 (some (sampleHandle 31)) GPIO_PRT9 3 blankHw).2.1 = some a' ∧
      (AMux_AddPort psoc6 (some (sampleHandle 31)) GPIO_PRT9 3 blankHw).2.2.regs
        = blankHw.regs ∧
      (AMux_AddPort psoc6 (some (sampleHandle 31)) GPIO_PRT9 3 blankHw).2.2.log
        = blankHw.log ∧
      a'.num_conn = AMUX_MAX_NUM_CONNECTIONS ∧
      connList a' = (connList (sampleHandle 31) ++
        portConnections psoc6 (sampleHandle 31).amux_sel GPIO_PRT9 3).take
          AMUX_MAX_NUM_CONNECTIONS ∧
      connList (sampleHandle 31) <+: connList a' :=
  ⟨by decide, by decide, by decide, by decide, by decide,
    C2_error_keeps_earlier_entries psoc6 (sampleHandle 31) GPIO_PRT9 3 blankHw
      (by decide) (by decide) (by decide) (by decide) (by decide)⟩

/-- C3, the code at the failing inputs: on a non-armed handle with 31
connections the mask 0b00000001 exactly fills the capacity (31 + 1 = 32), the
call stores the connection (num_conn becomes 32) and still returns AMUX_ERROR,
while the mask 0b10000000 at the same fill level returns AMUX_SUCCESS; and the
mask 0 on a full set returns AMUX_ERROR. -/
theorem C3_exact_fill_returns_error :
    (sampleHandle 31).dma_en = false ∧ GPIO_PRT9 ≠ 0 ∧
    (sampleHandle 31).num_conn + popcount8 1 ≤ AMUX_MAX_NUM_CONNECTIONS ∧
    (AMux_AddPort psoc6 (some (sampleHandle 31)) GPIO_PRT9 1 blankHw).1 = AMUX_ERROR ∧
    (AMux_AddPort psoc6 (some (sampleHandle 31)) GPIO_PRT9 1 blankHw).2.1.map
      (fun a => a.num_conn) = some 32 ∧
    (AMux_AddPort psoc6 (some (sampleHandle 31)) GPIO_PRT9 0x80 blankHw).1 = AMUX_SUCCESS ∧
    (sampleHandle 32).num_conn + popcount8 0 ≤ AMUX_MAX_NUM_CONNECTIONS ∧
    (AMux_AddPort psoc6 (some (sampleHandle 32)) GPIO_PRT9 0 blankHw).1 = AMUX_ERROR := by
  decide

/-- C4, the code at the failing input: on a non-armed handle with 2 connections
AMux_Connect with index 5 returns AMUX_SUCCESS, writes registers (the clear of
the set, then the stale entry 5: value 0 to address 0) and moves the cursor
to 5. -/
theorem C4_connect_out_of_range_succeeds :
    (sampleHandle 2).num_conn = 2 ∧
    (AMux_Connect (some (sampleHandle 2)) 5 blankHw).map
      (fun r => (r.1, r.2.1.map (fun a => a.curr_conn), r.2.2.log)) =
      some (AMUX_SUCCESS, some 5, [(100, 0), (0, 0)]) := by
  decide

/-! ## Properties of the CPU-driven stepping -/

theorem connect_port_get (a : amux_t) (i : Nat) (h : i < a.connect_port.length) :
    a.connect_port[i]? = some (a.port i) := by
  simp [amux_t.port, List.getElem?_eq_getElem h]

theorem connect_pin_get (a : amux_t) (i : Nat) (h : i < a.connect_pin.length) :
    a.connect_pin[i]? = some (a.pin i) := by
  simp [amux_t.pin, List.getElem?_eq_getElem h]

/-- The clearing loop terminates without an out-of-bounds access when the
positions it visits lie inside the array; it only touches registers and the
write trace. -/
theorem AMux_DisconnectAll_loop_some (a : amux_t) :
    ∀ (todo i prev : Nat) (hw : Hw), i + todo ≤ a.connect_port.length →
      ∃ hw1, AMux_DisconnectAll_loop a todo i prev hw = some hw1 ∧
        hw1.amux_dma_descriptor = hw.amux_dma_descriptor ∧ hw1.dma_calls = hw.dma_calls := by
  intro todo
  induction todo with
  | zero => intro i prev hw _; exact ⟨hw, rfl, rfl, rfl⟩
  | succ todo ih =>
    intro i prev hw hb
    rw [AMux_DisconnectAll_loop, connect_port_get a i (by omega)]
    by_cases hp : prev ≠ a.port i
    · simp only [if_pos hp]
      obtain ⟨hw1, e, d, c⟩ := ih (i + 1) (a.port i) (CY_SET_REG32 (a.port i) 0 hw) (by omega)
      exact ⟨hw1, e, d, c⟩
    · simp only [if_neg hp]
      exact ih (i + 1) prev hw (by omega)

theorem AMux_DisconnectAll_eq (a : amux_t) (hw : Hw) (hwf : a.wf)
    (hn : a.num_conn ≤ AMUX_MAX_NUM_CONNECTIONS) :
    ∃ hw1, AMux_DisconnectAll_loop a a.num_conn 0 0 hw = some hw1 ∧
      hw1.amux_dma_descriptor = hw.amux_dma_descriptor ∧ hw1.dma_calls = hw.dma_calls ∧
      AMux_DisconnectAll (some a) hw =
        some (AMUX_SUCCESS, some { a with curr_conn := (a.num_conn + 255) % 256 }, hw1) := by
  obtain ⟨hw1, e, d, c⟩ := AMux_DisconnectAll_loop_some a a.num_conn 0 0 hw
    (by rw [hwf.1]; omega)
  exact ⟨hw1, e, d, c, by simp [AMux_DisconnectAll, e]⟩

theorem AMux_ConnectNext_known (a : amux_t) (hw : Hw) (hwf : a.wf)
    (hen : a.dma_en = false) (h1 : 1 ≤ a.num_conn)
    (hn : a.num_conn ≤ AMUX_MAX_NUM_CONNECTIONS)
    (hc : a.curr_conn < a.num_conn) :
    AMux_ConnectNext (some a) hw =
      some (AMUX_SUCCESS, some { a with curr_conn := (a.curr_conn + 1) % a.num_conn },
        CY_SET_REG32 (a.port ((a.curr_conn + 1) % a.num_conn))
          (a.pin ((a.curr_conn + 1) % a.num_conn))
          (CY_SET_REG32 (a.port a.curr_conn) 0 hw)) := by
  have hN : a.num_conn ≤ 32 := hn
  have hk : a.curr_conn ≠ AMUX_CONN_UNKNOWN := by
    simp only [AMUX_CONN_UNKNOWN]; omega
  have hlt : (a.curr_conn + 1) % a.num_conn < a.num_conn := Nat.mod_lt _ (by omega)
  have hm : (a.curr_conn + 1) % a.num_conn % 256 = (a.curr_conn + 1) % a.num_conn := by omega
  have hp := connect_port_get a a.curr_conn (by rw [hwf.1]; show a.curr_conn < 32; omega)
  have hp' := connect_port_get a ((a.curr_conn + 1) % a.num_conn)
    (by rw [hwf.1]; show _ < 32; omega)
  have hq' := connect_pin_get a ((a.curr_conn + 1) % a.num_conn)
    (by rw [hwf.2]; show _ < 32; omega)
  have h0 : a.num_conn ≠ 0 := by omega
  simp [AMux_ConnectNext, hen, hk, hp, hp', hq', hm, h0]

theorem AMux_ConnectNext_unknown (a : amux_t) (hw : Hw) (hwf : a.wf)
    (hen : a.dma_en = false) (h1 : 1 ≤ a.num_conn)
    (hn : a.num_conn ≤ AMUX_MAX_NUM_CONNECTIONS)
    (hc : a.curr_conn = AMUX_CONN_UNKNOWN) :
    ∃ hw1, AMux_DisconnectAll_loop a a.num_conn 0 0 hw = some hw1 ∧
      AMux_ConnectNext (some a) hw =
        some (AMUX_SUCCESS, some { a with curr_conn := 0 },
          CY_SET_REG32 (a.port 0) (a.pin 0) hw1) := by
  have hN : a.num_conn ≤ 32 := hn
  obtain ⟨hw1, e, _, _, ed⟩ := AMux_DisconnectAll_eq a hw hwf hn
  refine ⟨hw1, e, ?_⟩
  have hm : (a.num_conn + 255) % 256 = a.num_conn - 1 := by omega
  have hz : (a.num_conn - 1 + 1) % a.num_conn = 0 := by
    rw [Nat.sub_add_cancel h1, Nat.mod_self]
  have hp' := connect_port_get a 0 (by rw [hwf.1]; decide)
  have hq' := connect_pin_get a 0 (by rw [hwf.2]; decide)
  have h0 : a.num_conn ≠ 0 := by omega
  simp [AMux_ConnectNext, hen, hc, ed, hm, hz, hp', hq', h0]

theorem AMux_Connect_known (a : amux_t) (index : Nat) (hw : Hw) (hwf : a.wf)
    (hen : a.dma_en = false) (hn : a.num_conn ≤ AMUX_MAX_NUM_CONNECTIONS)
    (hc : a.curr_conn < a.num_conn) (hi : index < a.num_conn) :
    AMux_Connect (some a) index hw =
      some (AMUX_SUCCESS, some { a with curr_conn := index },
        CY_SET_REG32 (a.port index) (a.pin index)
          (CY_SET_REG32 (a.port a.curr_conn) 0 hw)) := by
  have hN : a.num_conn ≤ 32 := hn
  have hk : a.curr_conn ≠ AMUX_CONN_UNKNOWN := by
    simp only [AMUX_CONN_UNKNOWN]; omega
  have hp := connect_port_get a a.curr_conn (by rw [hwf.1]; show a.curr_conn < 32; omega)
  have hp' := connect_port_get a index (by rw [hwf.1]; show _ < 32; omega)
  have hq' := connect_pin_get a index (by rw [hwf.2]; show _ < 32; omega)
  simp [AMux_Connect, hen, hk, hp, hp', hq']

theorem AMux_Connect_unknown (a : amux_t) (index : Nat) (hw : Hw) (hwf : a.wf)
    (hen : a.dma_en = false) (hn : a.num_conn ≤ AMUX_MAX_NUM_CONNECTIONS)
    (hc : a.curr_conn = AMUX_CONN_UNKNOWN) (hi : index < a.num_conn) :
    ∃ hw1, AMux_DisconnectAll_loop a a.num_conn 0 0 hw = some hw1 ∧
      AMux_Connect (some a) index hw =
        some (AMUX_SUCCESS, some { a with curr_conn := index },
          CY_SET_REG32 (a.port index) (a.pin index) hw1) := by
  have hN : a.num_conn ≤ 32 := hn
  obtain ⟨hw1, e, _, _, ed⟩ := AMux_DisconnectAll_eq a hw hwf hn
  refine ⟨hw1, e, ?_⟩
  have hp' := connect_port_get a index (by rw [hwf.1]; show _ < 32; omega)
  have hq' := connect_pin_get a index (by rw [hwf.2]; show _ < 32; omega)
  simp [AMux_Connect, hen, hc, ed, hp', hq']

theorem AMux_DisconnectAll_loop_clears (a : amux_t) :
    ∀ (todo i prev : Nat) (hw hw1 : Hw),
      AMux_DisconnectAll_loop a todo i prev hw = some hw1 →
      (∀ j, i ≤ j → j < i + todo → a.port j ≠ 0) →
      (prev ≠ 0 → hw.regs prev = 0) →
      (∀ x, hw.regs x = 0 → hw1.regs x = 0) ∧
      ∀ j, i ≤ j → j < i + todo → hw1.regs (a.port j) = 0 := by
  intro todo
  induction todo with
  | zero =>
    intro i prev hw hw1 h _ _
    simp [AMux_DisconnectAll_loop] at h
    subst h
    exact ⟨fun x hx => hx, fun j h1 h2 => by omega⟩
  | succ todo ih =>
    intro i prev hw hw1 h hnz hprev
    rw [AMux_DisconnectAll_loop] at h
    cases hg : a.connect_port[i]? with
    | none => rw [hg] at h; simp at h
    | some p =>
      rw [hg] at h
      have hp : a.port i = p := by simp [amux_t.port, hg]
      have hp0 : p ≠ 0 := by rw [← hp]; exact hnz i (Nat.le_refl _) (by omega)
      by_cases hne : prev ≠ p
      · simp only [if_pos hne] at h
        have hz : (CY_SET_REG32 p 0 hw).regs p = 0 := by simp [CY_SET_REG32, storeWord]
        obtain ⟨k1, k2⟩ := ih (i + 1) p (CY_SET_REG32 p 0 hw) hw1 h
          (fun j h1 h2 => hnz j (by omega) (by omega)) (fun _ => hz)
        refine ⟨?_, ?_⟩
        · intro x hx
          apply k1
          simp only [CY_SET_REG32, storeWord]
          split
          · rfl
          · exact hx
        · intro j h1 h2
          by_cases hj : j = i
          · subst hj; rw [hp]; exact k1 p hz
          · exact k2 j (by omega) (by omega)
      · simp only [if_neg hne] at h
        have hpe : prev = p := by
          by_contra hc; exact hne hc
        obtain ⟨k1, k2⟩ := ih (i + 1) prev hw hw1 h
          (fun j h1 h2 => hnz j (by omega) (by omega)) hprev
        refine ⟨k1, ?_⟩
        intro j h1 h2
        by_cases hj : j = i
        · subst hj; rw [hp, ← hpe]; exact k1 prev (hprev (by rw [hpe]; exact hp0))
        · exact k2 j (by omega) (by omega)

theorem allClear_of_loop (a : amux_t) (hw hw1 : Hw)
    (h : AMux_DisconnectAll_loop a a.num_conn 0 0 hw = some hw1)
    (hnz : ∀ j, j < a.num_conn → a.port j ≠ 0) : allClear a hw1.regs := by
  intro j hj
  exact (AMux_DisconnectAll_loop_clears a a.num_conn 0 0 hw hw1 h
    (fun j _ h2 => hnz j (by omega)) (fun h0 => absurd rfl h0)).2 j (Nat.zero_le _) (by omega)

theorem oneAsserted_of_allClear (a : amux_t) (regs : Nat → Nat) (index : Nat)
    (hc : allClear a regs) (hi : index < a.num_conn) :
    oneAsserted { a with curr_conn := index } (storeWord regs (a.port index) (a.pin index)) := by
  refine ⟨hi, ?_, ?_⟩
  · simp [storeWord, amux_t.port, amux_t.pin]
  · intro j hj hne
    have hne' : a.port j ≠ a.port index := hne
    show storeWord regs (a.port index) (a.pin index) (a.port j) = 0
    simp only [storeWord, if_neg hne']
    exact hc j hj

theorem allClear_of_oneAsserted (a : amux_t) (regs : Nat → Nat) (h : oneAsserted a regs) :
    allClear a (storeWord regs (a.port a.curr_conn) 0) := by
  intro j hj
  by_cases he : a.port j = a.port a.curr_conn
  · simp [storeWord, he]
  · simp only [storeWord, if_neg he]
    exact h.2.2 j hj he

/-- One stepping call from a state whose cursor is unknown or which satisfies the
at-most-one-asserted property succeeds and establishes that property. -/
theorem cpuCall_oneAsserted (c : CpuCall) (a : amux_t) (hw : Hw) (hwf : a.wf)
    (hen : a.dma_en = false) (h1 : 1 ≤ a.num_conn)
    (hn : a.num_conn ≤ AMUX_MAX_NUM_CONNECTIONS)
    (hnz : ∀ j, j < a.num_conn → a.port j ≠ 0)
    (hst : a.curr_conn = AMUX_CONN_UNKNOWN ∨ oneAsserted a hw.regs)
    (hr : c.inRange a.num_conn = true) :
    ∃ a' hw', cpuCall c (some a) hw = some (AMUX_SUCCESS, some a', hw') ∧
      a'.connect_port = a.connect_port ∧ a'.connect_pin = a.connect_pin ∧
      a'.num_conn = a.num_conn ∧ a'.dma_en = false ∧ oneAsserted a' hw'.regs := by
  have hN : a.num_conn ≤ 32 := hn
  by_cases hu : a.curr_conn = AMUX_CONN_UNKNOWN
  · cases c with
    | Connect index =>
      have hi : index < a.num_conn := by simpa [CpuCall.inRange] using hr
      obtain ⟨hw1, e, ec⟩ := AMux_Connect_unknown a index hw hwf hen hn hu hi
      exact ⟨_, _, ec, rfl, rfl, rfl, hen,
        oneAsserted_of_allClear a hw1.regs index (allClear_of_loop a hw hw1 e hnz) hi⟩
    | ConnectNext =>
      obtain ⟨hw1, e, ec⟩ := AMux_ConnectNext_unknown a hw hwf hen h1 hn hu
      exact ⟨_, _, ec, rfl, rfl, rfl, hen,
        oneAsserted_of_allClear a hw1.regs 0 (allClear_of_loop a hw hw1 e hnz) (by omega)⟩
  · have hone : oneAsserted a hw.regs := hst.resolve_left hu
    have hc : a.curr_conn < a.num_conn := hone.1
    cases c with
    | Connect index =>
      have hi : index < a.num_conn := by simpa [CpuCall.inRange] using hr
      exact ⟨_, _, AMux_Connect_known a index hw hwf hen hn hc hi, rfl, rfl, rfl, hen,
        oneAsserted_of_allClear a _ index (allClear_of_oneAsserted a hw.regs hone) hi⟩
    | ConnectNext =>
      exact ⟨_, _, AMux_ConnectNext_known a hw hwf hen h1 hn hc, rfl, rfl, rfl, hen,
        oneAsserted_of_allClear a _ _ (allClear_of_oneAsserted a hw.regs hone)
          (Nat.mod_lt _ (by omega))⟩

theorem cpuRun_oneAsserted (calls : List CpuCall) :
    ∀ (a : amux_t) (hw : Hw), a.wf → a.dma_en = false → 1 ≤ a.num_conn →
      a.num_conn ≤ AMUX_MAX_NUM_CONNECTIONS →
      (∀ j, j < a.num_conn → a.port j ≠ 0) →
      (a.curr_conn = AMUX_CONN_UNKNOWN ∨ oneAsserted a hw.regs) →
      (∀ c ∈ calls, c.inRange a.num_conn = true) →
      ∃ rs, cpuRun calls (some a) hw = some rs ∧ rs.length = calls.length ∧
        ∀ r ∈ rs, r.1 = AMUX_SUCCESS ∧ ∃ a', r.2.1 = some a' ∧
          a'.connect_port = a.connect_port ∧ a'.connect_pin = a.connect_pin ∧
          a'.num_conn = a.num_conn ∧ oneAsserted a' r.2.2.regs := by
  induction calls with
  | nil =>
    intro a hw _ _ _ _ _ _ _
    exact ⟨[], rfl, rfl, fun r hr => by simp at hr⟩
  | cons c calls ih =>
    intro a hw hwf hen h1 hn hnz hst hr
    obtain ⟨a', hw', e, ep, eq, en, een, hone⟩ :=
      cpuCall_oneAsserted c a hw hwf hen h1 hn hnz hst (hr c (List.mem_cons_self _ _))
    have hport : ∀ j, a'.port j = a.port j := fun j => by simp [amux_t.port, ep]
    obtain ⟨rs, ers, el, hall⟩ := ih a' hw' (by simpa [amux_t.wf, ep, eq] using hwf) een
      (by rw [en]; exact h1) (by rw [en]; exact hn)
      (fun j hj => by rw [hport]; exact hnz j (by rw [← en]; exact hj)) (Or.inr hone)
      (fun c hc => by rw [en]; exact hr c (List.mem_cons_of_mem _ hc))
    refine ⟨(AMUX_SUCCESS, some a', hw') :: rs, by simp [cpuRun, e, ers], by simp [el], ?_⟩
    intro r hrm
    rcases List.mem_cons.mp hrm with rfl | hrm
    · exact ⟨rfl, a', rfl, ep, eq, en, hone⟩
    · obtain ⟨k1, a'', k2, k3, k4, k5, k6⟩ := hall r hrm
      exact ⟨k1, a'', k2, by rw [k3, ep], by rw [k4, eq], by rw [k5, en], k6⟩

/-- C5: on a non-armed handle with N >= 1 connections, all register addresses
non-zero and the cursor unknown, for every initial register contents every
finite sequence of AMux_Connect (index < N) and AMux_ConnectNext calls runs to
completion, every call returns AMUX_SUCCESS, and immediately after each call
the register of the cursor's connection holds that connection's value while
every other register address of the connection list holds 0; so any two
connections whose registers are non-zero share one register. -/
theorem C5_at_most_one_asserted (a : amux_t) (hw : Hw) (calls : List CpuCall)
    (hwf : a.wf) (hen : a.dma_en = false) (h1 : 1 ≤ a.num_conn)
    (hn : a.num_conn ≤ AMUX_MAX_NUM_CONNECTIONS)
    (hnz : ∀ j, j < a.num_conn → a.port j ≠ 0)
    (hu : a.curr_conn = AMUX_CONN_UNKNOWN)
    (hr : ∀ c ∈ calls, c.inRange a.num_conn = true) :
    ∃ rs, cpuRun calls (some a) hw = some rs ∧ rs.length = calls.length ∧
      ∀ r ∈ rs, r.1 = AMUX_SUCCESS ∧ ∃ a', r.2.1 = some a' ∧
        a'.connect_port = a.connect_port ∧ a'.connect_pin = a.connect_pin ∧
        a'.num_conn = a.num_conn ∧ oneAsserted a' r.2.2.regs ∧
        ∀ j k, j < a.num_conn → k < a.num_conn → r.2.2.regs (a.port j) ≠ 0 →
          r.2.2.regs (a.port k) ≠ 0 → a.port j = a.port k := by
  obtain ⟨rs, e, el, hall⟩ := cpuRun_oneAsserted calls a hw hwf hen h1 hn hnz (Or.inl hu) hr
  refine ⟨rs, e, el, ?_⟩
  intro r hrm
  obtain ⟨k1, a', k2, k3, k4, k5, k6⟩ := hall r hrm
  refine ⟨k1, a', k2, k3, k4, k5, k6, ?_⟩
  have hport : ∀ j, a'.port j = a.port j := fun j => by simp [amux_t.port, k3]
  intro j k hj hk hjn hkn
  have hj' : a.port j = a.port a'.curr_conn := by
    by_contra hne
    exact hjn (by
      have := k6.2.2 j (by rw [k5]; exact hj) (by rw [hport, hport]; exact hne)
      rwa [hport] at this)
  have hk' : a.port k = a.port a'.curr_conn := by
    by_contra hne
    exact hkn (by
      have := k6.2.2 k (by rw [k5]; exact hk) (by rw [hport, hport]; exact hne)
      rwa [hport] at this)
  rw [hj', hk']

/-- C5 at a concrete input: five connections on two registers, four calls. -/
theorem C5_at_most_one_asserted_witness :
    (sampleHandle 5).wf ∧ (sampleHandle 5).dma_en = false ∧ 1 ≤ (sampleHandle 5).num_conn ∧
    (sampleHandle 5).num_conn ≤ AMUX_MAX_NUM_CONNECTIONS ∧
    (∀ j, j < (sampleHandle 5).num_conn → (sampleHandle 5).port j ≠ 0) ∧
    (sampleHandle 5).curr_conn = AMUX_CONN_UNKNOWN ∧
    (∀ c ∈ [CpuCall.ConnectNext, CpuCall.Connect 4, CpuCall.ConnectNext, CpuCall.Connect 1],
      c.inRange (sampleHandle 5).num_conn = true) ∧
    ∃ rs, cpuRun [CpuCall.ConnectNext, CpuCall.Connect 4, CpuCall.ConnectNext, CpuCall.Connect 1]
        (some (sampleHandle 5)) blankHw = some rs ∧
      rs.length =
        [CpuCall.ConnectNext, CpuCall.Connect 4, CpuCall.ConnectNext, CpuCall.Connect 1].length ∧
      ∀ r ∈ rs, r.1 = AMUX_SUCCESS ∧ ∃ a', r.2.1 = some a' ∧
        a'.connect_port = (sampleHandle 5).connect_port ∧
        a'.connect_pin = (sampleHandle 5).connect_pin ∧
        a'.num_conn = (sampleHandle 5).num_conn ∧ oneAsserted a' r.2.2.regs ∧
        ∀ j k, j < (sampleHandle 5).num_conn → k < (sampleHandle 5).num_conn →
          r.2.2.regs ((sampleHandle 5).port j) ≠ 0 →
          r.2.2.regs ((sampleHandle 5).port k) ≠ 0 →
          (sampleHandle 5).port j = (sampleHandle 5).port k :=
  ⟨by decide, by decide, by decide, by decide, by decide, by decide, by decide,
    C5_at_most_one_asserted (sampleHandle 5) blankHw
      [CpuCall.ConnectNext, CpuCall.Connect 4, CpuCall.ConnectNext, CpuCall.Connect 1]
      (by decide) (by decide) (by decide) (by decide) (by decide) (by decide) (by decide)⟩

/-- From a known cursor, `m` consecutive AMux_ConnectNext calls succeed and step
the cursor by one position each, modulo the number of connections. -/
theorem cpuRun_connectNext_known (m : Nat) :
    ∀ (a : amux_t) (hw : Hw), a.wf → a.dma_en = false → 1 ≤ a.num_conn →
      a.num_conn ≤ AMUX_MAX_NUM_CONNECTIONS → a.curr_conn < a.num_conn →
      ∃ rs, cpuRun (List.replicate m CpuCall.ConnectNext) (some a) hw = some rs ∧
        rs.map (fun r => (r.1, r.2.1.map (fun a' => a'.curr_conn))) =
          (List.range m).map (fun i => (AMUX_SUCCESS, some ((a.curr_conn + 1 + i) % a.num_conn))) := by
  induction m with
  | zero => intro a hw _ _ _ _ _; exact ⟨[], rfl, rfl⟩
  | succ m ih =>
    intro a hw hwf hen h1 hn hc
    have e := AMux_ConnectNext_known a hw hwf hen h1 hn hc
    have hlt : (a.curr_conn + 1) % a.num_conn < a.num_conn := Nat.mod_lt _ (by omega)
    obtain ⟨rs, ers, hmap⟩ := ih { a with curr_conn := (a.curr_conn + 1) % a.num_conn }
      (CY_SET_REG32 (a.port ((a.curr_conn + 1) % a.num_conn))
        (a.pin ((a.curr_conn + 1) % a.num_conn)) (CY_SET_REG32 (a.port a.curr_conn) 0 hw))
      hwf hen h1 hn hlt
    refine ⟨_ :: rs, by simp only [List.replicate_succ, cpuRun, cpuCall, e, ers]; rfl, ?_⟩
    rw [List.map_cons, hmap, List.range_succ_eq_map, List.map_cons, List.map_map]
    congr 1
    apply List.map_congr_left
    intro i _
    simp only [Function.comp, Prod.mk.injEq, Option.some.injEq, true_and]
    show ((a.curr_conn + 1) % a.num_conn + 1 + i) % a.num_conn =
      (a.curr_conn + 1 + (i + 1)) % a.num_conn
    rw [Nat.add_assoc, Nat.mod_add_mod, Nat.add_comm 1 i]

/-- C6: on a non-armed handle with N >= 1 connections and the cursor unknown, N
consecutive AMux_ConnectNext calls run to completion, all return AMUX_SUCCESS,
and the cursor values after the calls are 0, 1, ..., N-1 in that order. -/
theorem C6_connectNext_visits_each_position (a : amux_t) (hw : Hw) (hwf : a.wf)
    (hen : a.dma_en = false) (h1 : 1 ≤ a.num_conn)
    (hn : a.num_conn ≤ AMUX_MAX_NUM_CONNECTIONS)
    (hu : a.curr_conn = AMUX_CONN_UNKNOWN) :
    ∃ rs, cpuRun (List.replicate a.num_conn CpuCall.ConnectNext) (some a) hw = some rs ∧
      rs.map (fun r => (r.1, r.2.1.map (fun a' => a'.curr_conn))) =
        (List.range a.num_conn).map (fun i => (AMUX_SUCCESS, some i)) := by
  obtain ⟨hw1, _, e⟩ := AMux_ConnectNext_unknown a hw hwf hen h1 hn hu
  obtain ⟨m, hm⟩ : ∃ m, a.num_conn = m + 1 := ⟨a.num_conn - 1, by omega⟩
  obtain ⟨rs, ers, hmap⟩ := cpuRun_connectNext_known m { a with curr_conn := 0 }
    (CY_SET_REG32 (a.port 0) (a.pin 0) hw1) hwf hen h1 hn (by show 0 < a.num_conn; omega)
  rw [hm]
  refine ⟨_ :: rs, by simp only [List.replicate_succ, cpuRun, cpuCall, e, ers]; rfl, ?_⟩
  rw [List.map_cons, hmap, List.range_succ_eq_map, List.map_cons, List.map_map]
  congr 1
  apply List.map_congr_left
  intro i hi
  have hi' : i < m := List.mem_range.mp hi
  simp only [Function.comp, Prod.mk.injEq, Option.some.injEq, true_and]
  show (0 + 1 + i) % a.num_conn = i + 1
  rw [hm, Nat.zero_add, Nat.add_comm 1 i]
  apply Nat.mod_eq_of_lt
  omega

/-- C6 at a concrete input: five connections. -/
theorem C6_connectNext_visits_each_position_witness :
    (sampleHandle 5).wf ∧ (sampleHandle 5).dma_en = false ∧ 1 ≤ (sampleHandle 5).num_conn ∧
    (sampleHandle 5).num_conn ≤ AMUX_MAX_NUM_CONNECTIONS ∧
    (sampleHandle 5).curr_conn = AMUX_CONN_UNKNOWN ∧
    ∃ rs, cpuRun (List.replicate (sampleHandle 5).num_conn CpuCall.ConnectNext)
        (some (sampleHandle 5)) blankHw = some rs ∧
      rs.map (fun r => (r.1, r.2.1.map (fun a' => a'.curr_conn))) =
        (List.range (sampleHandle 5).num_conn).map (fun i => (AMUX_SUCCESS, some i)) :=
  ⟨by decide, by decide, by decide, by decide, by decide,
    C6_connectNext_visits_each_position (sampleHandle 5) blankHw
      (by decide) (by decide) (by decide) (by decide) (by decide)⟩

/-- From a known cursor c, `m` consecutive AMux_ConnectNext calls succeed and
leave the cursor at (c + m) mod N, the connection list untouched. -/
theorem connectNextN_known (m : Nat) :
    ∀ (a : amux_t) (hw : Hw), a.wf → a.dma_en = false → 1 ≤ a.num_conn →
      a.num_conn ≤ AMUX_MAX_NUM_CONNECTIONS → a.curr_conn < a.num_conn →
      ∃ a' hw', connectNextN m (some a) hw = some (some a', hw') ∧
        a'.curr_conn = (a.curr_conn + m) % a.num_conn ∧ a'.num_conn = a.num_conn ∧
        a'.connect_port = a.connect_port ∧ a'.connect_pin = a.connect_pin := by
  induction m with
  | zero =>
    intro a hw _ _ _ _ hc
    exact ⟨a, hw, rfl, by rw [Nat.add_zero, Nat.mod_eq_of_lt hc], rfl, rfl, rfl⟩
  | succ m ih =>
    intro a hw hwf hen h1 hn hc
    have e := AMux_ConnectNext_known a hw hwf hen h1 hn hc
    have hlt : (a.curr_conn + 1) % a.num_conn < a.num_conn := Nat.mod_lt _ (by omega)
    obtain ⟨a', hw', e', k1, k2, k3, k4⟩ := ih { a with curr_conn := (a.curr_conn + 1) % a.num_conn }
      (CY_SET_REG32 (a.port ((a.curr_conn + 1) % a.num_conn))
        (a.pin ((a.curr_conn + 1) % a.num_conn)) (CY_SET_REG32 (a.port a.curr_conn) 0 hw))
      hwf hen h1 hn hlt
    refine ⟨a', hw', by simp only [connectNextN, e, e'], ?_, k2, k3, k4⟩
    rw [k1]
    show ((a.curr_conn + 1) % a.num_conn + m) % a.num_conn = (a.curr_conn + (m + 1)) % a.num_conn
    rw [Nat.mod_add_mod, Nat.add_assoc, Nat.add_comm 1 m]

/-- From an unknown cursor, `m + 1` consecutive AMux_ConnectNext calls succeed and
leave the cursor at m mod N. -/
theorem connectNextN_unknown (m : Nat) (a : amux_t) (hw : Hw) (hwf : a.wf)
    (hen : a.dma_en = false) (h1 : 1 ≤ a.num_conn)
    (hn : a.num_conn ≤ AMUX_MAX_NUM_CONNECTIONS)
    (hu : a.curr_conn = AMUX_CONN_UNKNOWN) :
    ∃ a' hw', connectNextN (m + 1) (some a) hw = some (some a', hw') ∧
      a'.curr_conn = m % a.num_conn ∧ a'.num_conn = a.num_conn ∧
      a'.connect_port = a.connect_port ∧ a'.connect_pin = a.connect_pin := by
  obtain ⟨hw1, _, e⟩ := AMux_ConnectNext_unknown a hw hwf hen h1 hn hu
  obtain ⟨a', hw', e', k1, k2, k3, k4⟩ := connectNextN_known m { a with curr_conn := 0 }
    (CY_SET_REG32 (a.port 0) (a.pin 0) hw1) hwf hen h1 hn (by show 0 < a.num_conn; omega)
  refine ⟨a', hw', by simp only [connectNextN, e, e'], ?_, k2, k3, k4⟩
  rw [k1]
  show (0 + m) % a.num_conn = m % a.num_conn
  rw [Nat.zero_add]

/-- C7, the claim as stated fails: on a non-armed handle with 2 connections and
the cursor unknown, after the second of two consecutive AMux_ConnectNext calls
the cursor is at position 1, not at position 0. -/
theorem C7_counterexample :
    (sampleHandle 2).dma_en = false ∧ (sampleHandle 2).num_conn = 2 ∧
    (sampleHandle 2).curr_conn = AMUX_CONN_UNKNOWN ∧
    (connectNextN 2 (some (sampleHandle 2)) blankHw).map
      (fun r => r.1.map (fun a => a.curr_conn)) = some (some 1) ∧
    (connectNextN 2 (some (sampleHandle 2)) blankHw).map
      (fun r => r.1.map (fun a => a.curr_conn)) ≠ some (some 0) := by
  decide

/-- C7 as amended: on a non-armed handle with N >= 1 connections and the cursor
unknown, N consecutive AMux_ConnectNext calls run to completion and leave the
cursor at the last position N-1; one more call (the (N+1)-th) returns the cursor
to position 0. -/
theorem C7_cursor_after_full_cycle (a : amux_t) (hw : Hw) (hwf : a.wf)
    (hen : a.dma_en = false) (h1 : 1 ≤ a.num_conn)
    (hn : a.num_conn ≤ AMUX_MAX_NUM_CONNECTIONS)
    (hu : a.curr_conn = AMUX_CONN_UNKNOWN) :
    (∃ a' hw', connectNextN a.num_conn (some a) hw = some (some a', hw') ∧
      a'.curr_conn = a.num_conn - 1) ∧
    (∃ a' hw', connectNextN (a.num_conn + 1) (some a) hw = some (some a', hw') ∧
      a'.curr_conn = 0) := by
  constructor
  · obtain ⟨a', hw', e, k1, _⟩ := connectNextN_unknown (a.num_conn - 1) a hw hwf hen h1 hn hu
    rw [Nat.sub_add_cancel h1] at e
    exact ⟨a', hw', e, by rw [k1]; exact Nat.mod_eq_of_lt (by omega)⟩
  · obtain ⟨a', hw', e, k1, _⟩ := connectNextN_unknown a.num_conn a hw hwf hen h1 hn hu
    exact ⟨a', hw', e, by rw [k1, Nat.mod_self]⟩

/-- C7 as amended, at the input of the counterexample. -/
theorem C7_cursor_after_full_cycle_witness :
    (sampleHandle 2).wf ∧ (sampleHandle 2).dma_en = false ∧ 1 ≤ (sampleHandle 2).num_conn ∧
    (sampleHandle 2).num_conn ≤ AMUX_MAX_NUM_CONNECTIONS ∧
    (sampleHandle 2).curr_conn = AMUX_CONN_UNKNOWN ∧
    (∃ a' hw', connectNextN (sampleHandle 2).num_conn (some (sampleHandle 2)) blankHw =
        some (some a', hw') ∧ a'.curr_conn = (sampleHandle 2).num_conn - 1) ∧
    (∃ a' hw', connectNextN ((sampleHandle 2).num_conn + 1) (some (sampleHandle 2)) blankHw =
        some (some a', hw') ∧ a'.curr_conn = 0) :=
  ⟨by decide, by decide, by decide, by decide, by decide,
    C7_cursor_after_full_cycle (sampleHandle 2) blankHw
      (by decide) (by decide) (by decide) (by decide) (by decide)⟩

/-- C8: on a handle with N >= 1 connections AMux_DisconnectAll returns
AMUX_SUCCESS and leaves the cursor equal to N-1, all other handle fields as they
were; when the handle is not armed, an AMux_ConnectNext issued immediately
afterwards returns AMUX_SUCCESS, sets the cursor to 0, clears the register of
connection N-1 and then writes the value of connection 0 to the register of
connection 0, which then holds that value. -/
theorem C8_disconnectAll_then_connectNext (a : amux_t) (hw : Hw) (hwf : a.wf)
    (h1 : 1 ≤ a.num_conn) (hn : a.num_conn ≤ AMUX_MAX_NUM_CONNECTIONS) :
    ∃ hw1, AMux_DisconnectAll (some a) hw =
        some (AMUX_SUCCESS, some { a with curr_conn := a.num_conn - 1 }, hw1) ∧
      (a.dma_en = false →
        ∃ hw2, AMux_ConnectNext (some { a with curr_conn := a.num_conn - 1 }) hw1 =
            some (AMUX_SUCCESS, some { a with curr_conn := 0 }, hw2) ∧
          hw2.log = hw1.log ++ [(a.port (a.num_conn - 1), 0), (a.port 0, a.pin 0)] ∧
          hw2.regs (a.port 0) = a.pin 0) := by
  have hN : a.num_conn ≤ 32 := hn
  obtain ⟨hw1, _, _, _, e⟩ := AMux_DisconnectAll_eq a hw hwf hn
  have hm : (a.num_conn + 255) % 256 = a.num_conn - 1 := by omega
  rw [hm] at e
  refine ⟨hw1, e, ?_⟩
  intro hen
  have e2 := AMux_ConnectNext_known { a with curr_conn := a.num_conn - 1 } hw1 hwf hen h1 hn
    (by show a.num_conn - 1 < a.num_conn; omega)
  have hz : (a.num_conn - 1 + 1) % a.num_conn = 0 := by
    rw [Nat.sub_add_cancel h1, Nat.mod_self]
  simp only [hz] at e2
  refine ⟨_, e2, ?_, ?_⟩
  · simp [CY_SET_REG32, amux_t.port, amux_t.pin]
  · simp [CY_SET_REG32, storeWord, amux_t.port, amux_t.pin]

/-- C8 at a concrete input: five connections, cursor unknown, not armed. -/
theorem C8_disconnectAll_then_connectNext_witness :
    (sampleHandle 5).wf ∧ 1 ≤ (sampleHandle 5).num_conn ∧
    (sampleHandle 5).num_conn ≤ AMUX_MAX_NUM_CONNECTIONS ∧
    ∃ hw1, AMux_DisconnectAll (some (sampleHandle 5)) blankHw =
        some (AMUX_SUCCESS,
          some { sampleHandle 5 with curr_conn := (sampleHandle 5).num_conn - 1 }, hw1) ∧
      ((sampleHandle 5).dma_en = false →
        ∃ hw2, AMux_ConnectNext
            (some { sampleHandle 5 with curr_conn := (sampleHandle 5).num_conn - 1 }) hw1 =
            some (AMUX_SUCCESS, some { sampleHandle 5 with curr_conn := 0 }, hw2) ∧
          hw2.log = hw1.log ++ [((sampleHandle 5).port ((sampleHandle 5).num_conn - 1), 0),
            ((sampleHandle 5).port 0, (sampleHandle 5).pin 0)] ∧
          hw2.regs ((sampleHandle 5).port 0) = (sampleHandle 5).pin 0) :=
  ⟨by decide, by decide, by decide,
    C8_disconnectAll_then_connectNext (sampleHandle 5) blankHw
      (by decide) (by decide) (by decide)⟩

/-! ## Properties of the descriptor chain -/

/-- The descriptor loop of AMux_SetupDMA runs to completion when the positions
it visits lie inside the arrays; it programs slots 2j and 2j+1 for each visited
position j and leaves every other slot as it was. -/
theorem AMux_SetupDMA_loop_spec (a : amux_t) (hwf : a.wf) (h1 : 1 ≤ a.num_conn)
    (hn : a.num_conn ≤ AMUX_MAX_NUM_CONNECTIONS) :
    ∀ (todo i : Nat) (descs : List cy_stc_dma_descriptor_t),
      i + todo ≤ AMUX_MAX_NUM_CONNECTIONS → 2 * (i + todo) ≤ descs.length →
      ∃ descs', AMux_SetupDMA_loop a todo i descs = some descs' ∧
        descs'.length = descs.length ∧
        (∀ s, s < 2 * i ∨ 2 * (i + todo) ≤ s → descs'[s]? = descs[s]?) ∧
        ∀ j, i ≤ j → j < i + todo →
          descs'[2 * j]? = some (clearDescriptor
            (if j = 0 then a.port (a.num_conn - 1) else a.port (j - 1)) j) ∧
          descs'[2 * j + 1]? = some (setDescriptor (a.port j) j a.num_conn) := by
  have hN : a.num_conn ≤ 32 := hn
  intro todo
  induction todo with
  | zero =>
    intro i descs _ _
    exact ⟨descs, rfl, rfl, fun s _ => rfl, fun j h1 h2 => by omega⟩
  | succ todo ih =>
    intro i descs hb hd
    have hb' : i + (todo + 1) ≤ 32 := hb
    have e1 : (if i = 0 then a.connect_port[a.num_conn - 1]? else a.connect_port[i - 1]?) =
        some (if i = 0 then a.port (a.num_conn - 1) else a.port (i - 1)) := by
      by_cases hi : i = 0
      · simp only [if_pos hi]
        exact connect_port_get a _ (by rw [hwf.1]; show _ < 32; omega)
      · simp only [if_neg hi]
        exact connect_port_get a _ (by rw [hwf.1]; show _ < 32; omega)
    have e2 := connect_port_get a i (by rw [hwf.1]; show _ < 32; omega)
    have hlen : 2 * i + 1 < descs.length := by omega
    obtain ⟨descs', e, el, efr, eset⟩ := ih (i + 1)
      ((descs.set (2 * i) (clearDescriptor
          (if i = 0 then a.port (a.num_conn - 1) else a.port (i - 1)) i)).set (2 * i + 1)
        (setDescriptor (a.port i) i a.num_conn))
      (by omega) (by simp only [List.length_set]; omega)
    refine ⟨descs', ?_, ?_, ?_, ?_⟩
    · rw [AMux_SetupDMA_loop, e1, e2]
      simp only [if_pos hlen]
      exact e
    · rw [el]; simp
    · intro s hs
      rw [efr s (by omega)]
      rw [List.getElem?_set_ne (by omega), List.getElem?_set_ne (by omega)]
    · intro j hj1 hj2
      by_cases hji : j = i
      · subst hji
        rw [efr (2 * j) (by omega), efr (2 * j + 1) (by omega)]
        constructor
        · rw [List.getElem?_set_ne (by omega), List.getElem?_set_self (by omega)]
        · rw [List.getElem?_set_self (by simp only [List.length_set]; omega)]
      · exact eset j (by omega) (by omega)

/-- The clearing loop reads only the connect_port array and changes only the
registers and the write trace. -/
theorem AMux_DisconnectAll_loop_frame (a a' : amux_t) (hp : a'.connect_port = a.connect_port)
    (d : List cy_stc_dma_descriptor_t) (c : List DmaCall) :
    ∀ (todo i prev : Nat) (hw hw1 : Hw),
      AMux_DisconnectAll_loop a todo i prev hw = some hw1 →
      AMux_DisconnectAll_loop a' todo i prev
          { regs := hw.regs, log := hw.log, amux_dma_descriptor := d, dma_calls := c } =
        some { regs := hw1.regs, log := hw1.log, amux_dma_descriptor := d, dma_calls := c } := by
  intro todo
  induction todo with
  | zero =>
    intro i prev hw hw1 h
    simp [AMux_DisconnectAll_loop] at h
    subst h
    rfl
  | succ todo ih =>
    intro i prev hw hw1 h
    rw [AMux_DisconnectAll_loop] at h
    rw [AMux_DisconnectAll_loop, hp]
    cases hg : a.connect_port[i]? with
    | none => rw [hg] at h; simp at h
    | some p =>
      rw [hg] at h
      simp only
      by_cases hne : prev ≠ p
      · simp only [if_pos hne] at h ⊢
        exact ih (i + 1) p (CY_SET_REG32 p 0 hw) hw1 h
      · simp only [if_neg hne] at h ⊢
        exact ih (i + 1) prev hw hw1 h

/-- What a successful AMux_SetupDMA leaves behind. -/
theorem AMux_SetupDMA_eq (a : amux_t) (dma_base dma_chan : Nat) (hw : Hw) (hwf : a.wf)
    (hen : a.dma_en = false) (h1 : 1 ≤ a.num_conn)
    (hn : a.num_conn ≤ AMUX_MAX_NUM_CONNECTIONS)
    (hd : hw.amux_dma_descriptor.length = 2 * AMUX_MAX_NUM_CONNECTIONS)
    (hbase : dma_base ≠ 0) :
    ∃ descs hw1,
      AMux_DisconnectAll_loop a a.num_conn 0 0 hw = some hw1 ∧
      descs.length = 2 * AMUX_MAX_NUM_CONNECTIONS ∧
      (∀ s, 2 * a.num_conn ≤ s → descs[s]? = hw.amux_dma_descriptor[s]?) ∧
      (∀ j, j < a.num_conn →
        descs[2 * j]? = some (clearDescriptor
          (if j = 0 then a.port (a.num_conn - 1) else a.port (j - 1)) j) ∧
        descs[2 * j + 1]? = some (setDescriptor (a.port j) j a.num_conn)) ∧
      AMux_SetupDMA (some a) dma_base dma_chan hw =
        some (AMUX_SUCCESS,
          some { a with dma_base := dma_base, dma_chan := dma_chan,
                        curr_conn := AMUX_CONN_UNKNOWN },
          { regs := hw1.regs, log := hw1.log, amux_dma_descriptor := descs,
            dma_calls := hw.dma_calls ++ [DmaCall.Channel_Init dma_base dma_chan 0] }) := by
  have hN : a.num_conn ≤ 32 := hn
  have hd' : hw.amux_dma_descriptor.length = 64 := hd
  obtain ⟨descs, e, el, efr, eset⟩ :=
    AMux_SetupDMA_loop_spec { a with dma_base := dma_base, dma_chan := dma_chan } hwf h1 hn
      a.num_conn 0 hw.amux_dma_descriptor (by show 0 + a.num_conn ≤ 32; omega)
      (by rw [hd']; omega)
  obtain ⟨hw1, e1, _, _⟩ := AMux_DisconnectAll_loop_some a a.num_conn 0 0 hw
    (by rw [hwf.1]; show _ ≤ 32; omega)
  have e2 := AMux_DisconnectAll_loop_frame a
    { a with dma_base := dma_base, dma_chan := dma_chan } rfl descs hw.dma_calls
    a.num_conn 0 0 hw hw1 e1
  refine ⟨descs, hw1, e1, by rw [el]; exact hd, fun s hs => efr s (Or.inr (by omega)),
    fun j hj => eset j (Nat.zero_le _) (by omega), ?_⟩
  have hg : ¬ (dma_base = 0 ∨ a.dma_en = true) := by simp [hbase, hen]
  simp only [AMux_SetupDMA, if_neg hg]
  simp [e, AMux_DisconnectAll, e2]

theorem successor_clear (descs : List cy_stc_dma_descriptor_t) (s dst i : Nat)
    (h : descs[s]? = some (clearDescriptor dst i)) : successor descs s = some (2 * i + 1) := by
  simp [successor, h, clearDescriptor, Cy_DMA_Descriptor_SetNextDescriptor]

theorem successor_set (descs : List cy_stc_dma_descriptor_t) (s dst i n : Nat)
    (h : descs[s]? = some (setDescriptor dst i n)) :
    successor descs s = some (if i = n - 1 then 0 else 2 * (i + 1)) := by
  simp [successor, h, setDescriptor, Cy_DMA_Descriptor_SetNextDescriptor]

/-- In a chain programmed for K connections the successor of slot s < 2K is
slot (s + 1) mod 2K. -/
theorem successor_ring (descs : List cy_stc_dma_descriptor_t) (K : Nat) (port : Nat → Nat)
    (hK : 1 ≤ K)
    (hset : ∀ j, j < K →
      descs[2 * j]? = some (clearDescriptor (if j = 0 then port (K - 1) else port (j - 1)) j) ∧
      descs[2 * j + 1]? = some (setDescriptor (port j) j K))
    (s : Nat) (hs : s < 2 * K) : successor descs s = some ((s + 1) % (2 * K)) := by
  obtain ⟨j, hj | hj⟩ : ∃ j, s = 2 * j ∨ s = 2 * j + 1 := ⟨s / 2, by omega⟩
  · subst hj
    rw [successor_clear descs _ _ j (hset j (by omega)).1]
    rw [Nat.mod_eq_of_lt (by omega)]
  · subst hj
    rw [successor_set descs _ _ j K (hset j (by omega)).2]
    by_cases hl : j = K - 1
    · rw [if_pos hl]
      have : 2 * j + 1 + 1 = 2 * K := by omega
      rw [this, Nat.mod_self]
    · rw [if_neg hl, Nat.mod_eq_of_lt (by omega)]
      congr 1

theorem hops_ring (descs : List cy_stc_dma_descriptor_t) (K : Nat)
    (hsucc : ∀ s, s < 2 * K → successor descs s = some ((s + 1) % (2 * K))) (hK : 1 ≤ K) :
    ∀ (m s : Nat), s < 2 * K → hops descs m s = some ((s + m) % (2 * K)) := by
  intro m
  induction m with
  | zero => intro s hs; simp [hops, Nat.mod_eq_of_lt hs]
  | succ m ih =>
    intro s hs
    rw [hops, hsucc s hs]
    simp only
    rw [ih _ (Nat.mod_lt _ (by omega)), Nat.mod_add_mod, Nat.add_assoc, Nat.add_comm 1 m]

/-- C9: on a non-armed handle with K >= 1 connections AMux_SetupDMA (non-null
engine instance) returns AMUX_SUCCESS, and afterwards the successor relation on
descriptors 0 .. 2K-1 is a single cycle of length 2K: every such descriptor has
a successor inside 0 .. 2K-1, following the successor pointer 2K times from any
descriptor s returns to s, and following it m times with 0 < m < 2K leads to a
descriptor different from s. -/
theorem C9_descriptor_ring (a : amux_t) (dma_base dma_chan : Nat) (hw : Hw) (hwf : a.wf)
    (hen : a.dma_en = false) (h1 : 1 ≤ a.num_conn)
    (hn : a.num_conn ≤ AMUX_MAX_NUM_CONNECTIONS)
    (hd : hw.amux_dma_descriptor.length = 2 * AMUX_MAX_NUM_CONNECTIONS)
    (hbase : dma_base ≠ 0) :
    ∃ a' hw', AMux_SetupDMA (some a) dma_base dma_chan hw = some (AMUX_SUCCESS, some a', hw') ∧
      ∀ s, s < 2 * a.num_conn →
        (∃ t, successor hw'.amux_dma_descriptor s = some t ∧ t < 2 * a.num_conn) ∧
        hops hw'.amux_dma_descriptor (2 * a.num_conn) s = some s ∧
        ∀ m, 0 < m → m < 2 * a.num_conn →
          ∃ t, hops hw'.amux_dma_descriptor m s = some t ∧ t ≠ s := by
  obtain ⟨descs, hw1, _, _, _, eset, e⟩ :=
    AMux_SetupDMA_eq a dma_base dma_chan hw hwf hen h1 hn hd hbase
  refine ⟨_, _, e, ?_⟩
  have hsucc := successor_ring descs a.num_conn a.port h1 eset
  have hhops := hops_ring descs a.num_conn hsucc h1
  intro s hs
  refine ⟨⟨_, hsucc s hs, Nat.mod_lt _ (by omega)⟩, ?_, ?_⟩
  · show hops descs (2 * a.num_conn) s = some s
    rw [hhops _ s hs, Nat.add_mod_right, Nat.mod_eq_of_lt hs]
  · intro m hm0 hm
    refine ⟨_, hhops m s hs, ?_⟩
    intro hc
    by_cases hlt : s + m < 2 * a.num_conn
    · rw [Nat.mod_eq_of_lt hlt] at hc; omega
    · have hsub : (s + m) % (2 * a.num_conn) = s + m - 2 * a.num_conn := by
        rw [Nat.mod_eq_sub_mod (by omega), Nat.mod_eq_of_lt (by omega)]
      rw [hsub] at hc; omega

/-- C9 at a concrete input: three connections, six descriptors. -/
theorem C9_descriptor_ring_witness :
    (sampleHandle 3).wf ∧ (sampleHandle 3).dma_en = false ∧ 1 ≤ (sampleHandle 3).num_conn ∧
    (sampleHandle 3).num_conn ≤ AMUX_MAX_NUM_CONNECTIONS ∧
    blankHw.amux_dma_descriptor.length = 2 * AMUX_MAX_NUM_CONNECTIONS ∧ 5 ≠ 0 ∧
    ∃ a' hw', AMux_SetupDMA (some (sampleHandle 3)) 5 1 blankHw =
        some (AMUX_SUCCESS, some a', hw') ∧
      ∀ s, s < 2 * (sampleHandle 3).num_conn →
        (∃ t, successor hw'.amux_dma_descriptor s = some t ∧
          t < 2 * (sampleHandle 3).num_conn) ∧
        hops hw'.amux_dma_descriptor (2 * (sampleHandle 3).num_conn) s = some s ∧
        ∀ m, 0 < m → m < 2 * (sampleHandle 3).num_conn →
          ∃ t, hops hw'.amux_dma_descriptor m s = some t ∧ t ≠ s :=
  ⟨by decide, by decide, by decide, by decide, by decide, by decide,
    C9_descriptor_ring (sampleHandle 3) 5 1 blankHw
      (by decide) (by decide) (by decide) (by decide) (by decide) (by decide)⟩

/-! ## The descriptor chain against the CPU-driven stepping -/

/-- One clear/assert pair of the chain, started at slot 2i, clears the register
of the connection before position i and asserts connection i, and ends at the
slot of the next pair. -/
theorem dmaRun_pair (a2 : amux_t) (descs : List cy_stc_dma_descriptor_t) (K : Nat)
    (port : Nat → Nat) (hwf : a2.wf) (hK : K ≤ AMUX_MAX_NUM_CONNECTIONS)
    (hset : ∀ j, j < K →
      descs[2 * j]? = some (clearDescriptor (if j = 0 then port (K - 1) else port (j - 1)) j) ∧
      descs[2 * j + 1]? = some (setDescriptor (port j) j K))
    (i : Nat) (hi : i < K) (regs : Nat → Nat) :
    dmaRun a2 descs 2 (2 * i) regs =
      some (storeWord (storeWord regs (if i = 0 then port (K - 1) else port (i - 1)) 0)
              (port i) (a2.pin i),
            2 * ((i + 1) % K)) := by
  have hK' : K ≤ 32 := hK
  have hq := connect_pin_get a2 i (by rw [hwf.2]; show _ < 32; omega)
  have hnext : (if i = K - 1 then 0 else 2 * (i + 1)) = 2 * ((i + 1) % K) := by
    by_cases hl : i = K - 1
    · rw [if_pos hl]
      have : i + 1 = K := by omega
      rw [this, Nat.mod_self]
    · rw [if_neg hl, Nat.mod_eq_of_lt (by omega)]
  simp only [dmaRun, dmaTransfer, (hset i hi).1, (hset i hi).2, clearDescriptor, setDescriptor,
    Cy_DMA_Descriptor_SetNextDescriptor, Cy_DMA_Descriptor_SetSrcAddress,
    Cy_DMA_Descriptor_SetDstAddress, Cy_DMA_Descriptor_SetTriggerInType,
    Cy_DMA_Descriptor_Init, readSrc, hq, hnext]

/-- The chain and the CPU in step: started at the slot after cursor c on the
same registers, n clear/assert pairs of the chain and n AMux_ConnectNext calls
produce the same register contents, and the chain is again at the slot after
the cursor. -/
theorem dmaRun_connectNextN (a2 : amux_t) (descs : List cy_stc_dma_descriptor_t)
    (hwf2 : a2.wf) (n : Nat) :
    ∀ (a : amux_t) (hw : Hw), a.wf → a.dma_en = false → 1 ≤ a.num_conn →
      a.num_conn ≤ AMUX_MAX_NUM_CONNECTIONS → a.curr_conn < a.num_conn →
      a2.connect_pin = a.connect_pin →
      (∀ j, j < a.num_conn →
        descs[2 * j]? = some (clearDescriptor
          (if j = 0 then a.port (a.num_conn - 1) else a.port (j - 1)) j) ∧
        descs[2 * j + 1]? = some (setDescriptor (a.port j) j a.num_conn)) →
      ∃ a' hw', connectNextN n (some a) hw = some (some a', hw') ∧
        dmaRun a2 descs (2 * n) (2 * ((a.curr_conn + 1) % a.num_conn)) hw.regs =
          some (hw'.regs, 2 * ((a'.curr_conn + 1) % a.num_conn)) ∧
        a'.curr_conn = (a.curr_conn + n) % a.num_conn ∧
        (1 ≤ n → hw'.regs (a.port a'.curr_conn) = a.pin a'.curr_conn) := by
  induction n with
  | zero =>
    intro a hw _ _ _ _ hc _ _
    exact ⟨a, hw, rfl, rfl, by rw [Nat.add_zero, Nat.mod_eq_of_lt hc], fun h => by omega⟩
  | succ n ih =>
    intro a hw hwf hen h1 hn hc hpin hset
    have e := AMux_ConnectNext_known a hw hwf hen h1 hn hc
    have hlt : (a.curr_conn + 1) % a.num_conn < a.num_conn := Nat.mod_lt _ (by omega)
    obtain ⟨a', hw', e', d', k1, k2⟩ := ih { a with curr_conn := (a.curr_conn + 1) % a.num_conn }
      (CY_SET_REG32 (a.port ((a.curr_conn + 1) % a.num_conn))
        (a.pin ((a.curr_conn + 1) % a.num_conn)) (CY_SET_REG32 (a.port a.curr_conn) 0 hw))
      hwf hen h1 hn hlt hpin hset
    have hdst : (if (a.curr_conn + 1) % a.num_conn = 0 then a.port (a.num_conn - 1)
        else a.port ((a.curr_conn + 1) % a.num_conn - 1)) = a.port a.curr_conn := by
      by_cases hl : a.curr_conn = a.num_conn - 1
      · have : a.curr_conn + 1 = a.num_conn := by omega
        rw [this, Nat.mod_self, if_pos rfl, hl]
      · rw [Nat.mod_eq_of_lt (by omega), if_neg (by omega)]
        rfl
    have hpin2 : a2.pin ((a.curr_conn + 1) % a.num_conn) =
        a.pin ((a.curr_conn + 1) % a.num_conn) := by
      simp [amux_t.pin, hpin]
    have hpair := dmaRun_pair a2 descs a.num_conn a.port hwf2 hn hset _ hlt hw.regs
    rw [hdst, hpin2] at hpair
    have hsplit : ∀ (m cur : Nat) (regs : Nat → Nat),
        dmaRun a2 descs (2 * (m + 1)) cur regs =
          match dmaRun a2 descs 2 cur regs with
          | none => none
          | some r => dmaRun a2 descs (2 * m) r.2 r.1 := by
      intro m cur regs
      have h2 : 2 * (m + 1) = 2 * m + 1 + 1 := by omega
      rw [h2]
      simp only [dmaRun]
      cases dmaTransfer a2 descs cur regs with
      | none => rfl
      | some r =>
        simp only
        cases dmaTransfer a2 descs r.2 r.1 with
        | none => rfl
        | some r' => rfl
    refine ⟨a', hw', by simp only [connectNextN, e, e'], ?_, ?_, ?_⟩
    · rw [hsplit, hpair]
      exact d'
    · rw [k1]
      show ((a.curr_conn + 1) % a.num_conn + n) % a.num_conn =
        (a.curr_conn + (n + 1)) % a.num_conn
      rw [Nat.mod_add_mod, Nat.add_assoc, Nat.add_comm 1 n]
    · intro _
      by_cases hn0 : n = 0
      · subst hn0
        simp only [connectNextN] at e'
        have ea : a' = { a with curr_conn := (a.curr_conn + 1) % a.num_conn } := by
          injection e' with e'
          injection e' with e1 e2
          injection e1 with e1
          exact e1.symm
        have eh : hw' = CY_SET_REG32 (a.port ((a.curr_conn + 1) % a.num_conn))
            (a.pin ((a.curr_conn + 1) % a.num_conn)) (CY_SET_REG32 (a.port a.curr_conn) 0 hw) := by
          injection e' with e'
          injection e' with e1 e2
          exact e2.symm
        rw [ea, eh]
        simp [CY_SET_REG32, storeWord]
      · exact k2 (by omega)

/-- AMux_AddPort with mask 0b00000011 on an empty, non-armed handle succeeds and
leaves the two connections of pins 0 and 1. -/
theorem AMux_AddPort_mask3 (pdl : Pdl) (a0 : amux_t) (port : Nat) (hw : Hw) (hwf : a0.wf)
    (hz : a0.num_conn = 0) (hen : a0.dma_en = false) (hport : port ≠ 0) :
    ∃ a hwA, AMux_AddPort pdl (some a0) port 3 hw = (AMUX_SUCCESS, some a, hwA) ∧
      a.wf ∧ a.dma_en = false ∧ a.num_conn = 2 ∧
      hwA.amux_dma_descriptor = hw.amux_dma_descriptor ∧
      (a.port 0, a.pin 0) = pinConnection pdl (portAddrHSIOM pdl port) a0.amux_sel 0 ∧
      (a.port 1, a.pin 1) = pinConnection pdl (portAddrHSIOM pdl port) a0.amux_sel 1 := by
  have b0 : maskBit 3 0 = true := by decide
  have b1 : maskBit 3 1 = true := by decide
  have b2 : maskBit 3 2 = false := by decide
  have b3 : maskBit 3 3 = false := by decide
  have b4 : maskBit 3 4 = false := by decide
  have b5 : maskBit 3 5 = false := by decide
  have b6 : maskBit 3 6 = false := by decide
  have b7 : maskBit 3 7 = false := by decide
  have hg : ¬ (port = 0 ∨ a0.dma_en = true) := by simp [hport, hen]
  have hl1 : 0 < a0.connect_port.length := by rw [hwf.1]; decide
  have hl2 : 0 < a0.connect_pin.length := by rw [hwf.2]; decide
  have hl3 : 1 < a0.connect_port.length := by rw [hwf.1]; decide
  have hl4 : 1 < a0.connect_pin.length := by rw [hwf.2]; decide
  simp only [AMux_AddPort, if_neg hg, CY_GPIO_PINS_MAX, AMux_AddPort_loop, hz,
    AMUX_MAX_NUM_CONNECTIONS, b0, b1, b2, b3, b4, b5, b6, b7]
  simp only [Nat.zero_add, Nat.reduceMod, Nat.reduceAdd, Nat.reduceLT, if_true, if_false,
    Bool.false_eq_true]
  refine ⟨_, _, rfl, ?_, hen, rfl, rfl, ?_, ?_⟩
  · simpa [amux_t.wf] using hwf
  · simp [amux_t.port, amux_t.pin, List.getElem?_set_ne, List.getElem?_set_self, hl1, hl2]
  · simp [amux_t.port, amux_t.pin, List.getElem?_set_self, hl3, hl4]

/-- AMux_StartDMA on a handle with a bound engine instance. -/
theorem AMux_StartDMA_eq (a : amux_t) (hw : Hw) (h : a.dma_base ≠ 0) :
    AMux_StartDMA (some a) hw =
      (AMUX_SUCCESS, some { a with dma_en := true },
        { hw with dma_calls := hw.dma_calls ++
            [DmaCall.Channel_SetDescriptor a.dma_base a.dma_chan 0,
             DmaCall.Channel_Enable a.dma_base a.dma_chan,
             DmaCall.Enable a.dma_base] }) := by
  simp only [AMux_StartDMA, if_neg h]

/-- After AMux_SetupDMA and AMux_StartDMA, n clear/assert pairs of the chain
executed from descriptor 0 give the register contents of n AMux_ConnectNext
calls issued after AMux_DisconnectAll on the same handle and registers, and the
connection asserted after the n-th pair is the one at position (n - 1) mod K. -/
theorem chain_refines_connectNext (a : amux_t) (hw : Hw) (dma_base dma_chan : Nat)
    (hwf : a.wf) (hen : a.dma_en = false) (h1 : 1 ≤ a.num_conn)
    (hn : a.num_conn ≤ AMUX_MAX_NUM_CONNECTIONS)
    (hd : hw.amux_dma_descriptor.length = 2 * AMUX_MAX_NUM_CONNECTIONS)
    (hbase : dma_base ≠ 0) :
    ∃ a1 hw1 a2 hw2 ad hwd,
      AMux_SetupDMA (some a) dma_base dma_chan hw = some (AMUX_SUCCESS, some a1, hw1) ∧
      AMux_StartDMA (some a1) hw1 = (AMUX_SUCCESS, some a2, hw2) ∧ a2.dma_en = true ∧
      AMux_DisconnectAll (some a) hw = some (AMUX_SUCCESS, some ad, hwd) ∧
      ∀ n, 1 ≤ n → ∃ ac hwc slot,
        connectNextN n (some ad) hwd = some (some ac, hwc) ∧
        dmaRun a2 hw2.amux_dma_descriptor (2 * n) 0 hw2.regs = some (hwc.regs, slot) ∧
        ac.curr_conn = (n - 1) % a.num_conn ∧
        hwc.regs (a.port ((n - 1) % a.num_conn)) = a.pin ((n - 1) % a.num_conn) := by
  have hN : a.num_conn ≤ 32 := hn
  obtain ⟨descs, hwl, eloop, _, _, eset, esetup⟩ :=
    AMux_SetupDMA_eq a dma_base dma_chan hw hwf hen h1 hn hd hbase
  have hm : (a.num_conn + 255) % 256 = a.num_conn - 1 := by omega
  have eda : AMux_DisconnectAll (some a) hw =
      some (AMUX_SUCCESS, some { a with curr_conn := a.num_conn - 1 }, hwl) := by
    simp [AMux_DisconnectAll, eloop, hm]
  have key : ∀ n, 1 ≤ n → ∃ ac hwc slot,
      connectNextN n (some { a with curr_conn := a.num_conn - 1 }) hwl = some (some ac, hwc) ∧
      dmaRun { a with dma_base := dma_base, dma_chan := dma_chan,
                      curr_conn := AMUX_CONN_UNKNOWN, dma_en := true }
        descs (2 * n) 0 hwl.regs = some (hwc.regs, slot) ∧
      ac.curr_conn = (n - 1) % a.num_conn ∧
      hwc.regs (a.port ((n - 1) % a.num_conn)) = a.pin ((n - 1) % a.num_conn) := by
    intro n hn1
    obtain ⟨ac, hwc, e, d, k1, k2⟩ := dmaRun_connectNextN
      { a with dma_base := dma_base, dma_chan := dma_chan, curr_conn := AMUX_CONN_UNKNOWN,
               dma_en := true }
      descs hwf n { a with curr_conn := a.num_conn - 1 } hwl hwf hen h1 hn
      (by show a.num_conn - 1 < a.num_conn; omega) rfl eset
    have hz : (a.num_conn - 1 + 1) % a.num_conn = 0 := by
      rw [Nat.sub_add_cancel h1, Nat.mod_self]
    have hc : ac.curr_conn = (n - 1) % a.num_conn := by
      rw [k1]
      show (a.num_conn - 1 + n) % a.num_conn = (n - 1) % a.num_conn
      have : a.num_conn - 1 + n = n - 1 + a.num_conn := by omega
      rw [this, Nat.add_mod_right]
    refine ⟨ac, hwc, 2 * ((ac.curr_conn + 1) % a.num_conn), e, ?_, hc, ?_⟩
    · have d' := d
      simp only [hz] at d'
      exact d'
    · have := k2 hn1
      rw [hc] at this
      exact this
  exact ⟨_, _, _, _, _, _, esetup, AMux_StartDMA_eq _ _ hbase, rfl, eda, key⟩

/-- C10: on a non-armed handle with K >= 1 connections AMux_SetupDMA and
AMux_StartDMA succeed, and executing the descriptor chain from descriptor 0
along successor pointers (each descriptor copies its source word to its
destination register) yields after the n-th clear/assert pair, for every
n >= 1, the register contents that n AMux_ConnectNext calls issued after
AMux_DisconnectAll produce on the same connection set and initial registers,
the connection asserted being the one at position (n - 1) mod K.  For the
two-connection set built by AMux_Init and AMux_AddPort with mask 0b00000011 the
register of the two connections holds after the n-th pair the value of
connection (n - 1) mod 2: the asserted connection alternates 0, 1, 0, 1, ...
with period 2. -/
theorem C10_chain_equals_cpu_stepping (pdl : Pdl) (a : amux_t) (hw : Hw)
    (dma_base dma_chan : Nat) (h0 : amux_t) (sel port : Nat) (hw0 : Hw)
    (hwf : a.wf) (hen : a.dma_en = false) (h1 : 1 ≤ a.num_conn)
    (hn : a.num_conn ≤ AMUX_MAX_NUM_CONNECTIONS)
    (hd : hw.amux_dma_descriptor.length = 2 * AMUX_MAX_NUM_CONNECTIONS)
    (hbase : dma_base ≠ 0)
    (hwf0 : h0.wf) (hinit : (AMux_Init pdl (some h0) sel).1 = AMUX_SUCCESS)
    (hport : port ≠ 0)
    (hd0 : hw0.amux_dma_descriptor.length = 2 * AMUX_MAX_NUM_CONNECTIONS) :
    (∃ a1 hw1 a2 hw2 ad hwd,
      AMux_SetupDMA (some a) dma_base dma_chan hw = some (AMUX_SUCCESS, some a1, hw1) ∧
      AMux_StartDMA (some a1) hw1 = (AMUX_SUCCESS, some a2, hw2) ∧ a2.dma_en = true ∧
      AMux_DisconnectAll (some a) hw = some (AMUX_SUCCESS, some ad, hwd) ∧
      ∀ n, 1 ≤ n → ∃ ac hwc slot,
        connectNextN n (some ad) hwd = some (some ac, hwc) ∧
        dmaRun a2 hw2.amux_dma_descriptor (2 * n) 0 hw2.regs = some (hwc.regs, slot) ∧
        ac.curr_conn = (n - 1) % a.num_conn ∧
        hwc.regs (a.port ((n - 1) % a.num_conn)) = a.pin ((n - 1) % a.num_conn)) ∧
    (∃ b hwb b1 hwb1 b2 hwb2,
      AMux_AddPort pdl (AMux_Init pdl (some h0) sel).2 port 3 hw0 =
        (AMUX_SUCCESS, some b, hwb) ∧
      b.num_conn = 2 ∧
      AMux_SetupDMA (some b) dma_base dma_chan hwb = some (AMUX_SUCCESS, some b1, hwb1) ∧
      AMux_StartDMA (some b1) hwb1 = (AMUX_SUCCESS, some b2, hwb2) ∧
      ∀ n, 1 ≤ n → ∃ regs slot,
        dmaRun b2 hwb2.amux_dma_descriptor (2 * n) 0 hwb2.regs = some (regs, slot) ∧
        regs (pinConnection pdl (portAddrHSIOM pdl port) sel ((n - 1) % 2)).1 =
          (pinConnection pdl (portAddrHSIOM pdl port) sel ((n - 1) % 2)).2) := by
  refine ⟨chain_refines_connectNext a hw dma_base dma_chan hwf hen h1 hn hd hbase, ?_⟩
  have hsel : ¬ (sel ≠ AMUX_A pdl ∧ sel ≠ AMUX_B pdl) := by
    intro hc
    simp [AMux_Init, hc] at hinit
  have hex : ∃ a0, (AMux_Init pdl (some h0) sel).2 = some a0 ∧ a0.wf ∧ a0.num_conn = 0 ∧
      a0.amux_sel = sel ∧ a0.dma_en = false := by
    simp only [AMux_Init, if_neg hsel]
    exact ⟨_, rfl, hwf0, rfl, rfl, rfl⟩
  obtain ⟨a0, e0, hwfa0, hz0, hs0, hen0⟩ := hex
  obtain ⟨b, hwb, eb, hwfb, henb, hnb, hdb, hc0, hc1⟩ :=
    AMux_AddPort_mask3 pdl a0 port hw0 hwfa0 hz0 hen0 hport
  rw [hs0] at hc0 hc1
  obtain ⟨b1, hwb1, b2, hwb2, ad, hwd, es, est, _, _, hall⟩ :=
    chain_refines_connectNext b hwb dma_base dma_chan hwfb henb (by omega)
      (by rw [hnb]; decide) (by rw [hdb]; exact hd0) hbase
  refine ⟨b, hwb, b1, hwb1, b2, hwb2, by rw [e0]; exact eb, hnb, es, est, ?_⟩
  intro n hn1
  obtain ⟨ac, hwc, slot, _, d, _, hreg⟩ := hall n hn1
  refine ⟨hwc.regs, slot, d, ?_⟩
  rw [hnb] at hreg
  have hcase : (n - 1) % 2 = 0 ∨ (n - 1) % 2 = 1 := by omega
  rcases hcase with h | h
  · rw [h] at hreg ⊢
    rw [← hc0]
    exact hreg
  · rw [h] at hreg ⊢
    rw [← hc1]
    exact hreg

/-- C10 at a concrete input: a handle with three connections, and the handle
built on a PSoC 6 device for AMUX_B from port 9 with mask 0b00000011. -/
theorem C10_chain_equals_cpu_stepping_witness :
    (sampleHandle 3).wf ∧ (sampleHandle 3).dma_en = false ∧ 1 ≤ (sampleHandle 3).num_conn ∧
    (sampleHandle 3).num_conn ≤ AMUX_MAX_NUM_CONNECTIONS ∧
    blankHw.amux_dma_descriptor.length = 2 * AMUX_MAX_NUM_CONNECTIONS ∧ 5 ≠ 0 ∧
    blankHandle.wf ∧ (AMux_Init psoc6 (some blankHandle) 7).1 = AMUX_SUCCESS ∧
    GPIO_PRT9 ≠ 0 ∧
    (∃ a1 hw1 a2 hw2 ad hwd,
      AMux_SetupDMA (some (sampleHandle 3)) 5 1 blankHw = some (AMUX_SUCCESS, some a1, hw1) ∧
      AMux_StartDMA (some a1) hw1 = (AMUX_SUCCESS, some a2, hw2) ∧ a2.dma_en = true ∧
      AMux_DisconnectAll (some (sampleHandle 3)) blankHw = some (AMUX_SUCCESS, some ad, hwd) ∧
      ∀ n, 1 ≤ n → ∃ ac hwc slot,
        connectNextN n (some ad) hwd = some (some ac, hwc) ∧
        dmaRun a2 hw2.amux_dma_descriptor (2 * n) 0 hw2.regs = some (hwc.regs, slot) ∧
        ac.curr_conn = (n - 1) % (sampleHandle 3).num_conn ∧
        hwc.regs ((sampleHandle 3).port ((n - 1) % (sampleHandle 3).num_conn)) =
          (sampleHandle 3).pin ((n - 1) % (sampleHandle 3).num_conn)) ∧
    (∃ b hwb b1 hwb1 b2 hwb2,
      AMux_AddPort psoc6 (AMux_Init psoc6 (some blankHandle) 7).2 GPIO_PRT9 3 blankHw =
        (AMUX_SUCCESS, some b, hwb) ∧
      b.num_conn = 2 ∧
      AMux_SetupDMA (some b) 5 1 hwb = some (AMUX_SUCCESS, some b1, hwb1) ∧
      AMux_StartDMA (some b1) hwb1 = (AMUX_SUCCESS, some b2, hwb2) ∧
      ∀ n, 1 ≤ n → ∃ regs slot,
        dmaRun b2 hwb2.amux_dma_descriptor (2 * n) 0 hwb2.regs = some (regs, slot) ∧
        regs (pinConnection psoc6 (portAddrHSIOM psoc6 GPIO_PRT9) 7 ((n - 1) % 2)).1 =
          (pinConnection psoc6 (portAddrHSIOM psoc6 GPIO_PRT9) 7 ((n - 1) % 2)).2) :=
  ⟨by decide, by decide, by decide, by decide, by decide, by decide, by decide, by decide,
    by decide,
    C10_chain_equals_cpu_stepping psoc6 (sampleHandle 3) blankHw 5 1 blankHandle 7 GPIO_PRT9
      blankHw (by decide) (by decide) (by decide) (by decide) (by decide) (by decide)
      (by decide) (by decide) (by decide) (by decide)⟩

/-! ## Error paths and initialisation of the multiplexer -/

/-- C11, the claim as stated fails: on a non-armed handle with an empty
connection set and a non-null engine instance AMux_SetupDMA returns
AMUX_SUCCESS and binds the engine channel (dma_base = 5, dma_chan = 1). -/
theorem C11_counterexample :
    (sampleHandle 0).num_conn = 0 ∧
    (AMux_SetupDMA (some (sampleHandle 0)) 5 1 blankHw).map
      (fun r => (r.1, r.2.1.map (fun a => (a.dma_base, a.dma_chan)))) =
      some (AMUX_SUCCESS, some (5, 1)) := by
  decide

/-- C11 as amended: on a non-armed handle whose connection set is empty
AMux_SetupDMA with a non-null engine instance returns AMUX_SUCCESS: it binds
the engine channel (dma_base, dma_chan), sets the cursor to unknown, programs
no descriptor, writes no register and initialises the channel; with an absent
engine instance it returns AMUX_ERROR and dma_base stays as it was. -/
theorem C11_setupDMA_empty_set (a : amux_t) (dma_base dma_chan : Nat) (hw : Hw)
    (h0 : a.num_conn = 0) (hen : a.dma_en = false) :
    (dma_base ≠ 0 →
      AMux_SetupDMA (some a) dma_base dma_chan hw =
        some (AMUX_SUCCESS,
          some { a with dma_base := dma_base, dma_chan := dma_chan,
                        curr_conn := AMUX_CONN_UNKNOWN },
          { hw with dma_calls :=
              hw.dma_calls ++ [DmaCall.Channel_Init dma_base dma_chan 0] })) ∧
    AMux_SetupDMA (some a) 0 dma_chan hw = some (AMUX_ERROR, some a, hw) := by
  constructor
  · intro hbase
    have hg : ¬ (dma_base = 0 ∨ a.dma_en = true) := by simp [hbase, hen]
    simp only [AMux_SetupDMA, if_neg hg]
    simp [h0, AMux_SetupDMA_loop, AMux_DisconnectAll, AMux_DisconnectAll_loop]
  · simp [AMux_SetupDMA]

/-- C11 as amended, at the input of the counterexample. -/
theorem C11_setupDMA_empty_set_witness :
    (sampleHandle 0).num_conn = 0 ∧ (sampleHandle 0).dma_en = false ∧
    ((5 ≠ 0 →
      AMux_SetupDMA (some (sampleHandle 0)) 5 1 blankHw =
        some (AMUX_SUCCESS,
          some { sampleHandle 0 with dma_base := 5, dma_chan := 1,
                                     curr_conn := AMUX_CONN_UNKNOWN },
          { blankHw with dma_calls :=
              blankHw.dma_calls ++ [DmaCall.Channel_Init 5 1 0] })) ∧
    AMux_SetupDMA (some (sampleHandle 0)) 0 1 blankHw =
      some (AMUX_ERROR, some (sampleHandle 0), blankHw)) :=
  ⟨by decide, by decide,
    C11_setupDMA_empty_set (sampleHandle 0) 5 1 blankHw (by decide) (by decide)⟩

/-- C12: on a handle with dma_en = true each of AMux_AddPort, AMux_Connect,
AMux_ConnectNext and AMux_SetupDMA returns AMUX_ERROR, for all arguments, and
leaves the handle (connection list, num_conn, cursor, dma_base, dma_chan,
dma_en) and the hardware (registers, write trace, descriptors, engine calls)
exactly as they were; likewise AMux_SetupDMA with an absent engine instance on
any handle `b`. -/
theorem C12_armed_calls_rejected (pdl : Pdl) (a b : amux_t) (hw : Hw)
    (port mask index dma_base dma_chan : Nat) (hen : a.dma_en = true) :
    AMux_AddPort pdl (some a) port mask hw = (AMUX_ERROR, some a, hw) ∧
    AMux_Connect (some a) index hw = some (AMUX_ERROR, some a, hw) ∧
    AMux_ConnectNext (some a) hw = some (AMUX_ERROR, some a, hw) ∧
    AMux_SetupDMA (some a) dma_base dma_chan hw = some (AMUX_ERROR, some a, hw) ∧
    AMux_SetupDMA (some b) 0 dma_chan hw = some (AMUX_ERROR, some b, hw) := by
  refine ⟨?_, ?_, ?_, ?_, ?_⟩
  · simp [AMux_AddPort, hen]
  · simp [AMux_Connect, hen]
  · simp [AMux_ConnectNext, hen]
  · simp [AMux_SetupDMA, hen]
  · simp [AMux_SetupDMA]

/-- C12 at a concrete input: an armed handle with three connections. -/
theorem C12_armed_calls_rejected_witness :
    ({ sampleHandle 3 with dma_en := true, dma_base := 5 } : amux_t).dma_en = true ∧
    (AMux_AddPort psoc6 (some { sampleHandle 3 with dma_en := true, dma_base := 5 })
        GPIO_PRT9 0xFF blankHw =
      (AMUX_ERROR, some { sampleHandle 3 with dma_en := true, dma_base := 5 }, blankHw) ∧
    AMux_Connect (some { sampleHandle 3 with dma_en := true, dma_base := 5 }) 1 blankHw =
      some (AMUX_ERROR, some { sampleHandle 3 with dma_en := true, dma_base := 5 }, blankHw) ∧
    AMux_ConnectNext (some { sampleHandle 3 with dma_en := true, dma_base := 5 }) blankHw =
      some (AMUX_ERROR, some { sampleHandle 3 with dma_en := true, dma_base := 5 }, blankHw) ∧
    AMux_SetupDMA (some { sampleHandle 3 with dma_en := true, dma_base := 5 }) 5 1 blankHw =
      some (AMUX_ERROR, some { sampleHandle 3 with dma_en := true, dma_base := 5 }, blankHw) ∧
    AMux_SetupDMA (some (sampleHandle 2)) 0 1 blankHw =
      some (AMUX_ERROR, some (sampleHandle 2), blankHw)) :=
  ⟨by decide,
    C12_armed_calls_rejected psoc6 { sampleHandle 3 with dma_en := true, dma_base := 5 }
      (sampleHandle 2) blankHw GPIO_PRT9 0xFF 1 5 1 (by decide)⟩

/-- C13: on a non-null handle AMux_Init returns AMUX_ERROR exactly when the
selection is neither AMUX_A nor AMUX_B (and AMUX_SUCCESS otherwise); when it
returns AMUX_SUCCESS the handle has num_conn = 0, cursor = AMUX_CONN_UNKNOWN,
dma_en = false, dma_base absent and amux_sel = sel, the arrays and dma_chan
being as before. -/
theorem C13_init_result (pdl : Pdl) (a : amux_t) (sel : Nat) :
    ((AMux_Init pdl (some a) sel).1 = AMUX_ERROR ↔ (sel ≠ AMUX_A pdl ∧ sel ≠ AMUX_B pdl)) ∧
    ((AMux_Init pdl (some a) sel).1 = AMUX_SUCCESS ↔ (sel = AMUX_A pdl ∨ sel = AMUX_B pdl)) ∧
    ((AMux_Init pdl (some a) sel).1 = AMUX_SUCCESS →
      (AMux_Init pdl (some a) sel).2 =
        some { a with num_conn := 0, curr_conn := AMUX_CONN_UNKNOWN, dma_base := 0,
                      dma_en := false, amux_sel := sel }) := by
  by_cases h : sel ≠ AMUX_A pdl ∧ sel ≠ AMUX_B pdl
  · have hn : ¬ (sel = AMUX_A pdl ∨ sel = AMUX_B pdl) := by
      intro hc; rcases hc with hc | hc
      · exact h.1 hc
      · exact h.2 hc
    simp [AMux_Init, h, hn]
  · have hp : sel = AMUX_A pdl ∨ sel = AMUX_B pdl := by
      by_contra hc
      exact h ⟨fun e => hc (Or.inl e), fun e => hc (Or.inr e)⟩
    simp only [AMux_Init, if_neg h]
    simp [h, hp]

/-- C13 at a concrete input: selection AMUX_B on a PSoC 6 device. -/
theorem C13_init_result_witness :
    ((AMux_Init psoc6 (some (sampleHandle 3)) 7).1 = AMUX_ERROR ↔
      (7 ≠ AMUX_A psoc6 ∧ 7 ≠ AMUX_B psoc6)) ∧
    ((AMux_Init psoc6 (some (sampleHandle 3)) 7).1 = AMUX_SUCCESS ↔
      (7 = AMUX_A psoc6 ∨ 7 = AMUX_B psoc6)) ∧
    ((AMux_Init psoc6 (some (sampleHandle 3)) 7).1 = AMUX_SUCCESS →
      (AMux_Init psoc6 (some (sampleHandle 3)) 7).2 =
        some { sampleHandle 3 with num_conn := 0, curr_conn := AMUX_CONN_UNKNOWN,
                                   dma_base := 0, dma_en := false, amux_sel := 7 }) :=
  C13_init_result psoc6 (sampleHandle 3) 7

/-! ## Properties of the sampler -/

/-- C14: on a sampler handle with converter and timer references bound, for
every clock frequency clk > 0 and scan rate R > 0, Sampler_SetScanRate returns
SAMPLER_SUCCESS, leaves the handle as it was, and programs the timer of the
handle with the period floor(clk / R) followed by one compare value; for clk = 100000000 and R = 920000 the programmed period is 108. -/
theorem C14_scan_rate_period (s : sampler_t) (clk R acq : Nat) (hw : SamplerHw)
    (hsar : s.sar_base ≠ 0) (htimer : s.timer_base ≠ 0) (hclk : 0 < clk) (hR : 0 < R) :
    (∃ compare,
      Sampler_SetScanRate clk (some s) R acq hw =
        (SAMPLER_SUCCESS, some s,
          { hw with calls := hw.calls ++
              [SamplerCall.TCPWM_Counter_SetPeriod s.timer_base s.timer_chan (clk / R),
               SamplerCall.TCPWM_Counter_SetCompare0 s.timer_base s.timer_chan compare] })) ∧
    (∃ compare,
      Sampler_SetScanRate 100000000 (some s) 920000 acq hw =
        (SAMPLER_SUCCESS, some s,
          { hw with calls := hw.calls ++
              [SamplerCall.TCPWM_Counter_SetPeriod s.timer_base s.timer_chan 108,
               SamplerCall.TCPWM_Counter_SetCompare0 s.timer_base s.timer_chan compare] })) := by
  have hg : ¬ (s.sar_base = 0 ∨ s.timer_base = 0) := by simp [hsar, htimer]
  have hc : ¬ (clk = 0 ∨ R = 0) := by
    intro h; rcases h with h | h <;> omega
  constructor
  · refine ⟨(clk + 500000) % 2 ^ 32 / 1000000 * acq % 2 ^ 32 / 1000, ?_⟩
    simp only [Sampler_SetScanRate, if_neg hg, if_neg hc]
  · refine ⟨(100000000 + 500000) % 2 ^ 32 / 1000000 * acq % 2 ^ 32 / 1000, ?_⟩
    simp only [Sampler_SetScanRate, if_neg hg]
    rfl

/-- C14 at a concrete input: the rates of main.c on a 100 MHz clock. -/
theorem C14_scan_rate_period_witness :
    sampleSampler.sar_base ≠ 0 ∧ sampleSampler.timer_base ≠ 0 ∧ 0 < 100000000 ∧ 0 < 920000 ∧
    ((∃ compare,
      Sampler_SetScanRate 100000000 (some sampleSampler) 920000 180 blankSamplerHw =
        (SAMPLER_SUCCESS, some sampleSampler,
          { blankSamplerHw with calls := blankSamplerHw.calls ++
              [SamplerCall.TCPWM_Counter_SetPeriod sampleSampler.timer_base
                 sampleSampler.timer_chan (100000000 / 920000),
               SamplerCall.TCPWM_Counter_SetCompare0 sampleSampler.timer_base
                 sampleSampler.timer_chan compare] })) ∧
    (∃ compare,
      Sampler_SetScanRate 100000000 (some sampleSampler) 920000 180 blankSamplerHw =
        (SAMPLER_SUCCESS, some sampleSampler,
          { blankSamplerHw with calls := blankSamplerHw.calls ++
              [SamplerCall.TCPWM_Counter_SetPeriod sampleSampler.timer_base
                 sampleSampler.timer_chan 108,
               SamplerCall.TCPWM_Counter_SetCompare0 sampleSampler.timer_base
                 sampleSampler.timer_chan compare] }))) :=
  ⟨by decide, by decide, by decide, by decide,
    C14_scan_rate_period sampleSampler 100000000 920000 180 blankSamplerHw
      (by decide) (by decide) (by decide) (by decide)⟩

/-- C15: when the scan rate is 0, or the queried clock frequency is 0, or the
converter or timer reference of the handle is absent, Sampler_SetScanRate
returns SAMPLER_ERROR and leaves the handle and the hardware (in particular the
trace of timer calls: no set-period, no set-compare) exactly as they were; on a
null handle it returns SAMPLER_ERROR without any call as well. -/
theorem C15_scan_rate_rejected (s : sampler_t) (clk R acq : Nat) (hw : SamplerHw)
    (h : R = 0 ∨ clk = 0 ∨ s.sar_base = 0 ∨ s.timer_base = 0) :
    Sampler_SetScanRate clk (some s) R acq hw = (SAMPLER_ERROR, some s, hw) ∧
    Sampler_SetScanRate clk none R acq hw = (SAMPLER_ERROR, none, hw) := by
  refine ⟨?_, rfl⟩
  by_cases hg : s.sar_base = 0 ∨ s.timer_base = 0
  · simp only [Sampler_SetScanRate, if_pos hg]
  · have hc : clk = 0 ∨ R = 0 := by
      rcases h with h | h | h | h
      · exact Or.inr h
      · exact Or.inl h
      · exact absurd (Or.inl h) hg
      · exact absurd (Or.inr h) hg
    simp only [Sampler_SetScanRate, if_neg hg, if_pos hc]

/-- C15 at a concrete input: scan rate 0 on a 100 MHz clock. -/
theorem C15_scan_rate_rejected_witness :
    ((0 : Nat) = 0 ∨ 100000000 = 0 ∨ sampleSampler.sar_base = 0 ∨
      sampleSampler.timer_base = 0) ∧
    (Sampler_SetScanRate 100000000 (some sampleSampler) 0 180 blankSamplerHw =
      (SAMPLER_ERROR, some sampleSampler, blankSamplerHw) ∧
    Sampler_SetScanRate 100000000 none 0 180 blankSamplerHw =
      (SAMPLER_ERROR, none, blankSamplerHw)) :=
  ⟨by decide,
    C15_scan_rate_rejected sampleSampler 100000000 0 180 blankSamplerHw (by decide)⟩

/-- C16: on a non-null sampler handle Sampler_Configure returns SAMPLER_ERROR
exactly when n > SAMPLER_MAX_NUM_CHANNELS = 32; on success num_channels = n and
samples_ptr = buf with every other field unchanged, on error the handle is
unchanged; n = 32 is accepted and n = 33 rejected. -/
theorem C16_configure (s : sampler_t) (n buf : Nat) :
    ((Sampler_Configure (some s) n buf).1 = SAMPLER_ERROR ↔ n > SAMPLER_MAX_NUM_CHANNELS) ∧
    SAMPLER_MAX_NUM_CHANNELS = 32 ∧
    (n ≤ 32 → Sampler_Configure (some s) n buf =
      (SAMPLER_SUCCESS, some { s with samples_ptr := buf, num_channels := n })) ∧
    (n > 32 → Sampler_Configure (some s) n buf = (SAMPLER_ERROR, some s)) ∧
    (Sampler_Configure (some s) 32 buf).1 = SAMPLER_SUCCESS ∧
    (Sampler_Configure (some s) 33 buf).1 = SAMPLER_ERROR := by
  refine ⟨?_, rfl, ?_, ?_, ?_, ?_⟩
  · by_cases h : n > SAMPLER_MAX_NUM_CHANNELS
    · simp [Sampler_Configure, h]
    · simp [Sampler_Configure, h]
  · intro h
    have h' : ¬ n > SAMPLER_MAX_NUM_CHANNELS := by
      simp only [SAMPLER_MAX_NUM_CHANNELS]; omega
    simp only [Sampler_Configure, if_neg h']
  · intro h
    have h' : n > SAMPLER_MAX_NUM_CHANNELS := h
    simp only [Sampler_Configure, if_pos h']
  · simp [Sampler_Configure, SAMPLER_MAX_NUM_CHANNELS]
  · simp [Sampler_Configure, SAMPLER_MAX_NUM_CHANNELS]

/-- C16 at a concrete input: four channels. -/
theorem C16_configure_witness :
    ((Sampler_Configure (some sampleSampler) 4 0x08001000).1 = SAMPLER_ERROR ↔
      4 > SAMPLER_MAX_NUM_CHANNELS) ∧
    SAMPLER_MAX_NUM_CHANNELS = 32 ∧
    (4 ≤ 32 → Sampler_Configure (some sampleSampler) 4 0x08001000 =
      (SAMPLER_SUCCESS, some { sampleSampler with samples_ptr := 0x08001000,
                                                  num_channels := 4 })) ∧
    (4 > 32 → Sampler_Configure (some sampleSampler) 4 0x08001000 =
      (SAMPLER_ERROR, some sampleSampler)) ∧
    (Sampler_Configure (some sampleSampler) 32 0x08001000).1 = SAMPLER_SUCCESS ∧
    (Sampler_Configure (some sampleSampler) 33 0x08001000).1 = SAMPLER_ERROR :=
  C16_configure sampleSampler 4 0x08001000

/-- C17, the claim as stated fails: after Sampler_Configure with 4 channels,
Sampler_SetupDMA and Sampler_Start the streaming descriptor has trigger kind
CY_DMA_1ELEMENT and source X increment 0, so one trigger moves one data element
(with the result region holding 10, 20, 30, 40 and a zeroed buffer the buffer
is 10, 0, 0, 0 after one trigger), and all four elements of the X loop are read
from slot 0 of the result region: after four triggers the buffer holds
10, 10, 10, 10 and not the contents 10, 20, 30, 40 of four consecutive slots. -/
theorem C17_counterexample :
    (streamingSetup sampleSampler 4 0x08001000 5 1 blankSamplerHw).1 =
      [SAMPLER_SUCCESS, SAMPLER_SUCCESS, SAMPLER_SUCCESS] ∧
    elementsPerTrigger
      (streamingSetup sampleSampler 4 0x08001000 5 1 blankSamplerHw).2.2.sampler_dma_descriptor
      ⟨0, fun _ => 0⟩ = 1 ∧
    (streamTrigger
      (streamingSetup sampleSampler 4 0x08001000 5 1 blankSamplerHw).2.2.sampler_dma_descriptor
      rampResult ⟨0, fun _ => 0⟩).map (fun st => (List.range 4).map st.buffer) =
      some [10, 0, 0, 0] ∧
    (List.range 4).map (sourceSlot
      (streamingSetup sampleSampler 4 0x08001000 5 1 blankSamplerHw).2.2.sampler_dma_descriptor)
      = [some 0, some 0, some 0, some 0] ∧
    (streamTriggers
      (streamingSetup sampleSampler 4 0x08001000 5 1 blankSamplerHw).2.2.sampler_dma_descriptor
      [rampResult, rampResult, rampResult, rampResult] ⟨0, fun _ => 0⟩).map
        (fun st => (List.range 4).map st.buffer) = some [10, 10, 10, 10] ∧
    (List.range 4).map rampResult = [10, 20, 30, 40] := by
  decide

/-- C17 as amended: after Sampler_Configure with 4 channels and a buffer,
Sampler_SetupDMA and Sampler_Start (converter and timer references bound) all
three calls succeed and the streaming descriptor has X count 4, the buffer as
destination, slot 0 of the converter result region as source with source X
increment 0, and itself as successor.  Each trigger moves exactly one 16-bit
data element, read from slot 0 of the result region as it is at that trigger:
the first trigger writes it to buffer slot 0, and four triggers fill buffer
slots 0..3 in order, leave every other slot untouched and bring the descriptor
back to the start of its X loop. -/
theorem C17_streaming_one_element_per_trigger (s : sampler_t) (buf dma_base dma_chan : Nat)
    (hw : SamplerHw) (hsar : s.sar_base ≠ 0) (htimer : s.timer_base ≠ 0) :
    (streamingSetup s 4 buf dma_base dma_chan hw).1 =
      [SAMPLER_SUCCESS, SAMPLER_SUCCESS, SAMPLER_SUCCESS] ∧
    ∀ d, d = (streamingSetup s 4 buf dma_base dma_chan hw).2.2.sampler_dma_descriptor →
      d.xCount = 4 ∧ d.dstAddress = buf ∧ d.srcAddress = SamplerSrc.CHAN_RESULT s.sar_base 0 ∧
      d.srcXincrement = 0 ∧ d.nextDescriptor = SamplerNext.sampler_dma_descriptor ∧
      (∀ k, sourceSlot d k = some 0) ∧
      ∀ (r0 r1 r2 r3 b : Nat → Nat),
        elementsPerTrigger d ⟨0, b⟩ = 1 ∧
        (∃ st, streamTrigger d r0 ⟨0, b⟩ = some st ∧ st.xIndex = 1 ∧
          st.buffer 0 = r0 0 % 2 ^ 16 ∧ ∀ j, j ≠ 0 → st.buffer j = b j) ∧
        ∃ st, streamTriggers d [r0, r1, r2, r3] ⟨0, b⟩ = some st ∧ st.xIndex = 0 ∧
          st.buffer 0 = r0 0 % 2 ^ 16 ∧ st.buffer 1 = r1 0 % 2 ^ 16 ∧
          st.buffer 2 = r2 0 % 2 ^ 16 ∧ st.buffer 3 = r3 0 % 2 ^ 16 ∧
          ∀ j, 4 ≤ j → st.buffer j = b j := by
  have hg : ¬ (s.sar_base = 0 ∨ s.timer_base = 0) := by simp [hsar, htimer]
  have hd : (streamingSetup s 4 buf dma_base dma_chan hw).2.2.sampler_dma_descriptor =
      { sampler_dma_descriptor_config with
          dstAddress := buf, srcAddress := SamplerSrc.CHAN_RESULT s.sar_base 0,
          xCount := 4 } := by
    simp [streamingSetup, Sampler_Configure, SAMPLER_MAX_NUM_CHANNELS, Sampler_SetupDMA,
      Sampler_Start, hg, Cy_DMA_Descriptor_SetXloopDataCount]
  refine ⟨?_, ?_⟩
  · simp [streamingSetup, Sampler_Configure, SAMPLER_MAX_NUM_CHANNELS, Sampler_SetupDMA,
      Sampler_Start, hg]
  · intro d hdd
    rw [hd] at hdd
    subst hdd
    refine ⟨rfl, rfl, rfl, rfl, rfl, ?_, ?_⟩
    · intro k
      simp [sourceSlot, sampler_dma_descriptor_config]
    · intro r0 r1 r2 r3 b
      refine ⟨rfl, ?_, ?_⟩
      · refine ⟨_, rfl, rfl, ?_, ?_⟩
        · simp [storeWord, elementDatum, sampler_dma_descriptor_config]
        · intro j hj
          simp [storeWord, sampler_dma_descriptor_config, hj]
      · refine ⟨_, rfl, rfl, ?_, ?_, ?_, ?_, ?_⟩
        · simp [storeWord, elementDatum, sampler_dma_descriptor_config]
        · simp [storeWord, elementDatum, sampler_dma_descriptor_config]
        · simp [storeWord, elementDatum, sampler_dma_descriptor_config]
        · simp [storeWord, elementDatum, sampler_dma_descriptor_config]
        · intro j hj
          have h0 : j ≠ 0 := by omega
          have h1 : j ≠ 1 := by omega
          have h2 : j ≠ 2 := by omega
          have h3 : j ≠ 3 := by omega
          simp [storeWord, sampler_dma_descriptor_config, h0, h1, h2, h3]

/-- C17 as amended, at the input of the counterexample. -/
theorem C17_streaming_one_element_per_trigger_witness :
    sampleSampler.sar_base ≠ 0 ∧ sampleSampler.timer_base ≠ 0 ∧
    ((streamingSetup sampleSampler 4 0x08001000 5 1 blankSamplerHw).1 =
      [SAMPLER_SUCCESS, SAMPLER_SUCCESS, SAMPLER_SUCCESS] ∧
    ∀ d, d = (streamingSetup sampleSampler 4 0x08001000 5 1
        blankSamplerHw).2.2.sampler_dma_descriptor →
      d.xCount = 4 ∧ d.dstAddress = 0x08001000 ∧
      d.srcAddress = SamplerSrc.CHAN_RESULT sampleSampler.sar_base 0 ∧
      d.srcXincrement = 0 ∧ d.nextDescriptor = SamplerNext.sampler_dma_descriptor ∧
      (∀ k, sourceSlot d k = some 0) ∧
      ∀ (r0 r1 r2 r3 b : Nat → Nat),
        elementsPerTrigger d ⟨0, b⟩ = 1 ∧
        (∃ st, streamTrigger d r0 ⟨0, b⟩ = some st ∧ st.xIndex = 1 ∧
          st.buffer 0 = r0 0 % 2 ^ 16 ∧ ∀ j, j ≠ 0 → st.buffer j = b j) ∧
        ∃ st, streamTriggers d [r0, r1, r2, r3] ⟨0, b⟩ = some st ∧ st.xIndex = 0 ∧
          st.buffer 0 = r0 0 % 2 ^ 16 ∧ st.buffer 1 = r1 0 % 2 ^ 16 ∧
          st.buffer 2 = r2 0 % 2 ^ 16 ∧ st.buffer 3 = r3 0 % 2 ^ 16 ∧
          ∀ j, 4 ≤ j → st.buffer j = b j) :=
  ⟨by decide, by decide,
    C17_streaming_one_element_per_trigger sampleSampler 0x08001000 5 1 blankSamplerHw
      (by decide) (by decide)⟩

/-! ## AMux_Deinit -/

/-- What AMux_Deinit leaves behind on a handle whose list fits the arrays. -/
theorem AMux_Deinit_eq (a : amux_t) (hw : Hw) (hwf : a.wf)
    (hn : a.num_conn ≤ AMUX_MAX_NUM_CONNECTIONS) :
    ∃ hw1, AMux_DisconnectAll_loop a a.num_conn 0 0 hw = some hw1 ∧
      AMux_Deinit (some a) hw =
        some (some { a with num_conn := 0, curr_conn := AMUX_CONN_UNKNOWN,
                            dma_base := 0, dma_en := false },
          if a.dma_base ≠ 0 then
            { hw1 with dma_calls := hw1.dma_calls ++
                [DmaCall.Channel_Disable a.dma_base a.dma_chan,
                 DmaCall.Channel_DeInit a.dma_base a.dma_chan] }
          else hw1) := by
  obtain ⟨hw1, e, _, _, ed⟩ := AMux_DisconnectAll_eq a hw hwf hn
  refine ⟨hw1, e, ?_⟩
  simp [AMux_Deinit, ed]

/-- The condition on the register addresses in the clearing lemmas is needed in
the model: on a handle with one connection whose register address is 0 (NULL,
an address AMux_AddPort never stores, see reachable_ports_nonzero) AMux_Deinit
skips the only write, the address being equal to the initial value of
previous_port, so the register still holds the word 5 it held before. -/
theorem AMux_Deinit_null_address_not_cleared :
    zeroAddrHandle.num_conn = 1 ∧ zeroAddrHandle.port 0 = 0 ∧ wordAtZeroHw.regs 0 = 5 ∧
    (AMux_Deinit (some zeroAddrHandle) wordAtZeroHw).map
      (fun r => (r.2.regs (zeroAddrHandle.port 0), r.2.log)) = some (5, []) := by
  decide

/-- C18: on a non-null handle AMux_Deinit leaves num_conn = 0, cursor =
AMUX_CONN_UNKNOWN, dma_base absent and dma_en = false, the handle being the one
a successful AMux_Init with the same selection produces, and every register of
the former connection set at 0; calling AMux_Deinit a second time changes
neither the handle nor the hardware.  The handle states are those with arrays
of 32 entries, num_conn at most 32 and no connection register at address 0
(NULL); every state the public calls reach from a successful AMux_Init is such
a state (reachable_ports_nonzero). -/
theorem C18_deinit_baseline_idempotent (pdl : Pdl) (a : amux_t) (hw : Hw) (hwf : a.wf)
    (hn : a.num_conn ≤ AMUX_MAX_NUM_CONNECTIONS)
    (hnz : ∀ j, j < a.num_conn → a.port j ≠ 0) :
    ∃ a' hw', AMux_Deinit (some a) hw = some (some a', hw') ∧
      a'.num_conn = 0 ∧ a'.curr_conn = AMUX_CONN_UNKNOWN ∧ a'.dma_base = 0 ∧
      a'.dma_en = false ∧
      ((AMux_Init pdl (some a) a.amux_sel).1 = AMUX_SUCCESS →
        (AMux_Init pdl (some a) a.amux_sel).2 = some a') ∧
      (∀ j, j < a.num_conn → hw'.regs (a.port j) = 0) ∧
      AMux_Deinit (some a') hw' = some (some a', hw') := by
  obtain ⟨hw1, e, ed⟩ := AMux_Deinit_eq a hw hwf hn
  have hclear := allClear_of_loop a hw hw1 e hnz
  refine ⟨_, _, ed, rfl, rfl, rfl, rfl, ?_, ?_, ?_⟩
  · intro hs
    have hsel : ¬ (a.amux_sel ≠ AMUX_A pdl ∧ a.amux_sel ≠ AMUX_B pdl) := by
      intro hc
      simp [AMux_Init, hc] at hs
    simp only [AMux_Init, if_neg hsel]
  · intro j hj
    by_cases hb : a.dma_base ≠ 0
    · simp only [if_pos hb]
      exact hclear j hj
    · simp only [if_neg hb]
      exact hclear j hj
  · simp [AMux_Deinit, AMux_DisconnectAll, AMux_DisconnectAll_loop, AMUX_CONN_UNKNOWN]

/-- C18 at a concrete input: the handle the calls of sampleOps reach from
AMux_Init, two connections of port 9 with the engine channel bound. -/
theorem C18_deinit_baseline_idempotent_witness :
    sampleReached.wf ∧ sampleReached.num_conn ≤ AMUX_MAX_NUM_CONNECTIONS ∧
    (∀ j, j < sampleReached.num_conn → sampleReached.port j ≠ 0) ∧
    ∃ a' hw', AMux_Deinit (some sampleReached) blankHw = some (some a', hw') ∧
      a'.num_conn = 0 ∧ a'.curr_conn = AMUX_CONN_UNKNOWN ∧ a'.dma_base = 0 ∧
      a'.dma_en = false ∧
      ((AMux_Init psoc6 (some sampleReached) sampleReached.amux_sel).1 = AMUX_SUCCESS →
        (AMux_Init psoc6 (some sampleReached) sampleReached.amux_sel).2 = some a') ∧
      (∀ j, j < sampleReached.num_conn → hw'.regs (sampleReached.port j) = 0) ∧
      AMux_Deinit (some a') hw' = some (some a', hw') :=
  ⟨by decide, by decide, by decide,
    C18_deinit_baseline_idempotent psoc6 sampleReached blankHw
      (by decide) (by decide) (by decide)⟩

/-! ## The connection of a pin -/

/-- The connection list AMux_AddPort leaves on a non-armed handle with a non-null
port, whatever the status: the first 32 entries of the previous list followed
by the connections of the set bits of the mask in ascending bit position. -/
theorem AMux_AddPort_list (pdl : Pdl) (a : amux_t) (port mask : Nat) (hw : Hw)
    (hwf : a.wf) (hn : a.num_conn ≤ AMUX_MAX_NUM_CONNECTIONS)
    (hport : port ≠ 0) (hen : a.dma_en = false) :
    ∃ a', (AMux_AddPort pdl (some a) port mask hw).2.1 = some a' ∧
      connList a' = (connList a ++ portConnections pdl a.amux_sel port mask).take
        AMUX_MAX_NUM_CONNECTIONS := by
  have hg : ¬ (port = 0 ∨ a.dma_en = true) := by simp [hport, hen]
  unfold AMux_AddPort
  simp only [if_neg hg]
  rcases hl : AMux_AddPort_loop pdl (portAddrHSIOM pdl port) mask CY_GPIO_PINS_MAX 0 a
    with ⟨b, a1⟩
  cases b with
  | true =>
    obtain ⟨_, h2, _, _, _, _, _, h8, _⟩ :=
      AMux_AddPort_loop_ok pdl _ mask _ 0 a a1 hwf hn hl
    refine ⟨a1, rfl, ?_⟩
    have hc : connList a1 = connList a ++ portConnections pdl a.amux_sel port mask := by
      rw [h8]; simp [portConnections, List.range_eq_range']
    rw [← hc, List.take_of_length_le (by rw [connList_length]; exact h2)]
  | false =>
    obtain ⟨_, _, _, _, _, _, _, h8⟩ :=
      AMux_AddPort_loop_full pdl _ mask _ 0 a a1 hwf hn hl
    refine ⟨a1, rfl, ?_⟩
    rw [h8]; simp [portConnections, List.range_eq_range']

/-- With a selection code below 256 the connection of pin p < 8 is the register
PORT_SEL0 (p < 4) or PORT_SEL1 (p >= 4) of the port and the code shifted left
by 8 * (p mod 4) bits, without truncation. -/
theorem pinConnection_eq (pdl : Pdl) (base sel p : Nat) (hsel : sel < 256) (hp : p < 8) :
    pinConnection pdl base sel p =
      (base + (if p < 4 then pdl.PORT_SEL0 else pdl.PORT_SEL1), sel * 2 ^ (8 * (p % 4))) := by
  simp only [pinConnection, CY_GPIO_PRT_HALF, Nat.shiftLeft_eq]
  interval_cases p <;> simp <;> omega

theorem onlyInByte_shifted (sel b : Nat) (hsel : sel < 256) (hb : b < 4) :
    onlyInByte (sel * 2 ^ (8 * b)) b ∧ (sel * 2 ^ (8 * b) / 2 ^ (8 * b)) % 256 = sel := by
  refine ⟨⟨?_, ?_⟩, ?_⟩
  · interval_cases b <;> simp <;> omega
  · intro q hq hne
    interval_cases b <;> interval_cases q <;> simp at hne ⊢ <;> omega
  · interval_cases b <;> simp <;> omega

/-- C19: for a selection sel in {AMUX_A, AMUX_B} (selection codes below 256), a
non-null port and any mask, the connections AMux_AddPort appends to a non-armed
handle are, for the set bits p in 0..7 in ascending order, the pure function of
(port, p, sel): register PORT_SEL0 of the HSIOM block of the port when p < 4 and
PORT_SEL1 when p >= 4, value sel shifted left by 8 * (p mod 4) bits; that value
fits in 32 bits, holds sel in byte (p mod 4) and is 0 in each of the other three
bytes, the bytes of the sibling pins of the register. -/
theorem C19_pin_connection (pdl : Pdl) (a : amux_t) (port mask : Nat) (hw : Hw)
    (hwf : a.wf) (hn : a.num_conn ≤ AMUX_MAX_NUM_CONNECTIONS)
    (hport : port ≠ 0) (hen : a.dma_en = false)
    (hsel : a.amux_sel = AMUX_A pdl ∨ a.amux_sel = AMUX_B pdl)
    (hA : pdl.HSIOM_SEL_AMUXA < 256) (hB : pdl.HSIOM_SEL_AMUXB < 256) :
    (∃ a', (AMux_AddPort pdl (some a) port mask hw).2.1 = some a' ∧
      connList a' = (connList a ++
        ((List.range 8).filter (fun p => maskBit mask p)).map
          (fun p => (portAddrHSIOM pdl port + (if p < 4 then pdl.PORT_SEL0 else pdl.PORT_SEL1),
            a.amux_sel * 2 ^ (8 * (p % 4))))).take AMUX_MAX_NUM_CONNECTIONS) ∧
    ∀ p, p < 8 →
      pinConnection pdl (portAddrHSIOM pdl port) a.amux_sel p =
        (portAddrHSIOM pdl port + (if p < 4 then pdl.PORT_SEL0 else pdl.PORT_SEL1),
          a.amux_sel * 2 ^ (8 * (p % 4))) ∧
      onlyInByte (a.amux_sel * 2 ^ (8 * (p % 4))) (p % 4) ∧
      (a.amux_sel * 2 ^ (8 * (p % 4)) / 2 ^ (8 * (p % 4))) % 256 = a.amux_sel := by
  have hs : a.amux_sel < 256 := by
    rcases hsel with h | h
    · rw [h]; exact hA
    · rw [h]; exact hB
  constructor
  · obtain ⟨a', e, hc⟩ := AMux_AddPort_list pdl a port mask hw hwf hn hport hen
    refine ⟨a', e, ?_⟩
    rw [hc, portConnections]
    congr 2
    apply List.map_congr_left
    intro p hp
    have hp8 : p < 8 := List.mem_range.mp (List.mem_filter.mp hp).1
    exact pinConnection_eq pdl _ _ p hs hp8
  · intro p hp
    have hb : p % 4 < 4 := Nat.mod_lt _ (by decide)
    exact ⟨pinConnection_eq pdl _ _ p hs hp, (onlyInByte_shifted _ _ hs hb).1,
      (onlyInByte_shifted _ _ hs hb).2⟩

/-- C19 at a concrete input: port 9 of a PSoC 6 device, mask 0b10010010, on a
handle with three connections and selection AMUX_B. -/
theorem C19_pin_connection_witness :
    (sampleHandle 3).wf ∧ (sampleHandle 3).num_conn ≤ AMUX_MAX_NUM_CONNECTIONS ∧
    GPIO_PRT9 ≠ 0 ∧ (sampleHandle 3).dma_en = false ∧
    ((sampleHandle 3).amux_sel = AMUX_A psoc6 ∨ (sampleHandle 3).amux_sel = AMUX_B psoc6) ∧
    psoc6.HSIOM_SEL_AMUXA < 256 ∧ psoc6.HSIOM_SEL_AMUXB < 256 ∧
    ((∃ a', (AMux_AddPort psoc6 (some (sampleHandle 3)) GPIO_PRT9 0x92 blankHw).2.1 = some a' ∧
      connList a' = (connList (sampleHandle 3) ++
        ((List.range 8).filter (fun p => maskBit 0x92 p)).map
          (fun p => (portAddrHSIOM psoc6 GPIO_PRT9 +
              (if p < 4 then psoc6.PORT_SEL0 else psoc6.PORT_SEL1),
            (sampleHandle 3).amux_sel * 2 ^ (8 * (p % 4))))).take AMUX_MAX_NUM_CONNECTIONS) ∧
    ∀ p, p < 8 →
      pinConnection psoc6 (portAddrHSIOM psoc6 GPIO_PRT9) (sampleHandle 3).amux_sel p =
        (portAddrHSIOM psoc6 GPIO_PRT9 + (if p < 4 then psoc6.PORT_SEL0 else psoc6.PORT_SEL1),
          (sampleHandle 3).amux_sel * 2 ^ (8 * (p % 4))) ∧
      onlyInByte ((sampleHandle 3).amux_sel * 2 ^ (8 * (p % 4))) (p % 4) ∧
      ((sampleHandle 3).amux_sel * 2 ^ (8 * (p % 4)) / 2 ^ (8 * (p % 4))) % 256 =
        (sampleHandle 3).amux_sel) :=
  ⟨by decide, by decide, by decide, by decide, by decide, by decide, by decide,
    C19_pin_connection psoc6 (sampleHandle 3) GPIO_PRT9 0x92 blankHw
      (by decide) (by decide) (by decide) (by decide) (by decide) (by decide) (by decide)⟩

/-! ## AMux_DisconnectAll against the naive clearing procedure -/

/-- The clearing loop leaves every register that is not the register of a
visited position as it was, and what it appends to the write trace are writes
of 0 to registers of visited positions. -/
theorem AMux_DisconnectAll_loop_footprint (a : amux_t) :
    ∀ (todo i prev : Nat) (hw hw1 : Hw),
      AMux_DisconnectAll_loop a todo i prev hw = some hw1 →
      (∀ x, (∀ j, i ≤ j → j < i + todo → a.port j ≠ x) → hw1.regs x = hw.regs x) ∧
      ∃ ws, hw1.log = hw.log ++ ws ∧
        ∀ w ∈ ws, w.2 = 0 ∧ ∃ j, i ≤ j ∧ j < i + todo ∧ a.port j = w.1 := by
  intro todo
  induction todo with
  | zero =>
    intro i prev hw hw1 h
    simp [AMux_DisconnectAll_loop] at h
    subst h
    exact ⟨fun x _ => rfl, [], by simp, fun w hw => by simp at hw⟩
  | succ todo ih =>
    intro i prev hw hw1 h
    rw [AMux_DisconnectAll_loop] at h
    cases hg : a.connect_port[i]? with
    | none => rw [hg] at h; simp at h
    | some p =>
      rw [hg] at h
      have hp : a.port i = p := by simp [amux_t.port, hg]
      by_cases hne : prev ≠ p
      · simp only [if_pos hne] at h
        obtain ⟨k1, ws, k2, k3⟩ := ih (i + 1) p (CY_SET_REG32 p 0 hw) hw1 h
        refine ⟨?_, (p, 0) :: ws, ?_, ?_⟩
        · intro x hx
          rw [k1 x (fun j h1 h2 => hx j (by omega) (by omega))]
          have hxp : x ≠ p := by
            intro e
            exact hx i (Nat.le_refl _) (by omega) (by rw [hp, e])
          simp [CY_SET_REG32, storeWord, hxp]
        · rw [k2]; simp [CY_SET_REG32]
        · intro w hw
          rcases List.mem_cons.mp hw with rfl | hw
          · exact ⟨rfl, i, Nat.le_refl _, by omega, hp⟩
          · obtain ⟨z, j, j1, j2, j3⟩ := k3 w hw
            exact ⟨z, j, by omega, by omega, j3⟩
      · simp only [if_neg hne] at h
        obtain ⟨k1, ws, k2, k3⟩ := ih (i + 1) prev hw hw1 h
        refine ⟨?_, ws, k2, ?_⟩
        · intro x hx
          exact k1 x (fun j h1 h2 => hx j (by omega) (by omega))
        · intro w hw
          obtain ⟨z, j, j1, j2, j3⟩ := k3 w hw
          exact ⟨z, j, by omega, by omega, j3⟩

/-- The naive procedure terminates without an out-of-bounds access when the
positions lie inside the array, clears the register of every visited position
and leaves every other register as it was. -/
theorem naiveClear_loop_spec (a : amux_t) :
    ∀ (todo i : Nat) (hw : Hw), i + todo ≤ a.connect_port.length →
      ∃ hw1, naiveClear_loop a todo i hw = some hw1 ∧
        (∀ x, hw.regs x = 0 → hw1.regs x = 0) ∧
        (∀ j, i ≤ j → j < i + todo → hw1.regs (a.port j) = 0) ∧
        (∀ x, (∀ j, i ≤ j → j < i + todo → a.port j ≠ x) → hw1.regs x = hw.regs x) := by
  intro todo
  induction todo with
  | zero =>
    intro i hw _
    exact ⟨hw, rfl, fun x hx => hx, fun j h1 h2 => by omega, fun x _ => rfl⟩
  | succ todo ih =>
    intro i hw hb
    rw [naiveClear_loop, connect_port_get a i (by omega)]
    obtain ⟨hw1, e, k1, k2, k3⟩ := ih (i + 1) (CY_SET_REG32 (a.port i) 0 hw) (by omega)
    have hz : (CY_SET_REG32 (a.port i) 0 hw).regs (a.port i) = 0 := by
      simp [CY_SET_REG32, storeWord]
    refine ⟨hw1, e, ?_, ?_, ?_⟩
    · intro x hx
      apply k1
      simp only [CY_SET_REG32, storeWord]
      split
      · rfl
      · exact hx
    · intro j h1 h2
      by_cases hj : j = i
      · subst hj; exact k1 _ hz
      · exact k2 j (by omega) (by omega)
    · intro x hx
      rw [k3 x (fun j h1 h2 => hx j (by omega) (by omega))]
      have hxp : x ≠ a.port i := by
        intro e
        exact hx i (Nat.le_refl _) (by omega) e.symm
      simp [CY_SET_REG32, storeWord, hxp]

/-- C20: on a handle whose connection registers all have non-zero addresses, for
every initial register contents, AMux_DisconnectAll (which skips a write when
the register equals the one written last) returns AMUX_SUCCESS and leaves the
register contents the naive procedure leaves that writes 0 to the register of
every connection 0 .. num_conn - 1: every register of the set ends at 0, every
register outside the set keeps its contents, and the writes made are writes of
0 to registers of the set. -/
theorem C20_disconnectAll_equals_naive (a : amux_t) (hw : Hw) (hwf : a.wf)
    (hn : a.num_conn ≤ AMUX_MAX_NUM_CONNECTIONS)
    (hnz : ∀ j, j < a.num_conn → a.port j ≠ 0) :
    ∃ a' hw' hwn, AMux_DisconnectAll (some a) hw = some (AMUX_SUCCESS, some a', hw') ∧
      naiveClear a hw = some hwn ∧ hw'.regs = hwn.regs ∧
      (∀ j, j < a.num_conn → hw'.regs (a.port j) = 0) ∧
      (∀ x, ¬ inSet a x → hw'.regs x = hw.regs x) ∧
      ∃ ws, hw'.log = hw.log ++ ws ∧ ∀ w ∈ ws, w.2 = 0 ∧ inSet a w.1 := by
  have hN : a.num_conn ≤ 32 := hn
  obtain ⟨hw1, e, _, _, ed⟩ := AMux_DisconnectAll_eq a hw hwf hn
  obtain ⟨hwn, en, _, n2, n3⟩ := naiveClear_loop_spec a a.num_conn 0 hw
    (by rw [hwf.1]; show _ ≤ 32; omega)
  have hclear := allClear_of_loop a hw hw1 e hnz
  obtain ⟨f1, ws, f2, f3⟩ := AMux_DisconnectAll_loop_footprint a a.num_conn 0 0 hw hw1 e
  have hout : ∀ x, ¬ inSet a x → ∀ j, 0 ≤ j → j < 0 + a.num_conn → a.port j ≠ x := by
    intro x hx j _ hj he
    exact hx ⟨j, by omega, he⟩
  refine ⟨_, hw1, hwn, ed, en, ?_, hclear, fun x hx => f1 x (hout x hx), ws, f2, ?_⟩
  · funext x
    by_cases hx : inSet a x
    · obtain ⟨j, hj, hjx⟩ := hx
      rw [← hjx, hclear j hj, n2 j (Nat.zero_le _) (by omega)]
    · rw [f1 x (hout x hx), n3 x (hout x hx)]
  · intro w hw
    obtain ⟨z, j, _, j2, j3⟩ := f3 w hw
    exact ⟨z, j, by omega, j3⟩

/-- C20 at a concrete input: five connections on two registers. -/
theorem C20_disconnectAll_equals_naive_witness :
    (sampleHandle 5).wf ∧ (sampleHandle 5).num_conn ≤ AMUX_MAX_NUM_CONNECTIONS ∧
    (∀ j, j < (sampleHandle 5).num_conn → (sampleHandle 5).port j ≠ 0) ∧
    ∃ a' hw' hwn,
      AMux_DisconnectAll (some (sampleHandle 5)) blankHw = some (AMUX_SUCCESS, some a', hw') ∧
      naiveClear (sampleHandle 5) blankHw = some hwn ∧ hw'.regs = hwn.regs ∧
      (∀ j, j < (sampleHandle 5).num_conn → hw'.regs ((sampleHandle 5).port j) = 0) ∧
      (∀ x, ¬ inSet (sampleHandle 5) x → hw'.regs x = blankHw.regs x) ∧
      ∃ ws, hw'.log = blankHw.log ++ ws ∧ ∀ w ∈ ws, w.2 = 0 ∧ inSet (sampleHandle 5) w.1 :=
  ⟨by decide, by decide, by decide,
    C20_disconnectAll_equals_naive (sampleHandle 5) blankHw
      (by decide) (by decide) (by decide)⟩

/-! ## Descriptor contents, the armed flag -/

/-- C21: on a non-armed handle with K >= 1 connections AMux_SetupDMA (non-null
engine instance) succeeds, and for every i in 0..K-1 descriptor 2i has as
source the constant zero word, as destination the register of connection
(i-1) mod K (connection K-1 when i = 0) and as successor descriptor 2i+1, while
descriptor 2i+1 has as source the value of connection i (the address of
connect_pin[i]), as destination the register of connection i and as successor
descriptor 2(i+1), or descriptor 0 when i = K-1. -/
theorem C21_descriptor_contents (a : amux_t) (dma_base dma_chan : Nat) (hw : Hw)
    (hwf : a.wf) (hen : a.dma_en = false) (h1 : 1 ≤ a.num_conn)
    (hn : a.num_conn ≤ AMUX_MAX_NUM_CONNECTIONS)
    (hd : hw.amux_dma_descriptor.length = 2 * AMUX_MAX_NUM_CONNECTIONS)
    (hbase : dma_base ≠ 0) :
    ∃ a' hw', AMux_SetupDMA (some a) dma_base dma_chan hw = some (AMUX_SUCCESS, some a', hw') ∧
      ∀ i, i < a.num_conn →
        ∃ d0 d1, hw'.amux_dma_descriptor[2 * i]? = some d0 ∧
          hw'.amux_dma_descriptor[2 * i + 1]? = some d1 ∧
          d0.srcAddress = DmaSrc.amux_all_zero ∧ readSrc a' d0.srcAddress = some 0 ∧
          d0.dstAddress = a.port ((i + a.num_conn - 1) % a.num_conn) ∧
          d0.nextDescriptor = some (2 * i + 1) ∧
          d1.srcAddress = DmaSrc.connect_pin i ∧ readSrc a' d1.srcAddress = some (a.pin i) ∧
          d1.dstAddress = a.port i ∧
          d1.nextDescriptor = some (if i = a.num_conn - 1 then 0 else 2 * (i + 1)) := by
  have hN : a.num_conn ≤ 32 := hn
  obtain ⟨descs, hw1, _, _, _, eset, e⟩ :=
    AMux_SetupDMA_eq a dma_base dma_chan hw hwf hen h1 hn hd hbase
  refine ⟨_, _, e, ?_⟩
  intro i hi
  obtain ⟨e0, e1⟩ := eset i hi
  have hq := connect_pin_get a i (by rw [hwf.2]; show _ < 32; omega)
  have hdst : (if i = 0 then a.port (a.num_conn - 1) else a.port (i - 1)) =
      a.port ((i + a.num_conn - 1) % a.num_conn) := by
    by_cases h0 : i = 0
    · subst h0
      rw [if_pos rfl, Nat.zero_add, Nat.mod_eq_of_lt (by omega)]
    · rw [if_neg h0]
      have : i + a.num_conn - 1 = i - 1 + a.num_conn := by omega
      rw [this, Nat.add_mod_right, Nat.mod_eq_of_lt (by omega)]
  refine ⟨_, _, e0, e1, rfl, rfl, ?_, rfl, rfl, ?_, rfl, rfl⟩
  · rw [← hdst]; rfl
  · show a.connect_pin[i]? = some (a.pin i)
    exact hq

/-- C21 at a concrete input: three connections. -/
theorem C21_descriptor_contents_witness :
    (sampleHandle 3).wf ∧ (sampleHandle 3).dma_en = false ∧ 1 ≤ (sampleHandle 3).num_conn ∧
    (sampleHandle 3).num_conn ≤ AMUX_MAX_NUM_CONNECTIONS ∧
    blankHw.amux_dma_descriptor.length = 2 * AMUX_MAX_NUM_CONNECTIONS ∧ 5 ≠ 0 ∧
    ∃ a' hw', AMux_SetupDMA (some (sampleHandle 3)) 5 1 blankHw =
        some (AMUX_SUCCESS, some a', hw') ∧
      ∀ i, i < (sampleHandle 3).num_conn →
        ∃ d0 d1, hw'.amux_dma_descriptor[2 * i]? = some d0 ∧
          hw'.amux_dma_descriptor[2 * i + 1]? = some d1 ∧
          d0.srcAddress = DmaSrc.amux_all_zero ∧ readSrc a' d0.srcAddress = some 0 ∧
          d0.dstAddress = (sampleHandle 3).port
            ((i + (sampleHandle 3).num_conn - 1) % (sampleHandle 3).num_conn) ∧
          d0.nextDescriptor = some (2 * i + 1) ∧
          d1.srcAddress = DmaSrc.connect_pin i ∧
          readSrc a' d1.srcAddress = some ((sampleHandle 3).pin i) ∧
          d1.dstAddress = (sampleHandle 3).port i ∧
          d1.nextDescriptor =
            some (if i = (sampleHandle 3).num_conn - 1 then 0 else 2 * (i + 1)) :=
  ⟨by decide, by decide, by decide, by decide, by decide, by decide,
    C21_descriptor_contents (sampleHandle 3) 5 1 blankHw
      (by decide) (by decide) (by decide) (by decide) (by decide) (by decide)⟩

/-- C22, the claim as stated fails: on an armed handle (dma_en = true) with
three connections and the cursor at 0, AMux_DisconnectAll returns AMUX_SUCCESS,
writes 0 to the register of the set and moves the cursor to 2. -/
theorem C22_counterexample :
    ({ sampleHandle 3 with dma_en := true, dma_base := 5, curr_conn := 0 } : amux_t).dma_en
      = true ∧
    (AMux_DisconnectAll
      (some { sampleHandle 3 with dma_en := true, dma_base := 5, curr_conn := 0 }) blankHw).map
      (fun r => (r.1, r.2.1.map (fun a => a.curr_conn), r.2.2.log)) =
      some (AMUX_SUCCESS, some 2, [(100, 0)]) := by
  decide

/-- The clearing loop does not read the flag dma_en. -/
theorem AMux_DisconnectAll_loop_flag (a : amux_t) (b : Bool) (hw hw1 : Hw)
    (hb : a.num_conn ≤ a.connect_port.length)
    (e : AMux_DisconnectAll_loop a a.num_conn 0 0 hw = some hw1) :
    AMux_DisconnectAll_loop { a with dma_en := b } a.num_conn 0 0 hw = some hw1 := by
  obtain ⟨hw2, e2, d1, d2⟩ := AMux_DisconnectAll_loop_some a a.num_conn 0 0 hw (by omega)
  have h12 : hw2 = hw1 := by
    rw [e2] at e
    exact Option.some.inj e
  subst h12
  have hfr := AMux_DisconnectAll_loop_frame a { a with dma_en := b } rfl
    hw.amux_dma_descriptor hw.dma_calls a.num_conn 0 0 hw hw2 e2
  have hhw : hw2 = ⟨hw2.regs, hw2.log, hw.amux_dma_descriptor, hw.dma_calls⟩ := by
    cases hw2
    simp only at d1 d2
    simp [d1, d2]
  exact hfr.trans (congrArg some hhw.symm)

/-- C22 as amended: AMux_DisconnectAll is not gated by dma_en.  On a handle with
dma_en = true it returns AMUX_SUCCESS, makes the register writes of its
clearing loop and sets the cursor to the 8-bit value of num_conn - 1; dma_en and
every other field stay as they were, and the hardware it leaves is the one it
leaves on the same handle with dma_en = false. -/
theorem C22_disconnectAll_ignores_armed_flag (a : amux_t) (hw : Hw) (hwf : a.wf)
    (hn : a.num_conn ≤ AMUX_MAX_NUM_CONNECTIONS) (hen : a.dma_en = true) :
    ∃ hw1, AMux_DisconnectAll (some a) hw =
        some (AMUX_SUCCESS, some { a with curr_conn := (a.num_conn + 255) % 256 }, hw1) ∧
      AMux_DisconnectAll (some { a with dma_en := false }) hw =
        some (AMUX_SUCCESS,
          some { a with dma_en := false, curr_conn := (a.num_conn + 255) % 256 }, hw1) := by
  obtain ⟨hw1, e, _, _, ed⟩ := AMux_DisconnectAll_eq a hw hwf hn
  refine ⟨hw1, ed, ?_⟩
  have e' := AMux_DisconnectAll_loop_flag a false hw hw1 (by rw [hwf.1]; exact hn) e
  simp [AMux_DisconnectAll, e']

/-- C22 as amended, at the input of the counterexample. -/
theorem C22_disconnectAll_ignores_armed_flag_witness :
    ({ sampleHandle 3 with dma_en := true, dma_base := 5, curr_conn := 0 } : amux_t).wf ∧
    ({ sampleHandle 3 with dma_en := true, dma_base := 5, curr_conn := 0 } : amux_t).num_conn
      ≤ AMUX_MAX_NUM_CONNECTIONS ∧
    ({ sampleHandle 3 with dma_en := true, dma_base := 5, curr_conn := 0 } : amux_t).dma_en
      = true ∧
    ∃ hw1, AMux_DisconnectAll
        (some { sampleHandle 3 with dma_en := true, dma_base := 5, curr_conn := 0 }) blankHw =
        some (AMUX_SUCCESS,
          some { ({ sampleHandle 3 with dma_en := true, dma_base := 5, curr_conn := 0 } : amux_t)
            with curr_conn :=
              (({ sampleHandle 3 with dma_en := true, dma_base := 5, curr_conn := 0 }
                : amux_t).num_conn + 255) % 256 }, hw1) ∧
      AMux_DisconnectAll
        (some { ({ sampleHandle 3 with dma_en := true, dma_base := 5, curr_conn := 0 } : amux_t)
          with dma_en := false }) blankHw =
        some (AMUX_SUCCESS,
          some { ({ sampleHandle 3 with dma_en := true, dma_base := 5, curr_conn := 0 } : amux_t)
            with dma_en := false, curr_conn :=
              (({ sampleHandle 3 with dma_en := true, dma_base := 5, curr_conn := 0 }
                : amux_t).num_conn + 255) % 256 }, hw1) :=
  ⟨by decide, by decide, by decide,
    C22_disconnectAll_ignores_armed_flag
      { sampleHandle 3 with dma_en := true, dma_base := 5, curr_conn := 0 } blankHw
      (by decide) (by decide) (by decide)⟩

/-- C23: on a non-null handle `a` with no engine channel bound (dma_base absent)
AMux_StartDMA and AMux_StopDMA return AMUX_ERROR and leave the handle, dma_en
included, and the hardware as they were; on a handle `b` with an engine channel
bound AMux_StartDMA returns AMUX_SUCCESS with dma_en = true and AMux_StopDMA
returns AMUX_SUCCESS with dma_en = false, every other field of the handle
(connection list, num_conn, cursor, selection, dma_base, dma_chan) and the
registers being as they were. -/
theorem C23_start_stop (a b : amux_t) (hw : Hw) (ha : a.dma_base = 0) (hb : b.dma_base ≠ 0) :
    AMux_StartDMA (some a) hw = (AMUX_ERROR, some a, hw) ∧
    AMux_StopDMA (some a) hw = (AMUX_ERROR, some a, hw) ∧
    (AMux_StartDMA (some b) hw).1 = AMUX_SUCCESS ∧
    (AMux_StartDMA (some b) hw).2.1 = some { b with dma_en := true } ∧
    (AMux_StartDMA (some b) hw).2.2.regs = hw.regs ∧
    (AMux_StartDMA (some b) hw).2.2.log = hw.log ∧
    (AMux_StopDMA (some b) hw).1 = AMUX_SUCCESS ∧
    (AMux_StopDMA (some b) hw).2.1 = some { b with dma_en := false } ∧
    (AMux_StopDMA (some b) hw).2.2.regs = hw.regs ∧
    (AMux_StopDMA (some b) hw).2.2.log = hw.log := by
  simp [AMux_StartDMA, AMux_StopDMA, ha, hb]

/-- C23 at concrete inputs: a handle with no engine channel bound and the same
handle with engine instance 5 bound. -/
theorem C23_start_stop_witness :
    (sampleHandle 3).dma_base = 0 ∧ ({ sampleHandle 3 with dma_base := 5 } : amux_t).dma_base ≠ 0 ∧
    (AMux_StartDMA (some (sampleHandle 3)) blankHw = (AMUX_ERROR, some (sampleHandle 3), blankHw) ∧
    AMux_StopDMA (some (sampleHandle 3)) blankHw = (AMUX_ERROR, some (sampleHandle 3), blankHw) ∧
    (AMux_StartDMA (some { sampleHandle 3 with dma_base := 5 }) blankHw).1 = AMUX_SUCCESS ∧
    (AMux_StartDMA (some { sampleHandle 3 with dma_base := 5 }) blankHw).2.1 =
      some { ({ sampleHandle 3 with dma_base := 5 } : amux_t) with dma_en := true } ∧
    (AMux_StartDMA (some { sampleHandle 3 with dma_base := 5 }) blankHw).2.2.regs = blankHw.regs ∧
    (AMux_StartDMA (some { sampleHandle 3 with dma_base := 5 }) blankHw).2.2.log = blankHw.log ∧
    (AMux_StopDMA (some { sampleHandle 3 with dma_base := 5 }) blankHw).1 = AMUX_SUCCESS ∧
    (AMux_StopDMA (some { sampleHandle 3 with dma_base := 5 }) blankHw).2.1 =
      some { ({ sampleHandle 3 with dma_base := 5 } : amux_t) with dma_en := false } ∧
    (AMux_StopDMA (some { sampleHandle 3 with dma_base := 5 }) blankHw).2.2.regs = blankHw.regs ∧
    (AMux_StopDMA (some { sampleHandle 3 with dma_base := 5 }) blankHw).2.2.log = blankHw.log) :=
  ⟨by decide, by decide,
    C23_start_stop (sampleHandle 3) { sampleHandle 3 with dma_base := 5 } blankHw
      (by decide) (by decide)⟩

/-! ## Effect of each public call on the handle -/

theorem AMux_DisconnectAll_some (a : amux_t) (hw : Hw)
    (r : en_amux_status_t × Option amux_t × Hw)
    (h : AMux_DisconnectAll (some a) hw = some r) :
    r.1 = AMUX_SUCCESS ∧
    r.2.1 = some { a with curr_conn := (a.num_conn + 255) % 256 } := by
  simp only [AMux_DisconnectAll] at h
  cases hl : AMux_DisconnectAll_loop a a.num_conn 0 0 hw with
  | none => rw [hl] at h; simp at h
  | some hw1 =>
    rw [hl] at h
    simp only [Option.some.injEq] at h
    subst h
    exact ⟨rfl, rfl⟩

theorem AMux_Connect_some (a : amux_t) (index : Nat) (hw : Hw)
    (r : en_amux_status_t × Option amux_t × Hw)
    (h : AMux_Connect (some a) index hw = some r) :
    (a.dma_en = true ∧ r.2.1 = some a) ∨
    (a.dma_en = false ∧ r.2.1 = some { a with curr_conn := index }) := by
  by_cases hen : a.dma_en = true
  · left
    simp only [AMux_Connect, hen, if_true, Option.some.injEq] at h
    subst h
    exact ⟨hen, rfl⟩
  · right
    have hen' : a.dma_en = false := by simpa using hen
    refine ⟨hen', ?_⟩
    by_cases hk : a.curr_conn ≠ AMUX_CONN_UNKNOWN
    · simp [AMux_Connect, hen', hk] at h
      simp only [Option.bind_eq_some] at h
      obtain ⟨p, _, q, _, v, _, h⟩ := h
      simp only [Option.some.injEq] at h
      subst h
      simp [hen']
    · simp [AMux_Connect, hen', hk] at h
      simp only [Option.bind_eq_some] at h
      obtain ⟨r0, hr0, a1, ha1, q, _, v, _, h⟩ := h
      simp only [Option.some.injEq] at h
      subst h
      rw [(AMux_DisconnectAll_some a hw r0 hr0).2] at ha1
      simp only [Option.some.injEq] at ha1
      subst ha1
      rfl

theorem AMux_ConnectNext_some (a : amux_t) (hw : Hw)
    (r : en_amux_status_t × Option amux_t × Hw)
    (h : AMux_ConnectNext (some a) hw = some r) :
    (a.dma_en = true ∧ r.2.1 = some a) ∨
    (a.dma_en = false ∧ 0 < a.num_conn ∧
      ∃ c, c < a.num_conn ∧ r.2.1 = some { a with curr_conn := c }) := by
  by_cases hen : a.dma_en = true
  · left
    simp only [AMux_ConnectNext, hen, if_true, Option.some.injEq] at h
    subst h
    exact ⟨hen, rfl⟩
  · right
    have hen' : a.dma_en = false := by simpa using hen
    refine ⟨hen', ?_⟩
    by_cases h0 : a.num_conn = 0
    · by_cases hk : a.curr_conn = AMUX_CONN_UNKNOWN
      · simp [AMux_ConnectNext, hen', hk] at h
        simp only [Option.bind_eq_some] at h
        obtain ⟨r0, hr0, a1, ha1, h⟩ := h
        rw [(AMux_DisconnectAll_some a hw r0 hr0).2] at ha1
        simp only [Option.some.injEq] at ha1
        subst ha1
        simp [h0] at h
      · simp [AMux_ConnectNext, hen', hk, h0] at h
    · have hpos : 0 < a.num_conn := Nat.pos_of_ne_zero h0
      refine ⟨hpos, ?_⟩
      by_cases hk : a.curr_conn = AMUX_CONN_UNKNOWN
      · simp [AMux_ConnectNext, hen', hk] at h
        simp only [Option.bind_eq_some] at h
        obtain ⟨r0, hr0, a1, ha1, h⟩ := h
        rw [(AMux_DisconnectAll_some a hw r0 hr0).2] at ha1
        simp only [Option.some.injEq] at ha1
        subst ha1
        simp only [h0, if_false, Option.bind_eq_some] at h
        obtain ⟨q, _, v, _, h⟩ := h
        simp only [Option.some.injEq] at h
        subst h
        refine ⟨_, ?_, rfl⟩
        exact Nat.lt_of_le_of_lt (Nat.mod_le _ _) (Nat.mod_lt _ hpos)
      · simp [AMux_ConnectNext, hen', hk, h0] at h
        simp only [Option.bind_eq_some] at h
        obtain ⟨p, _, q, _, v, _, h⟩ := h
        simp only [Option.some.injEq] at h
        subst h
        refine ⟨_, ?_, by simp [hen']; rfl⟩
        exact Nat.lt_of_le_of_lt (Nat.mod_le _ _) (Nat.mod_lt _ hpos)

theorem AMux_SetupDMA_some (a : amux_t) (dma_base dma_chan : Nat) (hw : Hw)
    (r : en_amux_status_t × Option amux_t × Hw)
    (h : AMux_SetupDMA (some a) dma_base dma_chan hw = some r) :
    r.2.1 = some a ∨
    r.2.1 = some { a with dma_base := dma_base, dma_chan := dma_chan,
                          curr_conn := AMUX_CONN_UNKNOWN } := by
  by_cases hg : dma_base = 0 ∨ a.dma_en = true
  · left
    simp only [AMux_SetupDMA, if_pos hg, Option.some.injEq] at h
    subst h
    rfl
  · right
    simp only [AMux_SetupDMA, if_neg hg] at h
    simp only [bind, Option.bind_eq_some, pure] at h
    obtain ⟨descs, _, r0, hr0, a2, ha2, h⟩ := h
    simp only [Option.some.injEq] at h
    subst h
    rw [(AMux_DisconnectAll_some _ _ r0 hr0).2] at ha2
    simp only [Option.some.injEq] at ha2
    subst ha2
    rfl

theorem AMux_Deinit_some (a : amux_t) (hw : Hw) (r : Option amux_t × Hw)
    (h : AMux_Deinit (some a) hw = some r) :
    r.1 = some { a with num_conn := 0, curr_conn := AMUX_CONN_UNKNOWN,
                        dma_base := 0, dma_en := false } := by
  simp only [AMux_Deinit] at h
  simp only [bind, Option.bind_eq_some, pure] at h
  obtain ⟨r0, hr0, a1, ha1, h⟩ := h
  simp only [Option.some.injEq] at h
  subst h
  rw [(AMux_DisconnectAll_some _ _ r0 hr0).2] at ha1
  simp only [Option.some.injEq] at ha1
  subst ha1
  rfl

/-- The pin loop of AMux_AddPort never touches an array entry at an index of 32
or more, and keeps the array lengths, whatever the handle. -/
theorem AMux_AddPort_loop_bounds (pdl : Pdl) (base mask : Nat) :
    ∀ (todo pinNum : Nat) (a : amux_t),
      (AMux_AddPort_loop pdl base mask todo pinNum a).2.connect_port.length =
        a.connect_port.length ∧
      (AMux_AddPort_loop pdl base mask todo pinNum a).2.connect_pin.length =
        a.connect_pin.length ∧
      ∀ i, AMUX_MAX_NUM_CONNECTIONS ≤ i →
        (AMux_AddPort_loop pdl base mask todo pinNum a).2.connect_port[i]? =
          a.connect_port[i]? ∧
        (AMux_AddPort_loop pdl base mask todo pinNum a).2.connect_pin[i]? =
          a.connect_pin[i]? := by
  intro todo
  induction todo with
  | zero => intro pinNum a; simp [AMux_AddPort_loop]
  | succ todo ih =>
    intro pinNum a
    rw [AMux_AddPort_loop]
    by_cases hcap : a.num_conn < AMUX_MAX_NUM_CONNECTIONS
    · rw [if_pos hcap]
      by_cases hbit : maskBit mask pinNum = true
      · rw [if_pos hbit]
        obtain ⟨l1, l2, hi⟩ := ih (pinNum + 1)
          { a with connect_port := a.connect_port.set a.num_conn
                     (pinConnection pdl base a.amux_sel pinNum).1,
                   connect_pin := a.connect_pin.set a.num_conn
                     (pinConnection pdl base a.amux_sel pinNum).2,
                   num_conn := (a.num_conn + 1) % 256 }
        refine ⟨by rw [l1]; simp, by rw [l2]; simp, ?_⟩
        intro i hi32
        obtain ⟨g1, g2⟩ := hi i hi32
        have hne : a.num_conn ≠ i := by omega
        rw [g1, g2]
        simp [List.getElem?_set_ne hne]
      · rw [if_neg hbit]
        exact ih (pinNum + 1) a
    · rw [if_neg hcap]
      simp

/-- What AMux_AddPort does to a handle whose list fits the arrays, whatever the
status: the arrays keep their length, num_conn grows and stays within the
capacity, selection and cursor are kept, and every connection of the new list
is one of the old list or the connection of a pin of the port. -/
theorem AMux_AddPort_effect (pdl : Pdl) (a : amux_t) (port mask : Nat) (hw : Hw)
    (hwf : a.wf) (hn : a.num_conn ≤ AMUX_MAX_NUM_CONNECTIONS) :
    ∃ a', (AMux_AddPort pdl (some a) port mask hw).2.1 = some a' ∧ a'.wf ∧
      a'.num_conn ≤ AMUX_MAX_NUM_CONNECTIONS ∧ a.num_conn ≤ a'.num_conn ∧
      a'.amux_sel = a.amux_sel ∧ a'.curr_conn = a.curr_conn ∧
      ∀ c ∈ connList a', c ∈ connList a ∨
        ∃ p, p < 8 ∧ c = pinConnection pdl (portAddrHSIOM pdl port) a.amux_sel p := by
  by_cases hg : port = 0 ∨ a.dma_en = true
  · refine ⟨a, by simp only [AMux_AddPort, if_pos hg], hwf, hn, Nat.le_refl _, rfl, rfl, ?_⟩
    intro c hc
    exact Or.inl hc
  · unfold AMux_AddPort
    simp only [if_neg hg]
    have hmem : ∀ c, c ∈ connList a ++
        ((List.range' 0 CY_GPIO_PINS_MAX).filter (fun p => maskBit mask p)).map
          (pinConnection pdl (portAddrHSIOM pdl port) a.amux_sel) →
        c ∈ connList a ∨
          ∃ p, p < 8 ∧ c = pinConnection pdl (portAddrHSIOM pdl port) a.amux_sel p := by
      intro c hc
      rcases List.mem_append.mp hc with hc | hc
      · exact Or.inl hc
      · right
        obtain ⟨p, hp, rfl⟩ := List.mem_map.mp hc
        have hp' := (List.mem_filter.mp hp).1
        rw [List.mem_range'_1] at hp'
        exact ⟨p, by simpa [CY_GPIO_PINS_MAX] using hp'.2, rfl⟩
    rcases hl : AMux_AddPort_loop pdl (portAddrHSIOM pdl port) mask CY_GPIO_PINS_MAX 0 a
      with ⟨b, a1⟩
    cases b with
    | true =>
      obtain ⟨h1, h2, h3, _, h5, _, _, h8, h9⟩ :=
        AMux_AddPort_loop_ok pdl _ mask _ 0 a a1 hwf hn hl
      refine ⟨a1, rfl, h1, h2, by omega, h3, h5, ?_⟩
      intro c hc
      rw [h8] at hc
      exact hmem c hc
    | false =>
      obtain ⟨h1, h2, h3, _, h5, _, _, h8⟩ :=
        AMux_AddPort_loop_full pdl _ mask _ 0 a a1 hwf hn hl
      refine ⟨a1, rfl, h1, by omega, by omega, h3, h5, ?_⟩
      intro c hc
      rw [h8] at hc
      exact hmem c (List.mem_of_mem_take hc)

theorem keepHandle_some (r : Option amux_t × Hw) (a' : amux_t) (hw' : Hw)
    (h : keepHandle r = some (a', hw')) : r.1 = some a' ∧ r.2 = hw' := by
  obtain ⟨x, hw⟩ := r
  cases x with
  | none => simp [keepHandle] at h
  | some a =>
    simp only [keepHandle, Option.some.injEq, Prod.mk.injEq] at h
    exact ⟨by rw [h.1], h.2⟩

/-- Every public call keeps the array lengths, the capacity bound on num_conn and
the shared bank identity of the connections. -/
theorem applyOp_inv (pdl : Pdl) (op : AmuxOp) (a a' : amux_t) (hw hw' : Hw)
    (h : applyOp pdl op a hw = some (a', hw')) (hwf : a.wf)
    (hn : a.num_conn ≤ AMUX_MAX_NUM_CONNECTIONS) (hb : sameBank a) :
    a'.wf ∧ a'.num_conn ≤ AMUX_MAX_NUM_CONNECTIONS ∧ sameBank a' := by
  have hempty : ∀ b : amux_t, b.num_conn = 0 → sameBank b := by
    intro b hb0 c hc
    simp [connList, hb0] at hc
  cases op with
  | Init sel =>
    have hk := (keepHandle_some _ _ _ h).1
    simp only [AMux_Init] at hk
    split at hk
    · simp only [Option.some.injEq] at hk
      subst hk
      exact ⟨hwf, Nat.zero_le _, hempty _ rfl⟩
    · simp only [Option.some.injEq] at hk
      subst hk
      exact ⟨hwf, Nat.zero_le _, hempty _ rfl⟩
  | AddPort port mask =>
    have hk := (keepHandle_some _ _ _ h).1
    obtain ⟨a1, e1, w1, n1, _, s1, _, m1⟩ := AMux_AddPort_effect pdl a port mask hw hwf hn
    rw [e1] at hk
    simp only [Option.some.injEq] at hk
    subst hk
    refine ⟨w1, n1, ?_⟩
    intro c hc
    rcases m1 c hc with hc | ⟨p, hp, rfl⟩
    · obtain ⟨k, hk, e⟩ := hb c hc
      exact ⟨k, hk, by rw [e, s1]⟩
    · rw [s1]
      by_cases h4 : p < 4
      · exact ⟨p, h4, by simp [pinConnection, CY_GPIO_PRT_HALF, h4]⟩
      · exact ⟨p - 4, by omega, by simp [pinConnection, CY_GPIO_PRT_HALF, h4]⟩
  | Connect index =>
    simp only [applyOp] at h
    cases hr : AMux_Connect (some a) index hw with
    | none => rw [hr] at h; simp at h
    | some r =>
      rw [hr] at h
      have hk := (keepHandle_some _ _ _ h).1
      rcases AMux_Connect_some a index hw r hr with ⟨_, e⟩ | ⟨_, e⟩
      · rw [e] at hk; simp only [Option.some.injEq] at hk; subst hk
        exact ⟨hwf, hn, hb⟩
      · rw [e] at hk; simp only [Option.some.injEq] at hk; subst hk
        exact ⟨hwf, hn, hb⟩
  | ConnectNext =>
    simp only [applyOp] at h
    cases hr : AMux_ConnectNext (some a) hw with
    | none => rw [hr] at h; simp at h
    | some r =>
      rw [hr] at h
      have hk := (keepHandle_some _ _ _ h).1
      rcases AMux_ConnectNext_some a hw r hr with ⟨_, e⟩ | ⟨_, _, c, _, e⟩
      · rw [e] at hk; simp only [Option.some.injEq] at hk; subst hk
        exact ⟨hwf, hn, hb⟩
      · rw [e] at hk; simp only [Option.some.injEq] at hk; subst hk
        exact ⟨hwf, hn, hb⟩
  | DisconnectAll =>
    simp only [applyOp] at h
    cases hr : AMux_DisconnectAll (some a) hw with
    | none => rw [hr] at h; simp at h
    | some r =>
      rw [hr] at h
      have hk := (keepHandle_some _ _ _ h).1
      rw [(AMux_DisconnectAll_some a hw r hr).2] at hk
      simp only [Option.some.injEq] at hk; subst hk
      exact ⟨hwf, hn, hb⟩
  | SetupDMA dma_base dma_chan =>
    simp only [applyOp] at h
    cases hr : AMux_SetupDMA (some a) dma_base dma_chan hw with
    | none => rw [hr] at h; simp at h
    | some r =>
      rw [hr] at h
      have hk := (keepHandle_some _ _ _ h).1
      rcases AMux_SetupDMA_some a dma_base dma_chan hw r hr with e | e
      · rw [e] at hk; simp only [Option.some.injEq] at hk; subst hk
        exact ⟨hwf, hn, hb⟩
      · rw [e] at hk; simp only [Option.some.injEq] at hk; subst hk
        exact ⟨hwf, hn, hb⟩
  | StartDMA =>
    have hk := (keepHandle_some _ _ _ h).1
    simp only [AMux_StartDMA] at hk
    split at hk
    · simp only [Option.some.injEq] at hk; subst hk
      exact ⟨hwf, hn, hb⟩
    · simp only [Option.some.injEq] at hk; subst hk
      exact ⟨hwf, hn, hb⟩
  | StopDMA =>
    have hk := (keepHandle_some _ _ _ h).1
    simp only [AMux_StopDMA] at hk
    split at hk
    · simp only [Option.some.injEq] at hk; subst hk
      exact ⟨hwf, hn, hb⟩
    · simp only [Option.some.injEq] at hk; subst hk
      exact ⟨hwf, hn, hb⟩
  | Deinit =>
    simp only [applyOp] at h
    cases hr : AMux_Deinit (some a) hw with
    | none => rw [hr] at h; simp at h
    | some r =>
      rw [hr] at h
      have hk := (keepHandle_some _ _ _ h).1
      rw [AMux_Deinit_some a hw r hr] at hk
      simp only [Option.some.injEq] at hk; subst hk
      exact ⟨hwf, Nat.zero_le _, hempty _ rfl⟩

/-- The loop of AMux_AddPort writes only at positions from the old num_conn up to
the new one, and the new one is within the capacity. -/
theorem AMux_AddPort_loop_outside (pdl : Pdl) (base mask : Nat) :
    ∀ (todo pinNum : Nat) (a : amux_t), a.num_conn ≤ AMUX_MAX_NUM_CONNECTIONS →
      a.num_conn ≤ (AMux_AddPort_loop pdl base mask todo pinNum a).2.num_conn ∧
      (AMux_AddPort_loop pdl base mask todo pinNum a).2.num_conn ≤ AMUX_MAX_NUM_CONNECTIONS ∧
      ∀ i, i < a.num_conn ∨ (AMux_AddPort_loop pdl base mask todo pinNum a).2.num_conn ≤ i →
        (AMux_AddPort_loop pdl base mask todo pinNum a).2.connect_port[i]? =
          a.connect_port[i]? ∧
        (AMux_AddPort_loop pdl base mask todo pinNum a).2.connect_pin[i]? =
          a.connect_pin[i]? := by
  intro todo
  induction todo with
  | zero => intro pinNum a hn; simp [AMux_AddPort_loop, hn]
  | succ todo ih =>
    intro pinNum a hn
    rw [AMux_AddPort_loop]
    by_cases hcap : a.num_conn < AMUX_MAX_NUM_CONNECTIONS
    · rw [if_pos hcap]
      by_cases hbit : maskBit mask pinNum = true
      · rw [if_pos hbit]
        have hcap' : a.num_conn < 32 := hcap
        have hmod : (a.num_conn + 1) % 256 = a.num_conn + 1 := Nat.mod_eq_of_lt (by omega)
        obtain ⟨g1, g2, g3⟩ := ih (pinNum + 1)
          { a with connect_port := a.connect_port.set a.num_conn
                     (pinConnection pdl base a.amux_sel pinNum).1,
                   connect_pin := a.connect_pin.set a.num_conn
                     (pinConnection pdl base a.amux_sel pinNum).2,
                   num_conn := (a.num_conn + 1) % 256 }
          (by show (a.num_conn + 1) % 256 ≤ 32; omega)
        simp only [hmod] at g1 g2 g3 ⊢
        refine ⟨by omega, g2, ?_⟩
        intro i hi
        obtain ⟨e1, e2⟩ := g3 i (by omega)
        have hne : a.num_conn ≠ i := by omega
        rw [e1, e2]
        simp [List.getElem?_set_ne hne]
      · rw [if_neg hbit]
        exact ih (pinNum + 1) a hn
    · rw [if_neg hcap]
      exact ⟨Nat.le_refl _, hn, fun i _ => ⟨rfl, rfl⟩⟩

/-- The array positions AMux_AddPort writes, whatever its status: only positions
from the old num_conn up to the new one, which is within the capacity. -/
theorem AMux_AddPort_writes (pdl : Pdl) (a : amux_t) (port mask : Nat) (hw : Hw)
    (hn : a.num_conn ≤ AMUX_MAX_NUM_CONNECTIONS) :
    ∃ a', (AMux_AddPort pdl (some a) port mask hw).2.1 = some a' ∧
      a.num_conn ≤ a'.num_conn ∧ a'.num_conn ≤ AMUX_MAX_NUM_CONNECTIONS ∧
      a'.connect_port.length = a.connect_port.length ∧
      a'.connect_pin.length = a.connect_pin.length ∧
      ∀ i, i < a.num_conn ∨ a'.num_conn ≤ i →
        a'.connect_port[i]? = a.connect_port[i]? ∧ a'.connect_pin[i]? = a.connect_pin[i]? := by
  by_cases hg : port = 0 ∨ a.dma_en = true
  · exact ⟨a, by simp only [AMux_AddPort, if_pos hg], Nat.le_refl _, hn, rfl, rfl,
      fun i _ => ⟨rfl, rfl⟩⟩
  · have ho := AMux_AddPort_loop_outside pdl (portAddrHSIOM pdl port) mask CY_GPIO_PINS_MAX 0 a hn
    have hb := AMux_AddPort_loop_bounds pdl (portAddrHSIOM pdl port) mask CY_GPIO_PINS_MAX 0 a
    unfold AMux_AddPort
    simp only [if_neg hg]
    rcases hl : AMux_AddPort_loop pdl (portAddrHSIOM pdl port) mask CY_GPIO_PINS_MAX 0 a
      with ⟨b, a1⟩
    rw [hl] at ho hb
    cases b with
    | true => exact ⟨a1, rfl, ho.1, ho.2.1, hb.1, hb.2.1, ho.2.2⟩
    | false => exact ⟨a1, rfl, ho.1, ho.2.1, hb.1, hb.2.1, ho.2.2⟩

/-- Every public call issued within its index range keeps the cursor the sentinel
or a position of the list. -/
theorem applyOp_cursor (pdl : Pdl) (op : AmuxOp) (a a' : amux_t) (hw hw' : Hw)
    (h : applyOp pdl op a hw = some (a', hw')) (hal : inRangeOp a op = true) (hwf : a.wf)
    (hn : a.num_conn ≤ AMUX_MAX_NUM_CONNECTIONS) (hc : cursorOk a) : cursorOk a' := by
  have hn' : a.num_conn ≤ 32 := hn
  cases op with
  | Init sel =>
    have hk := (keepHandle_some _ _ _ h).1
    simp only [AMux_Init] at hk
    split at hk
    · simp only [Option.some.injEq] at hk
      subst hk
      exact Or.inl rfl
    · simp only [Option.some.injEq] at hk
      subst hk
      exact Or.inl rfl
  | AddPort port mask =>
    have hk := (keepHandle_some _ _ _ h).1
    obtain ⟨a1, e1, _, _, g1, _, c1, _⟩ := AMux_AddPort_effect pdl a port mask hw hwf hn
    rw [e1] at hk
    simp only [Option.some.injEq] at hk
    subst hk
    unfold cursorOk at hc ⊢
    rw [c1]
    rcases hc with hc | hc
    · exact Or.inl hc
    · exact Or.inr (by omega)
  | Connect index =>
    have hidx : index < a.num_conn := by simpa [inRangeOp] using hal
    simp only [applyOp] at h
    cases hr : AMux_Connect (some a) index hw with
    | none => rw [hr] at h; simp at h
    | some r =>
      rw [hr] at h
      have hk := (keepHandle_some _ _ _ h).1
      rcases AMux_Connect_some a index hw r hr with ⟨_, e⟩ | ⟨_, e⟩
      · rw [e] at hk; simp only [Option.some.injEq] at hk; subst hk
        exact hc
      · rw [e] at hk; simp only [Option.some.injEq] at hk; subst hk
        exact Or.inr hidx
  | ConnectNext =>
    simp only [applyOp] at h
    cases hr : AMux_ConnectNext (some a) hw with
    | none => rw [hr] at h; simp at h
    | some r =>
      rw [hr] at h
      have hk := (keepHandle_some _ _ _ h).1
      rcases AMux_ConnectNext_some a hw r hr with ⟨_, e⟩ | ⟨_, _, c, hlt, e⟩
      · rw [e] at hk; simp only [Option.some.injEq] at hk; subst hk
        exact hc
      · rw [e] at hk; simp only [Option.some.injEq] at hk; subst hk
        exact Or.inr hlt
  | DisconnectAll =>
    simp only [applyOp] at h
    cases hr : AMux_DisconnectAll (some a) hw with
    | none => rw [hr] at h; simp at h
    | some r =>
      rw [hr] at h
      have hk := (keepHandle_some _ _ _ h).1
      rw [(AMux_DisconnectAll_some a hw r hr).2] at hk
      simp only [Option.some.injEq] at hk; subst hk
      show (a.num_conn + 255) % 256 = 255 ∨ (a.num_conn + 255) % 256 < a.num_conn
      omega
  | SetupDMA dma_base dma_chan =>
    simp only [applyOp] at h
    cases hr : AMux_SetupDMA (some a) dma_base dma_chan hw with
    | none => rw [hr] at h; simp at h
    | some r =>
      rw [hr] at h
      have hk := (keepHandle_some _ _ _ h).1
      rcases AMux_SetupDMA_some a dma_base dma_chan hw r hr with e | e
      · rw [e] at hk; simp only [Option.some.injEq] at hk; subst hk
        exact hc
      · rw [e] at hk; simp only [Option.some.injEq] at hk; subst hk
        exact Or.inl rfl
  | StartDMA =>
    have hk := (keepHandle_some _ _ _ h).1
    simp only [AMux_StartDMA] at hk
    split at hk
    · simp only [Option.some.injEq] at hk; subst hk
      exact hc
    · simp only [Option.some.injEq] at hk; subst hk
      exact hc
  | StopDMA =>
    have hk := (keepHandle_some _ _ _ h).1
    simp only [AMux_StopDMA] at hk
    split at hk
    · simp only [Option.some.injEq] at hk; subst hk
      exact hc
    · simp only [Option.some.injEq] at hk; subst hk
      exact hc
  | Deinit =>
    simp only [applyOp] at h
    cases hr : AMux_Deinit (some a) hw with
    | none => rw [hr] at h; simp at h
    | some r =>
      rw [hr] at h
      have hk := (keepHandle_some _ _ _ h).1
      rw [AMux_Deinit_some a hw r hr] at hk
      simp only [Option.some.injEq] at hk; subst hk
      exact Or.inl rfl

/-- The invariants of applyOp_inv hold in every state a sequence of calls reaches. -/
theorem runOps_inv (pdl : Pdl) (allowed : amux_t → AmuxOp → Bool) :
    ∀ (ops : List AmuxOp) (a a' : amux_t) (hw hw' : Hw),
      runOps pdl allowed ops a hw = some (a', hw') → a.wf →
      a.num_conn ≤ AMUX_MAX_NUM_CONNECTIONS → sameBank a →
      a'.wf ∧ a'.num_conn ≤ AMUX_MAX_NUM_CONNECTIONS ∧ sameBank a' := by
  intro ops
  induction ops with
  | nil =>
    intro a a' hw hw' h hwf hn hb
    simp only [runOps, Option.some.injEq, Prod.mk.injEq] at h
    rw [← h.1]
    exact ⟨hwf, hn, hb⟩
  | cons op ops ih =>
    intro a a' hw hw' h hwf hn hb
    simp only [runOps] at h
    split at h
    · cases hr : applyOp pdl op a hw with
      | none => rw [hr] at h; simp at h
      | some r =>
        rw [hr] at h
        obtain ⟨a1, hw1⟩ := r
        obtain ⟨w1, n1, b1⟩ := applyOp_inv pdl op a a1 hw hw1 hr hwf hn hb
        exact ih a1 a' hw1 hw' h w1 n1 b1
    · simp at h

/-- The cursor invariant holds in every state reached by calls issued within
their index range. -/
theorem runOps_cursor (pdl : Pdl) :
    ∀ (ops : List AmuxOp) (a a' : amux_t) (hw hw' : Hw),
      runOps pdl inRangeOp ops a hw = some (a', hw') → a.wf →
      a.num_conn ≤ AMUX_MAX_NUM_CONNECTIONS → sameBank a → cursorOk a → cursorOk a' := by
  intro ops
  induction ops with
  | nil =>
    intro a a' hw hw' h hwf hn hb hc
    simp only [runOps, Option.some.injEq, Prod.mk.injEq] at h
    rw [← h.1]
    exact hc
  | cons op ops ih =>
    intro a a' hw hw' h hwf hn hb hc
    simp only [runOps] at h
    split at h
    · rename_i hal
      cases hr : applyOp pdl op a hw with
      | none => rw [hr] at h; simp at h
      | some r =>
        rw [hr] at h
        obtain ⟨a1, hw1⟩ := r
        obtain ⟨w1, n1, b1⟩ := applyOp_inv pdl op a a1 hw hw1 hr hwf hn hb
        exact ih a1 a' hw1 hw' h w1 n1 b1 (applyOp_cursor pdl op a a1 hw hw1 hr hal hwf hn hc)
    · simp at h

/-- The handle a successful AMux_Init leaves: empty list, cursor unknown, the
selection stored, the arrays as they were. -/
theorem AMux_Init_success (pdl : Pdl) (a0 a1 : amux_t) (sel : Nat)
    (h : AMux_Init pdl (some a0) sel = (AMUX_SUCCESS, some a1)) :
    a1 = { a0 with num_conn := 0, curr_conn := AMUX_CONN_UNKNOWN, dma_base := 0,
                   dma_en := false, amux_sel := sel } ∧
    (sel = AMUX_A pdl ∨ sel = AMUX_B pdl) := by
  simp only [AMux_Init] at h
  split at h
  · simp at h
  · rename_i hsel
    simp only [Prod.mk.injEq, Option.some.injEq, true_and] at h
    refine ⟨h.symm, ?_⟩
    by_cases hA : sel = AMUX_A pdl
    · exact Or.inl hA
    · by_cases hB : sel = AMUX_B pdl
      · exact Or.inr hB
      · exact absurd ⟨hA, hB⟩ hsel

/-! ## Invariants of the reachable handle states -/

/-- C24: in every state `a` reached from a successful AMux_Init (on handle memory
`a0`, leaving `a1`) by any sequence `ops` of public calls, successful or
failing, num_conn is at most AMUX_MAX_NUM_CONNECTIONS and the arrays have their
32 entries; and any AMux_AddPort call issued in that state changes
connect_port and connect_pin only at positions from the old num_conn up to the
new one, all of them below 32. -/
theorem C24_num_conn_within_capacity (pdl : Pdl) (a0 a1 a : amux_t) (sel : Nat)
    (ops : List AmuxOp) (hw : Hw) (hwf : a0.wf)
    (hinit : AMux_Init pdl (some a0) sel = (AMUX_SUCCESS, some a1))
    (hrun : (runOps pdl anyOp ops a1 hw).map Prod.fst = some a) :
    a.num_conn ≤ AMUX_MAX_NUM_CONNECTIONS ∧ a.wf ∧
    ∀ (port mask : Nat) (hw2 : Hw),
      ∃ a2, (AMux_AddPort pdl (some a) port mask hw2).2.1 = some a2 ∧ a2.wf ∧
        a2.num_conn ≤ AMUX_MAX_NUM_CONNECTIONS ∧
        ∀ i, a2.connect_port[i]? ≠ a.connect_port[i]? ∨
            a2.connect_pin[i]? ≠ a.connect_pin[i]? →
          a.num_conn ≤ i ∧ i < a2.num_conn ∧ i < AMUX_MAX_NUM_CONNECTIONS := by
  obtain ⟨e1, _⟩ := AMux_Init_success pdl a0 a1 sel hinit
  obtain ⟨⟨a', hw'⟩, hr, ha⟩ := Option.map_eq_some'.mp hrun
  simp only at ha
  subst ha
  have hb1 : sameBank a1 := by
    intro c hc
    rw [e1] at hc
    simp [connList] at hc
  obtain ⟨w, n, _⟩ := runOps_inv pdl anyOp ops a1 a' hw hw' hr
    (by rw [e1]; exact hwf) (by rw [e1]; exact Nat.zero_le _) hb1
  refine ⟨n, w, ?_⟩
  intro port mask hw2
  obtain ⟨a2, e2, g1, g2, l1, l2, g3⟩ := AMux_AddPort_writes pdl a' port mask hw2 n
  refine ⟨a2, e2, ⟨l1.trans w.1, l2.trans w.2⟩, g2, ?_⟩
  intro i hi
  have hin : ¬ (i < a'.num_conn ∨ a2.num_conn ≤ i) := by
    intro hout
    obtain ⟨p1, p2⟩ := g3 i hout
    rcases hi with hi | hi
    · exact hi p1
    · exact hi p2
  have g2' : a2.num_conn ≤ 32 := g2
  show a'.num_conn ≤ i ∧ i < a2.num_conn ∧ i < 32
  omega

/-- C24 at a concrete input: the eight calls of sampleOps after AMux_Init with
selection 7. -/
theorem C24_num_conn_within_capacity_witness :
    blankHandle.wf ∧
    AMux_Init psoc6 (some blankHandle) 7 = (AMUX_SUCCESS, some initHandle) ∧
    (runOps psoc6 anyOp sampleOps initHandle blankHw).map Prod.fst = some sampleReached ∧
    (sampleReached.num_conn ≤ AMUX_MAX_NUM_CONNECTIONS ∧ sampleReached.wf ∧
    ∀ (port mask : Nat) (hw2 : Hw),
      ∃ a2, (AMux_AddPort psoc6 (some sampleReached) port mask hw2).2.1 = some a2 ∧ a2.wf ∧
        a2.num_conn ≤ AMUX_MAX_NUM_CONNECTIONS ∧
        ∀ i, a2.connect_port[i]? ≠ sampleReached.connect_port[i]? ∨
            a2.connect_pin[i]? ≠ sampleReached.connect_pin[i]? →
          sampleReached.num_conn ≤ i ∧ i < a2.num_conn ∧ i < AMUX_MAX_NUM_CONNECTIONS) :=
  ⟨by decide, by decide, by decide,
    C24_num_conn_within_capacity psoc6 blankHandle initHandle sampleReached 7 sampleOps blankHw
      (by decide) (by decide) (by decide)⟩

/-- C25: in every state `a` reached from a successful AMux_Init by any sequence
of public calls (a later AMux_Init with the other selection included), every
connection i < num_conn has connect_pin[i] equal to the current selection
amux_sel shifted left by 8*k bits, as a 32-bit word, for some k in 0..3. -/
theorem C25_same_bank_identity (pdl : Pdl) (a0 a1 a : amux_t) (sel : Nat)
    (ops : List AmuxOp) (hw : Hw) (hwf : a0.wf)
    (hinit : AMux_Init pdl (some a0) sel = (AMUX_SUCCESS, some a1))
    (hrun : (runOps pdl anyOp ops a1 hw).map Prod.fst = some a) :
    ∀ i, i < a.num_conn → ∃ k, k < 4 ∧ a.pin i = (a.amux_sel <<< (8 * k)) % 2 ^ 32 := by
  obtain ⟨e1, _⟩ := AMux_Init_success pdl a0 a1 sel hinit
  obtain ⟨⟨a', hw'⟩, hr, ha⟩ := Option.map_eq_some'.mp hrun
  simp only at ha
  subst ha
  have hb1 : sameBank a1 := by
    intro c hc
    rw [e1] at hc
    simp [connList] at hc
  obtain ⟨_, _, b⟩ := runOps_inv pdl anyOp ops a1 a' hw hw' hr
    (by rw [e1]; exact hwf) (by rw [e1]; exact Nat.zero_le _) hb1
  intro i hi
  exact b (a'.port i, a'.pin i)
    (List.mem_map.mpr ⟨i, List.mem_range.mpr hi, rfl⟩)

/-- C25 at a concrete input: a set built on selection 7, then AMux_Init with
selection 6 and a new set. -/
theorem C25_same_bank_identity_witness :
    blankHandle.wf ∧
    AMux_Init psoc6 (some blankHandle) 7 = (AMUX_SUCCESS, some initHandle) ∧
    (runOps psoc6 anyOp reselectOps initHandle blankHw).map Prod.fst = some reselectReached ∧
    ∀ i, i < reselectReached.num_conn →
      ∃ k, k < 4 ∧ reselectReached.pin i = (reselectReached.amux_sel <<< (8 * k)) % 2 ^ 32 :=
  ⟨by decide, by decide, by decide,
    C25_same_bank_identity psoc6 blankHandle initHandle reselectReached 7 reselectOps blankHw
      (by decide) (by decide) (by decide)⟩

/-- C26: in every state `a` reached from a successful AMux_Init by any sequence
of AMux_Init, AMux_AddPort, AMux_Connect with index < num_conn, AMux_ConnectNext
on a non-empty set, AMux_DisconnectAll, AMux_SetupDMA, AMux_StartDMA,
AMux_StopDMA and AMux_Deinit calls, the cursor is AMUX_CONN_UNKNOWN (0xFF) or a
position strictly below num_conn; and 0xFF is no position of the list, since
num_conn is at most 32. -/
theorem C26_cursor_unknown_or_valid (pdl : Pdl) (a0 a1 a : amux_t) (sel : Nat)
    (ops : List AmuxOp) (hw : Hw) (hwf : a0.wf)
    (hinit : AMux_Init pdl (some a0) sel = (AMUX_SUCCESS, some a1))
    (hrun : (runOps pdl inRangeOp ops a1 hw).map Prod.fst = some a) :
    (a.curr_conn = AMUX_CONN_UNKNOWN ∨ a.curr_conn < a.num_conn) ∧
    a.num_conn ≤ AMUX_MAX_NUM_CONNECTIONS ∧ AMUX_CONN_UNKNOWN = 0xFF ∧
    ¬ AMUX_CONN_UNKNOWN < a.num_conn := by
  obtain ⟨e1, _⟩ := AMux_Init_success pdl a0 a1 sel hinit
  obtain ⟨⟨a', hw'⟩, hr, ha⟩ := Option.map_eq_some'.mp hrun
  simp only at ha
  subst ha
  have hb1 : sameBank a1 := by
    intro c hc
    rw [e1] at hc
    simp [connList] at hc
  have hw1 : a1.wf := by rw [e1]; exact hwf
  have hn1 : a1.num_conn ≤ AMUX_MAX_NUM_CONNECTIONS := by rw [e1]; exact Nat.zero_le _
  have hc1 : cursorOk a1 := by rw [e1]; exact Or.inl rfl
  obtain ⟨_, n, _⟩ := runOps_inv pdl inRangeOp ops a1 a' hw hw' hr hw1 hn1 hb1
  have c := runOps_cursor pdl ops a1 a' hw hw' hr hw1 hn1 hb1 hc1
  have n' : a'.num_conn ≤ 32 := n
  refine ⟨c, n, rfl, ?_⟩
  show ¬ 255 < a'.num_conn
  omega

/-- C26 at a concrete input: three connections, the cursor moved to the last
position, wrapped to 0, set to the last position by AMux_DisconnectAll and
wrapped again. -/
theorem C26_cursor_unknown_or_valid_witness :
    blankHandle.wf ∧
    AMux_Init psoc6 (some blankHandle) 7 = (AMUX_SUCCESS, some initHandle) ∧
    (runOps psoc6 inRangeOp cursorOps initHandle blankHw).map Prod.fst = some cursorReached ∧
    ((cursorReached.curr_conn = AMUX_CONN_UNKNOWN ∨
        cursorReached.curr_conn < cursorReached.num_conn) ∧
      cursorReached.num_conn ≤ AMUX_MAX_NUM_CONNECTIONS ∧ AMUX_CONN_UNKNOWN = 0xFF ∧
      ¬ AMUX_CONN_UNKNOWN < cursorReached.num_conn) :=
  ⟨by decide, by decide, by decide,
    C26_cursor_unknown_or_valid psoc6 blankHandle initHandle cursorReached 7 cursorOps blankHw
      (by decide) (by decide) (by decide)⟩

/-! ## Sampler_SetScanRate, Sampler_Configure and Sampler_SetupDMA -/

/-- A call of Sampler_SetScanRate that returns SAMPLER_SUCCESS has programmed the
period clk / rate and the compare value timerCompare clk acq, in this order,
and nothing else. -/
theorem Sampler_SetScanRate_success (clk : Nat) (s : sampler_t) (rate acq : Nat)
    (hw : SamplerHw)
    (hok : (Sampler_SetScanRate clk (some s) rate acq hw).1 = SAMPLER_SUCCESS) :
    Sampler_SetScanRate clk (some s) rate acq hw =
      (SAMPLER_SUCCESS, some s,
        { hw with calls := hw.calls ++
            [SamplerCall.TCPWM_Counter_SetPeriod s.timer_base s.timer_chan (clk / rate),
             SamplerCall.TCPWM_Counter_SetCompare0 s.timer_base s.timer_chan
               (timerCompare clk acq)] }) := by
  unfold Sampler_SetScanRate at hok ⊢
  simp only at hok ⊢
  split at hok
  · simp at hok
  · rename_i h1
    split at hok
    · simp at hok
    · rename_i h2
      rw [if_neg h1, if_neg h2]
      rfl

/-- C27: a successful Sampler_SetScanRate programs the compare threshold
timerCompare clk a, the expression ((clk + 500000) / 1000000 * a) / 1000
evaluated in 32-bit unsigned arithmetic.  With M = (clk + 500000) / 1000000,
which is clk in MHz rounded to nearest with ties rounded up
(1000000 * M ≤ clk + 500000 < 1000000 * (M + 1)), the threshold is
floor(M * a / 1000) whenever clk + 500000 < 2^32 and M * a < 2^32; for
clk = 100000000 and a = 180 it is 18. -/
theorem C27_compare_threshold (clk : Nat) (s : sampler_t) (rate a : Nat) (hw : SamplerHw)
    (hok : (Sampler_SetScanRate clk (some s) rate a hw).1 = SAMPLER_SUCCESS) :
    (Sampler_SetScanRate clk (some s) rate a hw).2.2.calls = hw.calls ++
      [SamplerCall.TCPWM_Counter_SetPeriod s.timer_base s.timer_chan (clk / rate),
       SamplerCall.TCPWM_Counter_SetCompare0 s.timer_base s.timer_chan (timerCompare clk a)] ∧
    timerCompare clk a =
      ((((clk + 500000) % 2 ^ 32) / 1000000 * a) % 2 ^ 32) / 1000 ∧
    (clk + 500000 < 2 ^ 32 → (clk + 500000) / 1000000 * a < 2 ^ 32 →
      timerCompare clk a = ((clk + 500000) / 1000000 * a) / 1000) ∧
    (1000000 * ((clk + 500000) / 1000000) ≤ clk + 500000 ∧
      clk + 500000 < 1000000 * ((clk + 500000) / 1000000 + 1)) ∧
    timerCompare 100000000 180 = 18 := by
  refine ⟨?_, rfl, ?_, ?_, by decide⟩
  · rw [Sampler_SetScanRate_success clk s rate a hw hok]
  · intro h1 h2
    unfold timerCompare
    rw [Nat.mod_eq_of_lt h1, Nat.mod_eq_of_lt h2]
  · constructor
    · exact Nat.mul_div_le _ _
    · exact Nat.lt_mul_div_succ _ (by decide)

/-- C27 at a concrete input: the clock 100 MHz, the scan rate 920 kHz and the
acquisition time 180 ns of main.c. -/
theorem C27_compare_threshold_witness :
    (Sampler_SetScanRate 100000000 (some sampleSampler) 920000 180 blankSamplerHw).1 =
      SAMPLER_SUCCESS ∧
    ((Sampler_SetScanRate 100000000 (some sampleSampler) 920000 180 blankSamplerHw).2.2.calls =
        blankSamplerHw.calls ++
      [SamplerCall.TCPWM_Counter_SetPeriod sampleSampler.timer_base sampleSampler.timer_chan
         (100000000 / 920000),
       SamplerCall.TCPWM_Counter_SetCompare0 sampleSampler.timer_base sampleSampler.timer_chan
         (timerCompare 100000000 180)] ∧
    timerCompare 100000000 180 =
      ((((100000000 + 500000) % 2 ^ 32) / 1000000 * 180) % 2 ^ 32) / 1000 ∧
    (100000000 + 500000 < 2 ^ 32 → (100000000 + 500000) / 1000000 * 180 < 2 ^ 32 →
      timerCompare 100000000 180 = ((100000000 + 500000) / 1000000 * 180) / 1000) ∧
    (1000000 * ((100000000 + 500000) / 1000000) ≤ 100000000 + 500000 ∧
      100000000 + 500000 < 1000000 * ((100000000 + 500000) / 1000000 + 1)) ∧
    timerCompare 100000000 180 = 18) :=
  ⟨by decide,
    C27_compare_threshold 100000000 sampleSampler 920000 180 blankSamplerHw (by decide)⟩

/-- C28, the claim as stated fails: with the clock at 100 MHz, the scan rate
920 kHz of main.c and an acquisition time of 2000 ns, Sampler_SetScanRate
returns SAMPLER_SUCCESS after programming the period 108 and the compare
threshold 200, which is not below the period. -/
theorem C28_counterexample :
    Sampler_SetScanRate 100000000 (some sampleSampler) 920000 2000 blankSamplerHw =
      (SAMPLER_SUCCESS, some sampleSampler,
        { blankSamplerHw with calls :=
            [SamplerCall.TCPWM_Counter_SetPeriod 0x40380000 0 108,
             SamplerCall.TCPWM_Counter_SetCompare0 0x40380000 0 200] }) ∧
    ¬ 200 < 108 := by
  decide

/-- C28 as amended: a successful Sampler_SetScanRate programs the period
clk / rate and the compare threshold timerCompare clk a one after the other
without comparing them; the threshold is strictly below the period exactly when
the 32-bit product M * a, with M = (clk + 500000) / 1000000, is below
1000 * (clk / rate). -/
theorem C28_compare_below_period_iff (clk : Nat) (s : sampler_t) (rate a : Nat)
    (hw : SamplerHw)
    (hok : (Sampler_SetScanRate clk (some s) rate a hw).1 = SAMPLER_SUCCESS) :
    (Sampler_SetScanRate clk (some s) rate a hw).2.2.calls = hw.calls ++
      [SamplerCall.TCPWM_Counter_SetPeriod s.timer_base s.timer_chan (clk / rate),
       SamplerCall.TCPWM_Counter_SetCompare0 s.timer_base s.timer_chan (timerCompare clk a)] ∧
    (timerCompare clk a < clk / rate ↔
      (((clk + 500000) % 2 ^ 32) / 1000000 * a) % 2 ^ 32 < 1000 * (clk / rate)) := by
  refine ⟨?_, ?_⟩
  · rw [Sampler_SetScanRate_success clk s rate a hw hok]
  · unfold timerCompare
    rw [Nat.div_lt_iff_lt_mul (by decide), Nat.mul_comm 1000]

/-- C28 as amended, at the values of main.c: period 108, threshold 18. -/
theorem C28_compare_below_period_iff_witness :
    (Sampler_SetScanRate 100000000 (some sampleSampler) 920000 180 blankSamplerHw).1 =
      SAMPLER_SUCCESS ∧
    ((Sampler_SetScanRate 100000000 (some sampleSampler) 920000 180 blankSamplerHw).2.2.calls =
        blankSamplerHw.calls ++
      [SamplerCall.TCPWM_Counter_SetPeriod sampleSampler.timer_base sampleSampler.timer_chan
         (100000000 / 920000),
       SamplerCall.TCPWM_Counter_SetCompare0 sampleSampler.timer_base sampleSampler.timer_chan
         (timerCompare 100000000 180)] ∧
    (timerCompare 100000000 180 < 100000000 / 920000 ↔
      (((100000000 + 500000) % 2 ^ 32) / 1000000 * 180) % 2 ^ 32 <
        1000 * (100000000 / 920000))) :=
  ⟨by decide,
    C28_compare_below_period_iff 100000000 sampleSampler 920000 180 blankSamplerHw
      (by decide)⟩

/-- C29, the claim as stated fails: on the handle Sampler_Deinit leaves (timer
reference absent) Sampler_Configure with 4 channels returns SAMPLER_SUCCESS and
binds the buffer and the channel count. -/
theorem C29_counterexample :
    (Sampler_Deinit (some sampleSampler) blankSamplerHw).1 = some detachedSampler ∧
    detachedSampler.timer_base = 0 ∧
    Sampler_Configure (some detachedSampler) 4 0x08000000 =
      (SAMPLER_SUCCESS,
        some { detachedSampler with samples_ptr := 0x08000000, num_channels := 4 }) := by
  decide

/-- C29 as amended: Sampler_Configure does not read the converter and timer
references.  On every non-null handle `s`, references bound or absent, it
returns SAMPLER_SUCCESS and binds buffer and channel count for a count `n` of
at most SAMPLER_MAX_NUM_CHANNELS, and returns SAMPLER_ERROR with the handle
unchanged for a larger count `m`; on a NULL handle it returns SAMPLER_ERROR. -/
theorem C29_configure_ignores_references (s : sampler_t) (n m buf : Nat)
    (hn : n ≤ SAMPLER_MAX_NUM_CHANNELS) (hm : SAMPLER_MAX_NUM_CHANNELS < m) :
    Sampler_Configure (some s) n buf =
      (SAMPLER_SUCCESS, some { s with samples_ptr := buf, num_channels := n }) ∧
    Sampler_Configure (some s) m buf = (SAMPLER_ERROR, some s) ∧
    Sampler_Configure none n buf = (SAMPLER_ERROR, none) := by
  refine ⟨?_, ?_, rfl⟩
  · simp [Sampler_Configure, Nat.not_lt.mpr hn]
  · simp [Sampler_Configure, hm]

/-- C29 as amended, on the handle of the counterexample, with the counts 4
and 33. -/
theorem C29_configure_ignores_references_witness :
    4 ≤ SAMPLER_MAX_NUM_CHANNELS ∧ SAMPLER_MAX_NUM_CHANNELS < 33 ∧
    (Sampler_Configure (some detachedSampler) 4 0x08000000 =
      (SAMPLER_SUCCESS,
        some { detachedSampler with samples_ptr := 0x08000000, num_channels := 4 }) ∧
    Sampler_Configure (some detachedSampler) 33 0x08000000 =
      (SAMPLER_ERROR, some detachedSampler) ∧
    Sampler_Configure none 4 0x08000000 = (SAMPLER_ERROR, none)) :=
  ⟨by decide, by decide,
    C29_configure_ignores_references detachedSampler 4 33 0x08000000 (by decide) (by decide)⟩

/-- C30: on a handle `s` with converter and timer references bound
Sampler_SetupDMA returns SAMPLER_SUCCESS, stores the engine channel in the
handle, and leaves the streaming descriptor with destination the bound sample
buffer, source slot 0 of the converter result region, X-loop element count
num_channels as bound at the call, and itself as successor; its one driver
call is Cy_DMA_Channel_Init, with the constant channel configuration whose
enable field is false.  On a handle `t` with either reference absent it returns
SAMPLER_ERROR and leaves handle, descriptor and call trace as they were. -/
theorem C30_setup_streaming_descriptor (s t : sampler_t) (dma_base dma_chan : Nat)
    (hw : SamplerHw) (hsar : s.sar_base ≠ 0) (htimer : s.timer_base ≠ 0)
    (ht : t.sar_base = 0 ∨ t.timer_base = 0) :
    (Sampler_SetupDMA (some s) dma_base dma_chan hw).1 = SAMPLER_SUCCESS ∧
    (Sampler_SetupDMA (some s) dma_base dma_chan hw).2.1 =
      some { s with dma_base := dma_base, dma_chan := dma_chan % 256 } ∧
    (Sampler_SetupDMA (some s) dma_base dma_chan hw).2.2.sampler_dma_descriptor.dstAddress =
      s.samples_ptr ∧
    (Sampler_SetupDMA (some s) dma_base dma_chan hw).2.2.sampler_dma_descriptor.srcAddress =
      SamplerSrc.CHAN_RESULT s.sar_base 0 ∧
    (Sampler_SetupDMA (some s) dma_base dma_chan hw).2.2.sampler_dma_descriptor.xCount =
      s.num_channels ∧
    (Sampler_SetupDMA (some s) dma_base dma_chan hw).2.2.sampler_dma_descriptor.nextDescriptor =
      SamplerNext.sampler_dma_descriptor ∧
    (Sampler_SetupDMA (some s) dma_base dma_chan hw).2.2.calls =
      hw.calls ++ [SamplerCall.DMA (DmaCall.Channel_Init dma_base dma_chan 0)] ∧
    sampler_dma_channel_config.enable = false ∧
    Sampler_SetupDMA (some t) dma_base dma_chan hw = (SAMPLER_ERROR, some t, hw) := by
  refine ⟨?_, ?_, ?_, ?_, ?_, ?_, ?_, rfl, ?_⟩ <;>
    simp [Sampler_SetupDMA, hsar, htimer, ht, Cy_DMA_Descriptor_SetXloopDataCount,
      sampler_dma_descriptor_config]

/-- C30 at concrete inputs: a handle configured for 4 channels, and the handle
with the timer reference absent. -/
theorem C30_setup_streaming_descriptor_witness :
    configuredSampler.sar_base ≠ 0 ∧ configuredSampler.timer_base ≠ 0 ∧
    (detachedSampler.sar_base = 0 ∨ detachedSampler.timer_base = 0) ∧
    ((Sampler_SetupDMA (some configuredSampler) 5 1 blankSamplerHw).1 = SAMPLER_SUCCESS ∧
    (Sampler_SetupDMA (some configuredSampler) 5 1 blankSamplerHw).2.1 =
      some { configuredSampler with dma_base := 5, dma_chan := 1 % 256 } ∧
    (Sampler_SetupDMA (some configuredSampler) 5 1
      blankSamplerHw).2.2.sampler_dma_descriptor.dstAddress = configuredSampler.samples_ptr ∧
    (Sampler_SetupDMA (some configuredSampler) 5 1
      blankSamplerHw).2.2.sampler_dma_descriptor.srcAddress =
      SamplerSrc.CHAN_RESULT configuredSampler.sar_base 0 ∧
    (Sampler_SetupDMA (some configuredSampler) 5 1
      blankSamplerHw).2.2.sampler_dma_descriptor.xCount = configuredSampler.num_channels ∧
    (Sampler_SetupDMA (some configuredSampler) 5 1
      blankSamplerHw).2.2.sampler_dma_descriptor.nextDescriptor =
      SamplerNext.sampler_dma_descriptor ∧
    (Sampler_SetupDMA (some configuredSampler) 5 1 blankSamplerHw).2.2.calls =
      blankSamplerHw.calls ++ [SamplerCall.DMA (DmaCall.Channel_Init 5 1 0)] ∧
    sampler_dma_channel_config.enable = false ∧
    Sampler_SetupDMA (some detachedSampler) 5 1 blankSamplerHw =
      (SAMPLER_ERROR, some detachedSampler, blankSamplerHw)) :=
  ⟨by decide, by decide, by decide,
    C30_setup_streaming_descriptor configuredSampler detachedSampler 5 1 blankSamplerHw
      (by decide) (by decide) (by decide)⟩

/-! ## The empty connection set -/

/-- C31: on a handle with an empty connection set (num_conn = 0)
AMux_DisconnectAll returns AMUX_SUCCESS, leaves the hardware (registers and
write trace) as it was, and sets the cursor to the 8-bit value of 0 - 1, which
is 255, the sentinel AMUX_CONN_UNKNOWN, and no position of the list. -/
theorem C31_disconnectAll_empty_set (a : amux_t) (hw : Hw) (h0 : a.num_conn = 0) :
    AMux_DisconnectAll (some a) hw =
      some (AMUX_SUCCESS, some { a with curr_conn := 255 }, hw) ∧
    (0 + 255) % 2 ^ 8 = 255 ∧ AMUX_CONN_UNKNOWN = 255 ∧ ¬ 255 < a.num_conn := by
  refine ⟨?_, by decide, rfl, by omega⟩
  simp [AMux_DisconnectAll, h0, AMux_DisconnectAll_loop]

/-- C31 at a concrete input: the handle AMux_Init leaves. -/
theorem C31_disconnectAll_empty_set_witness :
    initHandle.num_conn = 0 ∧
    (AMux_DisconnectAll (some initHandle) blankHw =
      some (AMUX_SUCCESS, some { initHandle with curr_conn := 255 }, blankHw) ∧
    (0 + 255) % 2 ^ 8 = 255 ∧ AMUX_CONN_UNKNOWN = 255 ∧ ¬ 255 < initHandle.num_conn) :=
  ⟨by decide, C31_disconnectAll_empty_set initHandle blankHw (by decide)⟩

/-- C32, the code on the failing inputs: on every non-armed handle with an empty
connection set AMux_ConnectNext does not return AMUX_ERROR; it has no test of
num_conn and goes on to the remainder (cursor + 1) % num_conn with num_conn = 0,
which has no defined result.  The only tests it makes are those for the NULL
handle and the armed flag.  The handle AMux_Init leaves is such an input. -/
theorem C32_connectNext_empty_set_undefined (a : amux_t) (hw : Hw) :
    AMux_ConnectNext (some { a with dma_en := false, num_conn := 0 }) hw = none ∧
    AMux_ConnectNext (some { a with dma_en := true, num_conn := 0 }) hw =
      some (AMUX_ERROR, some { a with dma_en := true, num_conn := 0 }, hw) ∧
    AMux_ConnectNext none hw = some (AMUX_ERROR, none, hw) ∧
    initHandle.dma_en = false ∧ initHandle.num_conn = 0 ∧
    AMux_ConnectNext (some initHandle) blankHw = none := by
  refine ⟨?_, by simp [AMux_ConnectNext], rfl, by decide, by decide, rfl⟩
  by_cases hu : a.curr_conn = AMUX_CONN_UNKNOWN
  · simp [AMux_ConnectNext, hu, AMux_DisconnectAll, AMux_DisconnectAll_loop]
  · cases hp : a.connect_port[a.curr_conn]? with
    | none => simp [AMux_ConnectNext, hu, hp]
    | some p => simp [AMux_ConnectNext, hu, hp]

/-! ## The handoff to the transfer engine -/

theorem allClear_storeWord_zero (a : amux_t) (regs : Nat → Nat) (x : Nat)
    (h : allClear a regs) : allClear a (storeWord regs x 0) := by
  intro j hj
  unfold storeWord
  by_cases e : a.port j = x
  · rw [if_pos e]
  · rw [if_neg e]
    exact h j hj

/-- From a state with a position as cursor in which the registers of the set
are all clear or exactly the connection of the cursor is asserted, consecutive
AMux_ConnectNext calls keep exactly the connection of the cursor asserted. -/
theorem connectNextN_oneAsserted (m : Nat) :
    ∀ (a : amux_t) (hw : Hw), a.wf → a.dma_en = false → 1 ≤ a.num_conn →
      a.num_conn ≤ AMUX_MAX_NUM_CONNECTIONS → a.curr_conn < a.num_conn →
      (allClear a hw.regs ∨ oneAsserted a hw.regs) →
      ∃ a' hw', connectNextN m (some a) hw = some (some a', hw') ∧
        a'.connect_port = a.connect_port ∧ a'.connect_pin = a.connect_pin ∧
        a'.num_conn = a.num_conn ∧ (1 ≤ m → oneAsserted a' hw'.regs) := by
  induction m with
  | zero =>
    intro a hw _ _ _ _ _ _
    exact ⟨a, hw, rfl, rfl, rfl, rfl, fun h => by omega⟩
  | succ m ih =>
    intro a hw hwf hen h1 hn hc hst
    have e := AMux_ConnectNext_known a hw hwf hen h1 hn hc
    have hlt : (a.curr_conn + 1) % a.num_conn < a.num_conn := Nat.mod_lt _ (by omega)
    have hcl : allClear a (storeWord hw.regs (a.port a.curr_conn) 0) := by
      rcases hst with hst | hst
      · exact allClear_storeWord_zero a hw.regs _ hst
      · exact allClear_of_oneAsserted a hw.regs hst
    have hone := oneAsserted_of_allClear a _ ((a.curr_conn + 1) % a.num_conn) hcl hlt
    obtain ⟨a', hw', e', p1, p2, p3, p4⟩ :=
      ih { a with curr_conn := (a.curr_conn + 1) % a.num_conn }
        (CY_SET_REG32 (a.port ((a.curr_conn + 1) % a.num_conn))
          (a.pin ((a.curr_conn + 1) % a.num_conn)) (CY_SET_REG32 (a.port a.curr_conn) 0 hw))
        hwf hen h1 hn hlt (Or.inr hone)
    refine ⟨a', hw', ?_, p1, p2, p3, ?_⟩
    · simp only [connectNextN, e]
      exact e'
    · intro _
      by_cases hm : 1 ≤ m
      · exact p4 hm
      · have hm0 : m = 0 := by omega
        subst hm0
        simp only [connectNextN, Option.some.injEq, Prod.mk.injEq] at e'
        obtain ⟨ea, eh⟩ := e'
        rw [← ea, ← eh]
        exact hone

/-- C33, the claim as stated fails: on the three-connection handle that
AMux_Init and two AMux_AddPort calls build, the calls AMux_SetupDMA,
AMux_Connect(1) and AMux_StartDMA all return AMUX_SUCCESS; when AMux_StartDMA
returns, the register of connection 1 holds 7, and after the first
clear/assert descriptor pair the registers of connections 0 and 1 are both
non-zero. -/
theorem C33_counterexample :
    (runOps psoc6 anyOp [AmuxOp.AddPort GPIO_PRT9 0x11, AmuxOp.AddPort GPIO_PRT10 0x01]
      initHandle blankHw).map Prod.fst = some threePinHandle ∧
    (handoffAfterConnect threePinHandle 5 1 1 blankHw).map
      (fun r => (r.1, r.2.1 (threePinHandle.port 1),
        r.2.2.map (fun regs => (regs (threePinHandle.port 0), regs (threePinHandle.port 1),
          regs (threePinHandle.port 2))))) =
      some ([AMUX_SUCCESS, AMUX_SUCCESS, AMUX_SUCCESS], 7, some (7, 7, 0)) ∧
    threePinHandle.port 0 ≠ threePinHandle.port 1 := by
  decide

/-- C33 as amended: when AMux_StartDMA directly follows a successful
AMux_SetupDMA on a non-armed handle with K >= 1 connections whose registers
have non-zero addresses, both calls succeed, every register of the connection
set is 0 when AMux_StartDMA enables the channel, and after the n-th clear/assert
descriptor pair executed from descriptor 0, for every n >= 1, the register of
connection (n - 1) mod K holds that connection's value and every other register
of the set is 0, so at most one register of the set is non-zero. -/
theorem C33_handoff_after_setup (a : amux_t) (hw : Hw) (dma_base dma_chan : Nat)
    (hwf : a.wf) (hen : a.dma_en = false) (h1 : 1 ≤ a.num_conn)
    (hn : a.num_conn ≤ AMUX_MAX_NUM_CONNECTIONS)
    (hd : hw.amux_dma_descriptor.length = 2 * AMUX_MAX_NUM_CONNECTIONS)
    (hbase : dma_base ≠ 0) (hnz : ∀ j, j < a.num_conn → a.port j ≠ 0) :
    ∃ a1 hw1 a2 hw2,
      AMux_SetupDMA (some a) dma_base dma_chan hw = some (AMUX_SUCCESS, some a1, hw1) ∧
      AMux_StartDMA (some a1) hw1 = (AMUX_SUCCESS, some a2, hw2) ∧ a2.dma_en = true ∧
      allClear a hw2.regs ∧
      ∀ n, 1 ≤ n → ∃ regs slot,
        dmaRun a2 hw2.amux_dma_descriptor (2 * n) 0 hw2.regs = some (regs, slot) ∧
        regs (a.port ((n - 1) % a.num_conn)) = a.pin ((n - 1) % a.num_conn) ∧
        (∀ j, j < a.num_conn → a.port j ≠ a.port ((n - 1) % a.num_conn) →
          regs (a.port j) = 0) ∧
        ∀ j k, j < a.num_conn → k < a.num_conn → regs (a.port j) ≠ 0 →
          regs (a.port k) ≠ 0 → a.port j = a.port k := by
  obtain ⟨descs, hwl, eloop, _, _, eset, esetup⟩ :=
    AMux_SetupDMA_eq a dma_base dma_chan hw hwf hen h1 hn hd hbase
  have hclear : allClear a hwl.regs := allClear_of_loop a hw hwl eloop hnz
  refine ⟨_, _, _, _, esetup, AMux_StartDMA_eq _ _ hbase, rfl, hclear, ?_⟩
  intro n hn1
  obtain ⟨ac, hwc, e, d, k1, _⟩ := dmaRun_connectNextN
    { a with dma_base := dma_base, dma_chan := dma_chan, curr_conn := AMUX_CONN_UNKNOWN,
             dma_en := true }
    descs hwf n { a with curr_conn := a.num_conn - 1 } hwl hwf hen h1 hn
    (by show a.num_conn - 1 < a.num_conn; omega) rfl eset
  obtain ⟨a', hw', e', p1, p2, p3, p4⟩ := connectNextN_oneAsserted n
    { a with curr_conn := a.num_conn - 1 } hwl hwf hen h1 hn
    (by show a.num_conn - 1 < a.num_conn; omega) (Or.inl hclear)
  rw [e] at e'
  simp only [Option.some.injEq, Prod.mk.injEq] at e'
  obtain ⟨ea, eh⟩ := e'
  subst ea
  subst eh
  have hz : (a.num_conn - 1 + 1) % a.num_conn = 0 := by
    rw [Nat.sub_add_cancel h1, Nat.mod_self]
  have hc : ac.curr_conn = (n - 1) % a.num_conn := by
    rw [k1]
    show (a.num_conn - 1 + n) % a.num_conn = (n - 1) % a.num_conn
    have : a.num_conn - 1 + n = n - 1 + a.num_conn := by omega
    rw [this, Nat.add_mod_right]
  have hport : ∀ j, ac.port j = a.port j := by
    intro j
    simp only [amux_t.port, p1]
  have hpin : ∀ j, ac.pin j = a.pin j := by
    intro j
    simp only [amux_t.pin, p2]
  obtain ⟨_, o2, o3⟩ := p4 hn1
  have p3' : ac.num_conn = a.num_conn := p3
  rw [hport, hpin, hc] at o2
  have o3' : ∀ j, j < a.num_conn → a.port j ≠ a.port ((n - 1) % a.num_conn) →
      hwc.regs (a.port j) = 0 := by
    intro j hj hne
    have := o3 j (by rw [p3']; exact hj) (by rw [hport, hport, hc]; exact hne)
    rw [hport] at this
    exact this
  refine ⟨hwc.regs, 2 * ((ac.curr_conn + 1) % a.num_conn), ?_, o2, o3', ?_⟩
  · have d' := d
    simp only [hz] at d'
    exact d'
  · intro j k hj hk hj0 hk0
    have ej : a.port j = a.port ((n - 1) % a.num_conn) := by
      by_contra hne
      exact hj0 (o3' j hj hne)
    have ek : a.port k = a.port ((n - 1) % a.num_conn) := by
      by_contra hne
      exact hk0 (o3' k hk hne)
    rw [ej, ek]

/-- C33 as amended, at the handle of the counterexample with AMux_StartDMA
directly after AMux_SetupDMA. -/
theorem C33_handoff_after_setup_witness :
    threePinHandle.wf ∧ threePinHandle.dma_en = false ∧ 1 ≤ threePinHandle.num_conn ∧
    threePinHandle.num_conn ≤ AMUX_MAX_NUM_CONNECTIONS ∧
    blankHw.amux_dma_descriptor.length = 2 * AMUX_MAX_NUM_CONNECTIONS ∧ 5 ≠ 0 ∧
    (∀ j, j < threePinHandle.num_conn → threePinHandle.port j ≠ 0) ∧
    ∃ a1 hw1 a2 hw2,
      AMux_SetupDMA (some threePinHandle) 5 1 blankHw = some (AMUX_SUCCESS, some a1, hw1) ∧
      AMux_StartDMA (some a1) hw1 = (AMUX_SUCCESS, some a2, hw2) ∧ a2.dma_en = true ∧
      allClear threePinHandle hw2.regs ∧
      ∀ n, 1 ≤ n → ∃ regs slot,
        dmaRun a2 hw2.amux_dma_descriptor (2 * n) 0 hw2.regs = some (regs, slot) ∧
        regs (threePinHandle.port ((n - 1) % threePinHandle.num_conn)) =
          threePinHandle.pin ((n - 1) % threePinHandle.num_conn) ∧
        (∀ j, j < threePinHandle.num_conn →
          threePinHandle.port j ≠ threePinHandle.port ((n - 1) % threePinHandle.num_conn) →
          regs (threePinHandle.port j) = 0) ∧
        ∀ j k, j < threePinHandle.num_conn → k < threePinHandle.num_conn →
          regs (threePinHandle.port j) ≠ 0 → regs (threePinHandle.port k) ≠ 0 →
          threePinHandle.port j = threePinHandle.port k :=
  ⟨by decide, by decide, by decide, by decide, by decide, by decide, by decide,
    C33_handoff_after_setup threePinHandle blankHw 5 1
      (by decide) (by decide) (by decide) (by decide) (by decide) (by decide) (by decide)⟩

/-! ## A failing AMux_Init -/

/-- C34, the claim as stated fails: on an armed handle with three connections,
cursor 0 and engine instance 5, AMux_Init with the selection 9 (neither AMUX_A
nor AMUX_B) returns AMUX_ERROR and has reset num_conn to 0, the cursor to
AMUX_CONN_UNKNOWN, dma_base to NULL and dma_en to false. -/
theorem C34_counterexample :
    9 ≠ AMUX_A psoc6 ∧ 9 ≠ AMUX_B psoc6 ∧
    (AMux_Init psoc6
        (some { sampleHandle 3 with dma_en := true, dma_base := 5, curr_conn := 0 }) 9).1 =
      AMUX_ERROR ∧
    (AMux_Init psoc6
        (some { sampleHandle 3 with dma_en := true, dma_base := 5, curr_conn := 0 }) 9).2.map
      (fun a => (a.num_conn, a.curr_conn, a.dma_base, a.dma_en, a.amux_sel)) =
      some (0, 255, 0, false, 7) ∧
    ({ sampleHandle 3 with dma_en := true, dma_base := 5, curr_conn := 0 } : amux_t).num_conn
      = 3 := by
  decide

/-- C34 as amended: a failing AMux_Init is not atomic.  On every non-null handle
and every selection that is neither AMUX_A nor AMUX_B it returns AMUX_ERROR and
leaves amux_sel, the arrays and dma_chan as they were, but it has reset
num_conn to 0, the cursor to AMUX_CONN_UNKNOWN, dma_base to NULL and dma_en to
false. -/
theorem C34_failing_init_resets (pdl : Pdl) (a : amux_t) (sel : Nat)
    (hA : sel ≠ AMUX_A pdl) (hB : sel ≠ AMUX_B pdl) :
    AMux_Init pdl (some a) sel =
      (AMUX_ERROR, some { a with num_conn := 0, curr_conn := AMUX_CONN_UNKNOWN,
                                 dma_base := 0, dma_en := false }) ∧
    (AMux_Init pdl (some a) sel).2.map (fun b => b.amux_sel) = some a.amux_sel := by
  have h : sel ≠ AMUX_A pdl ∧ sel ≠ AMUX_B pdl := ⟨hA, hB⟩
  have e : AMux_Init pdl (some a) sel =
      (AMUX_ERROR, some { a with num_conn := 0, curr_conn := AMUX_CONN_UNKNOWN,
                                 dma_base := 0, dma_en := false }) := by
    simp only [AMux_Init, if_pos h]
  rw [e]
  exact ⟨rfl, rfl⟩

/-- C34 as amended, at the input of the counterexample. -/
theorem C34_failing_init_resets_witness :
    9 ≠ AMUX_A psoc6 ∧ 9 ≠ AMUX_B psoc6 ∧
    (AMux_Init psoc6
        (some { sampleHandle 3 with dma_en := true, dma_base := 5, curr_conn := 0 }) 9 =
      (AMUX_ERROR,
        some { ({ sampleHandle 3 with dma_en := true, dma_base := 5, curr_conn := 0 } : amux_t)
          with num_conn := 0, curr_conn := AMUX_CONN_UNKNOWN, dma_base := 0,
               dma_en := false }) ∧
    (AMux_Init psoc6
        (some { sampleHandle 3 with dma_en := true, dma_base := 5, curr_conn := 0 }) 9).2.map
      (fun b => b.amux_sel) =
      some ({ sampleHandle 3 with dma_en := true, dma_base := 5, curr_conn := 0 }
        : amux_t).amux_sel) :=
  ⟨by decide, by decide,
    C34_failing_init_resets psoc6
      { sampleHandle 3 with dma_en := true, dma_base := 5, curr_conn := 0 } 9
      (by decide) (by decide)⟩

/-! ## Register addresses in the reachable handle states -/

/-- The address constants of the PSoC 6 device keep every HSIOM block above
address 0 inside the 32-bit address space. -/
theorem hsiomInRange_psoc6 : hsiomInRange psoc6 := by
  unfold hsiomInRange psoc6
  constructor <;> norm_num

/-- The HSIOM block address AMux_AddPort computes for a port is not 0. -/
theorem portAddrHSIOM_pos (pdl : Pdl) (hr : hsiomInRange pdl) (port : Nat) :
    0 < portAddrHSIOM pdl port := by
  obtain ⟨hb, hlt⟩ := hr
  unfold portAddrHSIOM
  simp only
  have hx : (port + 2 ^ 32 - pdl.CY_GPIO_BASE) % 2 ^ 32 ≤ 2 ^ 32 - 1 := by
    have := Nat.mod_lt (port + 2 ^ 32 - pdl.CY_GPIO_BASE) (show 0 < 2 ^ 32 by norm_num)
    omega
  have hq : (port + 2 ^ 32 - pdl.CY_GPIO_BASE) % 2 ^ 32 / pdl.GPIO_PRT_SECTION_SIZE ≤
      (2 ^ 32 - 1) / pdl.GPIO_PRT_SECTION_SIZE := Nat.div_le_div_right hx
  have hm := Nat.mul_le_mul_left pdl.HSIOM_PRT_SECTION_SIZE hq
  rw [Nat.mod_eq_of_lt (by omega)]
  omega

/-- Every public call keeps the register addresses of the connections away from
address 0. -/
theorem applyOp_portsNonzero (pdl : Pdl) (hr : hsiomInRange pdl) (op : AmuxOp)
    (a a' : amux_t) (hw hw' : Hw)
    (h : applyOp pdl op a hw = some (a', hw')) (hwf : a.wf)
    (hn : a.num_conn ≤ AMUX_MAX_NUM_CONNECTIONS) (hp : portsNonzero a) :
    portsNonzero a' := by
  have hempty : ∀ b : amux_t, b.num_conn = 0 → portsNonzero b := by
    intro b hb0 c hc
    simp [connList, hb0] at hc
  cases op with
  | Init sel =>
    have hk := (keepHandle_some _ _ _ h).1
    simp only [AMux_Init] at hk
    split at hk
    · simp only [Option.some.injEq] at hk
      subst hk
      exact hempty _ rfl
    · simp only [Option.some.injEq] at hk
      subst hk
      exact hempty _ rfl
  | AddPort port mask =>
    have hk := (keepHandle_some _ _ _ h).1
    obtain ⟨a1, e1, _, _, _, _, _, m1⟩ := AMux_AddPort_effect pdl a port mask hw hwf hn
    rw [e1] at hk
    simp only [Option.some.injEq] at hk
    subst hk
    intro c hc
    rcases m1 c hc with hc | ⟨p, _, rfl⟩
    · exact hp c hc
    · have hpos := portAddrHSIOM_pos pdl hr port
      unfold pinConnection
      split <;> simp only <;> omega
  | Connect index =>
    simp only [applyOp] at h
    cases hr1 : AMux_Connect (some a) index hw with
    | none => rw [hr1] at h; simp at h
    | some r =>
      rw [hr1] at h
      have hk := (keepHandle_some _ _ _ h).1
      rcases AMux_Connect_some a index hw r hr1 with ⟨_, e⟩ | ⟨_, e⟩
      · rw [e] at hk; simp only [Option.some.injEq] at hk; subst hk
        exact hp
      · rw [e] at hk; simp only [Option.some.injEq] at hk; subst hk
        exact hp
  | ConnectNext =>
    simp only [applyOp] at h
    cases hr1 : AMux_ConnectNext (some a) hw with
    | none => rw [hr1] at h; simp at h
    | some r =>
      rw [hr1] at h
      have hk := (keepHandle_some _ _ _ h).1
      rcases AMux_ConnectNext_some a hw r hr1 with ⟨_, e⟩ | ⟨_, _, c, _, e⟩
      · rw [e] at hk; simp only [Option.some.injEq] at hk; subst hk
        exact hp
      · rw [e] at hk; simp only [Option.some.injEq] at hk; subst hk
        exact hp
  | DisconnectAll =>
    simp only [applyOp] at h
    cases hr1 : AMux_DisconnectAll (some a) hw with
    | none => rw [hr1] at h; simp at h
    | some r =>
      rw [hr1] at h
      have hk := (keepHandle_some _ _ _ h).1
      rw [(AMux_DisconnectAll_some a hw r hr1).2] at hk
      simp only [Option.some.injEq] at hk; subst hk
      exact hp
  | SetupDMA dma_base dma_chan =>
    simp only [applyOp] at h
    cases hr1 : AMux_SetupDMA (some a) dma_base dma_chan hw with
    | none => rw [hr1] at h; simp at h
    | some r =>
      rw [hr1] at h
      have hk := (keepHandle_some _ _ _ h).1
      rcases AMux_SetupDMA_some a dma_base dma_chan hw r hr1 with e | e
      · rw [e] at hk; simp only [Option.some.injEq] at hk; subst hk
        exact hp
      · rw [e] at hk; simp only [Option.some.injEq] at hk; subst hk
        exact hp
  | StartDMA =>
    have hk := (keepHandle_some _ _ _ h).1
    simp only [AMux_StartDMA] at hk
    split at hk
    · simp only [Option.some.injEq] at hk; subst hk
      exact hp
    · simp only [Option.some.injEq] at hk; subst hk
      exact hp
  | StopDMA =>
    have hk := (keepHandle_some _ _ _ h).1
    simp only [AMux_StopDMA] at hk
    split at hk
    · simp only [Option.some.injEq] at hk; subst hk
      exact hp
    · simp only [Option.some.injEq] at hk; subst hk
      exact hp
  | Deinit =>
    simp only [applyOp] at h
    cases hr1 : AMux_Deinit (some a) hw with
    | none => rw [hr1] at h; simp at h
    | some r =>
      rw [hr1] at h
      have hk := (keepHandle_some _ _ _ h).1
      rw [AMux_Deinit_some a hw r hr1] at hk
      simp only [Option.some.injEq] at hk; subst hk
      exact hempty _ rfl

/-- No state a sequence of public calls reaches has a connection register at
address 0. -/
theorem runOps_portsNonzero (pdl : Pdl) (hr : hsiomInRange pdl)
    (allowed : amux_t → AmuxOp → Bool) :
    ∀ (ops : List AmuxOp) (a a' : amux_t) (hw hw' : Hw),
      runOps pdl allowed ops a hw = some (a', hw') → a.wf →
      a.num_conn ≤ AMUX_MAX_NUM_CONNECTIONS → sameBank a → portsNonzero a →
      portsNonzero a' := by
  intro ops
  induction ops with
  | nil =>
    intro a a' hw hw' h _ _ _ hp
    simp only [runOps, Option.some.injEq, Prod.mk.injEq] at h
    rw [← h.1]
    exact hp
  | cons op ops ih =>
    intro a a' hw hw' h hwf hn hb hp
    simp only [runOps] at h
    split at h
    · cases hr1 : applyOp pdl op a hw with
      | none => rw [hr1] at h; simp at h
      | some r =>
        rw [hr1] at h
        obtain ⟨a1, hw1⟩ := r
        obtain ⟨w1, n1, b1⟩ := applyOp_inv pdl op a a1 hw hw1 hr1 hwf hn hb
        exact ih a1 a' hw1 hw' h w1 n1 b1
          (applyOp_portsNonzero pdl hr op a a1 hw hw1 hr1 hwf hn hp)
    · simp at h

/-- Every state `a` reached from a successful AMux_Init by any sequence of public
calls, on a device whose HSIOM blocks lie above address 0, has arrays of 32
entries, num_conn at most 32 and no connection register at address 0: the
handle states AMux_Deinit and the clearing loop are specified for. -/
theorem reachable_ports_nonzero (pdl : Pdl) (hr : hsiomInRange pdl) (a0 a1 a : amux_t)
    (sel : Nat) (ops : List AmuxOp) (hw : Hw) (hwf : a0.wf)
    (hinit : AMux_Init pdl (some a0) sel = (AMUX_SUCCESS, some a1))
    (hrun : (runOps pdl anyOp ops a1 hw).map Prod.fst = some a) :
    a.wf ∧ a.num_conn ≤ AMUX_MAX_NUM_CONNECTIONS ∧ ∀ j, j < a.num_conn → a.port j ≠ 0 := by
  obtain ⟨e1, _⟩ := AMux_Init_success pdl a0 a1 sel hinit
  obtain ⟨⟨a', hw'⟩, hr1, ha⟩ := Option.map_eq_some'.mp hrun
  simp only at ha
  subst ha
  have hb1 : sameBank a1 := by
    intro c hc
    rw [e1] at hc
    simp [connList] at hc
  have hp1 : portsNonzero a1 := by
    intro c hc
    rw [e1] at hc
    simp [connList] at hc
  have hw1 : a1.wf := by rw [e1]; exact hwf
  have hn1 : a1.num_conn ≤ AMUX_MAX_NUM_CONNECTIONS := by rw [e1]; exact Nat.zero_le _
  obtain ⟨w, n, _⟩ := runOps_inv pdl anyOp ops a1 a' hw hw' hr1 hw1 hn1 hb1
  have p := runOps_portsNonzero pdl hr anyOp ops a1 a' hw hw' hr1 hw1 hn1 hb1 hp1
  refine ⟨w, n, ?_⟩
  intro j hj
  exact p (a'.port j, a'.pin j) (List.mem_map.mpr ⟨j, List.mem_range.mpr hj, rfl⟩)
